import Mathlib

/-!
# The ALi 15x3 SMBus host driver (`kernel/busses/i2c-ali15x3.c`)

A shallow embedding of `ali15x3_access` and `ali15x3_transaction`.

* Port numbers are offsets from the I/O base `ali15x3_smba`.
* Every register access of a call is recorded, in program order, in a trace.
* The controller is a function from the history of the call so far and a port
  offset to the byte that a read of that port returns next; results are
  quantified over all such functions.
* `ali15x3_do_pause` and `printk` touch neither the registers nor the payload and
  are left out.  The parameters `adap` and `flags` are never used by the code.
-/

namespace Ali15x3

/-! ## Constants (lines 98-150) -/

@[simp] abbrev SMBHSTSTS : Nat := 0
@[simp] abbrev SMBHSTCNT : Nat := 1
@[simp] abbrev SMBHSTSTART : Nat := 2
@[simp] abbrev SMBHSTCMD : Nat := 7
@[simp] abbrev SMBHSTADD : Nat := 3
@[simp] abbrev SMBHSTDAT0 : Nat := 4
@[simp] abbrev SMBHSTDAT1 : Nat := 5
@[simp] abbrev SMBBLKDAT : Nat := 6

@[simp] abbrev MAX_TIMEOUT : Nat := 500

@[simp] abbrev ALI15X3_ABORT : Nat := 0x02
@[simp] abbrev ALI15X3_T_OUT : Nat := 0x04
@[simp] abbrev ALI15X3_QUICK : Int := 0x00
@[simp] abbrev ALI15X3_BYTE : Int := 0x10
@[simp] abbrev ALI15X3_BYTE_DATA : Int := 0x20
@[simp] abbrev ALI15X3_WORD_DATA : Int := 0x30
@[simp] abbrev ALI15X3_BLOCK_DATA : Int := 0x40
@[simp] abbrev ALI15X3_BLOCK_CLR : Nat := 0x80

@[simp] abbrev ALI15X3_STS_IDLE : Nat := 0x04
@[simp] abbrev ALI15X3_STS_BUSY : Nat := 0x08
@[simp] abbrev ALI15X3_STS_DONE : Nat := 0x10
@[simp] abbrev ALI15X3_STS_DEV : Nat := 0x20
@[simp] abbrev ALI15X3_STS_COLL : Nat := 0x40
@[simp] abbrev ALI15X3_STS_TERM : Nat := 0x80
@[simp] abbrev ALI15X3_STS_ERR : Nat := 0xE0

/-! ## Constants of `<linux/i2c.h>`

The header is not part of the sources; the driver only compares `size` and
`read_write` against these names.  The values are the ones of the kernel
header of that time. -/

/-- Modelled from the spec: direction value `write` of `<linux/i2c.h>`. -/
@[simp] abbrev I2C_SMBUS_WRITE : Nat := 0
/-- Modelled from the spec: direction value `read` of `<linux/i2c.h>`. -/
@[simp] abbrev I2C_SMBUS_READ : Nat := 1
/-- Modelled from the spec: size class `quick` of `<linux/i2c.h>`. -/
@[simp] abbrev I2C_SMBUS_QUICK : Int := 0
/-- Modelled from the spec: size class `byte` of `<linux/i2c.h>`. -/
@[simp] abbrev I2C_SMBUS_BYTE : Int := 1
/-- Modelled from the spec: size class `byte-data` of `<linux/i2c.h>`. -/
@[simp] abbrev I2C_SMBUS_BYTE_DATA : Int := 2
/-- Modelled from the spec: size class `word-data` of `<linux/i2c.h>`. -/
@[simp] abbrev I2C_SMBUS_WORD_DATA : Int := 3
/-- Modelled from the spec: size class `process-call` of `<linux/i2c.h>`. -/
@[simp] abbrev I2C_SMBUS_PROC_CALL : Int := 4
/-- Modelled from the spec: size class `block-data` of `<linux/i2c.h>`. -/
@[simp] abbrev I2C_SMBUS_BLOCK_DATA : Int := 5

/-! ## Data model -/

/-- The payload `union i2c_smbus_data`: its three views `byte`, `word` and
`block[]` are kept as separate fields (the overlap of the views in memory is not
modelled).  `block 0` is the length header. -/
structure SmbusData where
  byte : Nat
  word : Nat
  block : Nat → Nat

/-- One register access: a read that returned `val`, or a write of `val`. -/
inductive IOEvent where
  | rd (port val : Nat)
  | wr (port val : Nat)
deriving DecidableEq, Repr

/-- The register accesses of a call, oldest first. -/
abbrev Trace := List IOEvent

/-- The controller: given the accesses made so far and a port, the value the
next read of that port returns. -/
abbrev Hardware := Trace → Nat → Nat

/-- Port read `inb_p(port)`: one byte, recorded in the trace. -/
def inb_p (hw : Hardware) (tr : Trace) (port : Nat) : Nat × Trace :=
  (hw tr port % 256, tr ++ [IOEvent.rd port (hw tr port % 256)])

/-- Port write `outb_p(val, port)`: the value is truncated to one byte. -/
def outb_p (tr : Trace) (val port : Nat) : Trace :=
  tr ++ [IOEvent.wr port (val % 256)]

/-- Conversion of an `int` to the byte that `outb_p` puts on the bus. -/
def u8_of_int (z : Int) : Nat := (z % 256).toNat

/-! ## `ali15x3_transaction` (lines 372-494) -/

/-- Lines 385-422: read the status; when BUSY is set, write `ALI15X3_T_OUT` to the
command register and read the status again.  Returns `temp` and the trace. -/
def transaction_recover (hw : Hardware) (tr : Trace) : Nat × Trace :=
  let r := inb_p hw tr SMBHSTSTS
  if r.1 &&& ALI15X3_STS_BUSY ≠ 0 then
    inb_p hw (outb_p r.2 ALI15X3_T_OUT SMBHSTCNT) SMBHSTSTS
  else r

/-- Lines 385-446: everything up to and including the write of the start
register.  The flag is `false` when the function returns -1 at line 436. -/
def transaction_start (hw : Hardware) (tr : Trace) : Bool × Trace :=
  let r := transaction_recover hw tr
  if r.1 &&& (ALI15X3_STS_ERR ||| ALI15X3_STS_BUSY) ≠ 0 then
    let r2 := inb_p hw (outb_p r.2 0xFF SMBHSTSTS) SMBHSTSTS
    if r2.1 &&& (ALI15X3_STS_ERR ||| ALI15X3_STS_BUSY) ≠ 0 then (false, r2.2)
    else (true, outb_p r2.2 0xFF SMBHSTSTART)
  else if r.1 &&& ALI15X3_STS_DONE ≠ 0 then
    (true, outb_p (outb_p r.2 r.1 SMBHSTSTS) 0xFF SMBHSTSTART)
  else (true, outb_p r.2 0xFF SMBHSTSTART)

/-- State at the exit of the polling loop. -/
structure Polled where
  temp : Nat
  timeout : Nat
  trace : Trace

/-- Lines 449-453, the loop
`do { pause; temp = inb_p(SMBHSTSTS); } while (!(temp & (ERR|DONE)) && (timeout++ < MAX_TIMEOUT))`.
The first argument is `MAX_TIMEOUT - timeout`.  The increment `timeout++` is
only evaluated when the left operand of `&&` is true. -/
def transaction_poll (hw : Hardware) : Nat → Trace → Polled
  | 0, tr =>
    let r := inb_p hw tr SMBHSTSTS
    if r.1 &&& (ALI15X3_STS_ERR ||| ALI15X3_STS_DONE) ≠ 0 then ⟨r.1, MAX_TIMEOUT, r.2⟩
    else ⟨r.1, MAX_TIMEOUT + 1, r.2⟩
  | n + 1, tr =>
    let r := inb_p hw tr SMBHSTSTS
    if r.1 &&& (ALI15X3_STS_ERR ||| ALI15X3_STS_DONE) ≠ 0 then ⟨r.1, MAX_TIMEOUT - (n + 1), r.2⟩
    else transaction_poll hw n r.2

/-- Lines 455-493: the value of `result` computed from `temp` and `timeout`. -/
def transaction_result (temp timeout : Nat) : Int :=
  let result : Int := 0
  let result := if timeout ≥ MAX_TIMEOUT then -1 else result
  let result := if temp &&& ALI15X3_STS_TERM ≠ 0 then -1 else result
  let result := if temp &&& ALI15X3_STS_COLL ≠ 0 then -1 else result
  let result := if temp &&& ALI15X3_STS_DEV ≠ 0 then -1 else result
  result

/-- The function `ali15x3_transaction`: return value and trace. -/
def ali15x3_transaction (hw : Hardware) (tr : Trace) : Int × Trace :=
  let s := transaction_start hw tr
  if s.1 then
    let p := transaction_poll hw MAX_TIMEOUT s.2
    (transaction_result p.temp p.timeout, p.trace)
  else (-1, s.2)

/-! ## `ali15x3_access` (lines 497-604) -/

/-- Lines 509-513, the loop
`for (timeout = 0; (timeout < MAX_TIMEOUT) && !(temp & IDLE); timeout++)`.
The first argument is `MAX_TIMEOUT - timeout`. -/
def idle_wait (hw : Hardware) : Nat → Nat → Trace → Nat × Trace
  | 0, temp, tr => (temp, tr)
  | n + 1, temp, tr =>
    if temp &&& ALI15X3_STS_IDLE ≠ 0 then (temp, tr)
    else idle_wait hw n (inb_p hw tr SMBHSTSTS).1 (inb_p hw tr SMBHSTSTS).2

/-- Lines 505-516: clear-on-write of the status register, then the idle wait.
Returns `temp` and the trace. -/
def access_idle (hw : Hardware) : Nat × Trace :=
  let r := inb_p hw (outb_p [] 0xFF SMBHSTSTS) SMBHSTSTS
  idle_wait hw MAX_TIMEOUT r.1 r.2

/-- Lines 563-564, `for (i = 1; i <= len; i++) outb_p(data->block[i], SMBBLKDAT)`.
The first argument is the number of iterations left, the second is `i`. -/
def block_write_loop (block : Nat → Nat) : Nat → Nat → Trace → Trace
  | 0, _, tr => tr
  | n + 1, i, tr => block_write_loop block n (i + 1) (outb_p tr (block i) SMBBLKDAT)

/-- State after the first `switch`: the new value of `size`, the payload and
the trace. -/
structure Armed where
  size : Int
  data : SmbusData
  trace : Trace

/-- Lines 518-568, the first `switch (size)`.  `none` is the `return -1` of the
process-call case. -/
def access_switch (hw : Hardware) (tr : Trace) (addr read_write command : Nat)
    (size : Int) (data : SmbusData) : Option Armed :=
  if size = I2C_SMBUS_PROC_CALL then none
  else if size = I2C_SMBUS_QUICK then
    some ⟨ALI15X3_QUICK, data,
      outb_p tr (((addr &&& 0x7f) <<< 1) ||| (read_write &&& 0x01)) SMBHSTADD⟩
  else if size = I2C_SMBUS_BYTE then
    let tr := outb_p tr (((addr &&& 0x7f) <<< 1) ||| (read_write &&& 0x01)) SMBHSTADD
    let tr := if read_write = I2C_SMBUS_WRITE then outb_p tr command SMBHSTCMD else tr
    some ⟨ALI15X3_BYTE, data, tr⟩
  else if size = I2C_SMBUS_BYTE_DATA then
    let tr := outb_p tr (((addr &&& 0x7f) <<< 1) ||| (read_write &&& 0x01)) SMBHSTADD
    let tr := outb_p tr command SMBHSTCMD
    let tr := if read_write = I2C_SMBUS_WRITE then outb_p tr data.byte SMBHSTDAT0 else tr
    some ⟨ALI15X3_BYTE_DATA, data, tr⟩
  else if size = I2C_SMBUS_WORD_DATA then
    let tr := outb_p tr (((addr &&& 0x7f) <<< 1) ||| (read_write &&& 0x01)) SMBHSTADD
    let tr := outb_p tr command SMBHSTCMD
    let tr :=
      if read_write = I2C_SMBUS_WRITE then
        outb_p (outb_p tr (data.word &&& 0xff) SMBHSTDAT0)
          ((data.word &&& 0xff00) >>> 8) SMBHSTDAT1
      else tr
    some ⟨ALI15X3_WORD_DATA, data, tr⟩
  else if size = I2C_SMBUS_BLOCK_DATA then
    let tr := outb_p tr (((addr &&& 0x7f) <<< 1) ||| (read_write &&& 0x01)) SMBHSTADD
    let tr := outb_p tr command SMBHSTCMD
    if read_write = I2C_SMBUS_WRITE then
      let len : Int := (data.block 0 : Nat)
      let data1 : SmbusData :=
        if len < 0 then { data with block := Function.update data.block 0 0 } else data
      let len : Int := if len < 0 then 0 else len
      let data2 : SmbusData :=
        if len > 32 then { data1 with block := Function.update data1.block 0 32 } else data1
      let len : Int := if len > 32 then 32 else len
      let tr := outb_p tr len.toNat SMBHSTDAT0
      let c := inb_p hw tr SMBHSTCNT
      let tr := outb_p c.2 (c.1 ||| ALI15X3_BLOCK_CLR) SMBHSTCNT
      some ⟨ALI15X3_BLOCK_DATA, data2, block_write_loop data2.block len.toNat 1 tr⟩
    else some ⟨ALI15X3_BLOCK_DATA, data, tr⟩
  else some ⟨size, data, tr⟩

/-- Lines 505-570: idle wait, first `switch` and `outb_p(size, SMBHSTCNT)`; the
state in which `ali15x3_transaction` is called. -/
def access_arm (hw : Hardware) (addr read_write command : Nat) (size : Int)
    (data : SmbusData) : Option Armed :=
  match access_switch hw (access_idle hw).2 addr read_write command size data with
  | none => none
  | some a => some { a with trace := outb_p a.trace (u8_of_int a.size) SMBHSTCNT }

/-- Lines 595-600, `for (i = 1; i <= data->block[0]; i++) data->block[i] = inb_p(SMBBLKDAT)`.
The body only stores at indices `i ≥ 1`, so the bound `data->block[0]` is the
value stored at line 593; the first argument is the number of iterations left,
the second is `i`. -/
def block_read_loop (hw : Hardware) : Nat → Nat → SmbusData → Trace → SmbusData × Trace
  | 0, _, data, tr => (data, tr)
  | n + 1, i, data, tr =>
    let r := inb_p hw tr SMBBLKDAT
    block_read_loop hw n (i + 1) { data with block := Function.update data.block i r.1 } r.2

/-- Lines 579-602, the second `switch (size)`.  In the word case the read of
`SMBHSTDAT0` is taken to precede the read of `SMBHSTDAT1`. -/
def access_decode (hw : Hardware) (size : Int) (data : SmbusData) (tr : Trace) :
    SmbusData × Trace :=
  if size = ALI15X3_BYTE then
    let r := inb_p hw tr SMBHSTDAT0
    ({ data with byte := r.1 }, r.2)
  else if size = ALI15X3_BYTE_DATA then
    let r := inb_p hw tr SMBHSTDAT0
    ({ data with byte := r.1 }, r.2)
  else if size = ALI15X3_WORD_DATA then
    let r0 := inb_p hw tr SMBHSTDAT0
    let r1 := inb_p hw r0.2 SMBHSTDAT1
    ({ data with word := r0.1 + (r1.1 <<< 8) }, r1.2)
  else if size = ALI15X3_BLOCK_DATA then
    let r := inb_p hw tr SMBHSTDAT0
    let len := if r.1 > 32 then 32 else r.1
    let data := { data with block := Function.update data.block 0 len }
    let c := inb_p hw r.2 SMBHSTCNT
    let tr := outb_p c.2 (c.1 ||| ALI15X3_BLOCK_CLR) SMBHSTCNT
    block_read_loop hw len 1 data tr
  else (data, tr)

/-- What a call leaves behind: return value, payload and I/O trace. -/
structure Outcome where
  ret : Int
  data : SmbusData
  trace : Trace

/-- The function `ali15x3_access`. -/
def ali15x3_access (hw : Hardware) (addr read_write command : Nat) (size : Int)
    (data : SmbusData) : Outcome :=
  match access_arm hw addr read_write command size data with
  | none => ⟨-1, data, (access_idle hw).2⟩
  | some a =>
    let t := ali15x3_transaction hw a.trace
    if t.1 ≠ 0 then ⟨-1, a.data, t.2⟩
    else if read_write = I2C_SMBUS_WRITE ∨ a.size = ALI15X3_QUICK then ⟨0, a.data, t.2⟩
    else
      let d := access_decode hw a.size a.data t.2
      ⟨0, d.1, d.2⟩

/-! ## Reading a trace -/

/-- The write trace: the writes of a trace as pairs (port, value), in order. -/
def writes (tr : Trace) : List (Nat × Nat) :=
  tr.filterMap fun e => match e with
    | IOEvent.wr p v => some (p, v)
    | IOEvent.rd _ _ => none

/-- The reads of a trace as pairs (port, value), in order. -/
def reads (tr : Trace) : List (Nat × Nat) :=
  tr.filterMap fun e => match e with
    | IOEvent.rd p v => some (p, v)
    | IOEvent.wr _ _ => none

/-- The five size classes the driver implements. -/
def Supported (size : Int) : Prop :=
  size = I2C_SMBUS_QUICK ∨ size = I2C_SMBUS_BYTE ∨ size = I2C_SMBUS_BYTE_DATA ∨
    size = I2C_SMBUS_WORD_DATA ∨ size = I2C_SMBUS_BLOCK_DATA

instance (size : Int) : Decidable (Supported size) := by
  unfold Supported; infer_instance

/-- Trace after `k` further reads of the status register. -/
def poll_trace (hw : Hardware) : Nat → Trace → Trace
  | 0, tr => tr
  | k + 1, tr => poll_trace hw k (inb_p hw tr SMBHSTSTS).2

/-- The value of read number `k` (counted from 0) in a run of status reads that
starts in trace `tr`: the `k`-th status read of the polling loop entered with
`tr`, if the loop gets that far. -/
def poll_status (hw : Hardware) (k : Nat) (tr : Trace) : Nat :=
  (inb_p hw (poll_trace hw k tr) SMBHSTSTS).1

/-- An access made by the first switch: a write of the address, command-code,
data or block-data register, or the read-modify-write of the command register
that sets `ALI15X3_BLOCK_CLR`. -/
def ArmEvent : IOEvent → Prop
  | IOEvent.wr p v => p = SMBHSTADD ∨ p = SMBHSTCMD ∨ p = SMBHSTDAT0 ∨ p = SMBHSTDAT1 ∨
      p = SMBBLKDAT ∨ (p = SMBHSTCNT ∧ v &&& ALI15X3_BLOCK_CLR ≠ 0)
  | IOEvent.rd p _ => p = SMBHSTCNT

/-- The register value the controller returns for the read of the command
register in the block-write path. -/
def block_write_cnt (hw : Hardware) (tr : Trace) (addr command : Nat) (data : SmbusData) : Nat :=
  hw (tr ++ [IOEvent.wr SMBHSTADD (((addr &&& 0x7f) <<< 1) ||| (I2C_SMBUS_WRITE &&& 0x01)),
    IOEvent.wr SMBHSTCMD (command % 256),
    IOEvent.wr SMBHSTDAT0 (min (data.block 0) 32)]) SMBHSTCNT % 256

/-- An access made by `ali15x3_transaction` before the polling loop. -/
def StartEvent : IOEvent → Prop
  | IOEvent.wr p v => (p = SMBHSTCNT ∧ v = ALI15X3_T_OUT) ∨ p = SMBHSTSTS ∨
      (p = SMBHSTSTART ∧ v = 0xFF)
  | IOEvent.rd p _ => p = SMBHSTSTS

/-- A write made by the first switch, as an entry of the write trace. -/
def ArmWrite (w : Nat × Nat) : Prop :=
  w.1 = SMBHSTADD ∨ w.1 = SMBHSTCMD ∨ w.1 = SMBHSTDAT0 ∨ w.1 = SMBHSTDAT1 ∨
    w.1 = SMBBLKDAT ∨ (w.1 = SMBHSTCNT ∧ w.2 &&& ALI15X3_BLOCK_CLR ≠ 0)

/-- The host-command byte of a size class as the specification tabulates it:
QUICK=0x00, BYTE=0x10, BYTE_DATA=0x20, WORD_DATA=0x30, BLOCK_DATA=0x40. -/
def spec_command_byte (size : Int) : Nat :=
  if size = I2C_SMBUS_QUICK then 0x00
  else if size = I2C_SMBUS_BYTE then 0x10
  else if size = I2C_SMBUS_BYTE_DATA then 0x20
  else if size = I2C_SMBUS_WORD_DATA then 0x30
  else if size = I2C_SMBUS_BLOCK_DATA then 0x40
  else 0

/-- The block length clamped into [0, 32] as the specification words it: 32 if
`L > 32`, 0 if `L < 0`, `L` otherwise. -/
def spec_clamp_length (L : Int) : Int :=
  if L > 32 then 32 else if L < 0 then 0 else L

/-! ## Sample controllers and payloads -/

/-- A well-behaved controller: the status reads IDLE until the start register is
written, BUSY at the first read after the start write and DONE from then on;
Data0 reads 3 and every other register reads the number of accesses made so
far. -/
def hw_good : Hardware := fun tr port =>
  if port = SMBHSTSTS then
    (if IOEvent.wr SMBHSTSTART 0xFF ∈ tr then
      (if tr.getLast? = some (IOEvent.wr SMBHSTSTART 0xFF) then 0x08 else 0x10)
     else 0x04)
  else if port = SMBHSTDAT0 then 3
  else tr.length

/-- A controller that is idle until started and then reports DONE together
with a device error. -/
def hw_error : Hardware := fun tr port =>
  if port = SMBHSTSTS then (if IOEvent.wr SMBHSTSTART 0xFF ∈ tr then 0x30 else 0x04) else 0

/-- A controller whose status never shows IDLE and reads DONE directly after
the start write. -/
def hw_never_idle : Hardware := fun tr port =>
  if port = SMBHSTSTS then
    (if tr.getLast? = some (IOEvent.wr SMBHSTSTART 0xFF) then 0x10 else 0x00)
  else 0

/-- A controller that is found BUSY until the bus reset is written to the
command register, is idle afterwards and reports DONE once started. -/
def hw_busy_once : Hardware := fun tr port =>
  if port = SMBHSTSTS then
    (if IOEvent.wr SMBHSTSTART 0xFF ∈ tr then 0x10
     else if IOEvent.wr SMBHSTCNT ALI15X3_T_OUT ∈ tr then 0x04 else 0x0C)
  else 0

/-- A payload with byte `0xAB`, word `0x1234` and a block of declared length 40
whose payload byte `i` is `i` for `i` from 1 to 40. -/
def sample_data : SmbusData :=
  ⟨0xAB, 0x1234, fun i => if i = 0 then 40 else if i ≤ 40 then i else 0⟩

/-- A controller whose status register always reads IDLE and BUSY. -/
def hw_stuck : Hardware := fun _ _ => 0x0C

/-- A controller that is always idle and never completes. -/
def hw_idle : Hardware := fun _ _ => 0x04

/-! ## Basic facts -/

@[simp] theorem inb_p_fst (hw : Hardware) (tr : Trace) (port : Nat) :
    (inb_p hw tr port).1 = hw tr port % 256 := rfl

@[simp] theorem inb_p_snd (hw : Hardware) (tr : Trace) (port : Nat) :
    (inb_p hw tr port).2 = tr ++ [IOEvent.rd port (hw tr port % 256)] := rfl

@[simp] theorem writes_nil : writes [] = [] := rfl

@[simp] theorem writes_append (a b : Trace) : writes (a ++ b) = writes a ++ writes b := by
  simp [writes, List.filterMap_append]

@[simp] theorem writes_cons_wr (p v : Nat) (tr : Trace) :
    writes (IOEvent.wr p v :: tr) = (p, v) :: writes tr := by
  simp [writes, List.filterMap_cons]

@[simp] theorem writes_cons_rd (p v : Nat) (tr : Trace) :
    writes (IOEvent.rd p v :: tr) = writes tr := by
  simp [writes, List.filterMap_cons]

@[simp] theorem writes_outb_p (tr : Trace) (v p : Nat) :
    writes (outb_p tr v p) = writes tr ++ [(p, v % 256)] := by
  simp [outb_p]

@[simp] theorem reads_nil : reads [] = [] := rfl

@[simp] theorem reads_append (a b : Trace) : reads (a ++ b) = reads a ++ reads b := by
  simp [reads, List.filterMap_append]

@[simp] theorem reads_cons_wr (p v : Nat) (tr : Trace) :
    reads (IOEvent.wr p v :: tr) = reads tr := by
  simp [reads, List.filterMap_cons]

@[simp] theorem reads_cons_rd (p v : Nat) (tr : Trace) :
    reads (IOEvent.rd p v :: tr) = (p, v) :: reads tr := by
  simp [reads, List.filterMap_cons]

@[simp] theorem reads_outb_p (tr : Trace) (v p : Nat) :
    reads (outb_p tr v p) = reads tr := by
  simp [outb_p]

theorem mem_writes {tr : Trace} {p v : Nat} : (p, v) ∈ writes tr ↔ IOEvent.wr p v ∈ tr := by
  induction tr with
  | nil => simp
  | cons e tr ih => cases e <;> simp [ih]

theorem mem_reads {tr : Trace} {p v : Nat} : (p, v) ∈ reads tr ↔ IOEvent.rd p v ∈ tr := by
  induction tr with
  | nil => simp
  | cons e tr ih => cases e <;> simp [ih]

/-! ## The idle wait -/

theorem idle_wait_trace (hw : Hardware) (n : Nat) :
    ∀ (temp : Nat) (tr : Trace), ∃ vs : List Nat,
      (idle_wait hw n temp tr).2 = tr ++ vs.map (IOEvent.rd SMBHSTSTS) ∧ vs.length ≤ n := by
  induction n with
  | zero => intro temp tr; exact ⟨[], by simp [idle_wait]⟩
  | succ n ih =>
    intro temp tr
    by_cases h : temp &&& ALI15X3_STS_IDLE ≠ 0
    · exact ⟨[], by simp [idle_wait, h]⟩
    · obtain ⟨vs, hvs, hlen⟩ := ih (hw tr SMBHSTSTS % 256) (tr ++ [IOEvent.rd SMBHSTSTS (hw tr SMBHSTSTS % 256)])
      refine ⟨(hw tr SMBHSTSTS % 256) :: vs, ?_, by simpa using hlen⟩
      simp only [idle_wait, h, if_false, inb_p_fst, inb_p_snd, hvs]
      simp

theorem access_idle_trace (hw : Hardware) : ∃ vs : List Nat,
    (access_idle hw).2 = IOEvent.wr SMBHSTSTS 0xFF :: vs.map (IOEvent.rd SMBHSTSTS) := by
  obtain ⟨vs, hvs, -⟩ := idle_wait_trace hw MAX_TIMEOUT
    (hw [IOEvent.wr SMBHSTSTS 0xFF] SMBHSTSTS % 256)
    ([IOEvent.wr SMBHSTSTS 0xFF] ++ [IOEvent.rd SMBHSTSTS (hw [IOEvent.wr SMBHSTSTS 0xFF] SMBHSTSTS % 256)])
  refine ⟨(hw [IOEvent.wr SMBHSTSTS 0xFF] SMBHSTSTS % 256) :: vs, ?_⟩
  have : outb_p [] 0xFF SMBHSTSTS = [IOEvent.wr SMBHSTSTS 0xFF] := by simp [outb_p]
  simp only [access_idle, this, inb_p_fst, inb_p_snd, hvs]
  simp

theorem writes_map_rd (p : Nat) (vs : List Nat) : writes (vs.map (IOEvent.rd p)) = [] := by
  induction vs with
  | nil => rfl
  | cons v vs ih => simp [ih]

theorem reads_map_rd (p : Nat) (vs : List Nat) :
    reads (vs.map (IOEvent.rd p)) = vs.map (fun v => (p, v)) := by
  induction vs with
  | nil => rfl
  | cons v vs ih => simp [ih]

theorem writes_access_idle (hw : Hardware) : writes (access_idle hw).2 = [(SMBHSTSTS, 0xFF)] := by
  obtain ⟨vs, hvs⟩ := access_idle_trace hw
  simp [hvs, writes_map_rd]

theorem reads_access_idle (hw : Hardware) :
    ∀ r ∈ reads (access_idle hw).2, r.1 = SMBHSTSTS := by
  obtain ⟨vs, hvs⟩ := access_idle_trace hw
  intro r hr
  simp [hvs, reads_map_rd] at hr
  obtain ⟨v, -, rfl⟩ := hr
  rfl

/-! ## The first switch -/

theorem block_write_loop_trace (block : Nat → Nat) (n : Nat) :
    ∀ (i : Nat) (tr : Trace), block_write_loop block n i tr =
      tr ++ (List.range' i n).map (fun j => IOEvent.wr SMBBLKDAT (block j % 256)) := by
  induction n with
  | zero => intro i tr; simp [block_write_loop]
  | succ n ih =>
    intro i tr
    simp [block_write_loop, ih, outb_p, List.range'_succ]

theorem access_switch_eq_none {hw : Hardware} {tr : Trace} {addr read_write command : Nat}
    {size : Int} {data : SmbusData} :
    access_switch hw tr addr read_write command size data = none ↔
      size = I2C_SMBUS_PROC_CALL := by
  unfold access_switch
  constructor
  · intro h
    by_contra hne
    simp only [hne, if_false] at h
    split_ifs at h
  · intro h
    simp [h]

theorem or_block_clr_lt (c : Nat) (h : c < 256) : c ||| ALI15X3_BLOCK_CLR < 256 :=
  Nat.or_lt_two_pow (n := 8) h (by decide)

theorem or_block_clr_and (c : Nat) : (c ||| ALI15X3_BLOCK_CLR) &&& ALI15X3_BLOCK_CLR ≠ 0 := by
  have h : (c ||| ALI15X3_BLOCK_CLR) &&& ALI15X3_BLOCK_CLR = ALI15X3_BLOCK_CLR := by
    apply Nat.eq_of_testBit_eq
    intro i
    simp only [Nat.testBit_and, Nat.testBit_or]
    cases Nat.testBit c i <;> simp
  rw [h]; decide

theorem address_value_lt (addr read_write : Nat) :
    ((addr &&& 0x7f) <<< 1) ||| (read_write &&& 0x01) < 256 := by
  have h1 : addr &&& 0x7f ≤ 0x7f := Nat.and_le_right
  have h2 : read_write &&& 0x01 ≤ 0x01 := Nat.and_le_right
  apply Nat.or_lt_two_pow (n := 8)
  · rw [Nat.shiftLeft_eq]; omega
  · omega

theorem address_value_mod (addr read_write : Nat) :
    (((addr &&& 0x7f) <<< 1) ||| (read_write &&& 0x01)) % 256 =
      ((addr &&& 0x7f) <<< 1) ||| (read_write &&& 0x01) :=
  Nat.mod_eq_of_lt (address_value_lt addr read_write)

theorem address_value_lt_mod (addr read_write : Nat) :
    ((addr &&& 127) <<< 1) ||| (read_write % 2) < 256 := by
  have h := address_value_lt addr read_write
  rwa [Nat.and_one_is_mod] at h

theorem address_shift_lt (addr : Nat) : (addr &&& 127) <<< 1 < 256 := by
  have h := address_value_lt addr 0
  simpa using h

theorem access_switch_quick (hw : Hardware) (tr : Trace) (addr read_write command : Nat)
    (data : SmbusData) :
    access_switch hw tr addr read_write command I2C_SMBUS_QUICK data =
      some ⟨ALI15X3_QUICK, data,
        tr ++ [IOEvent.wr SMBHSTADD (((addr &&& 0x7f) <<< 1) ||| (read_write &&& 0x01))]⟩ := by
  simp [access_switch, outb_p, address_value_lt_mod, address_shift_lt]

theorem access_switch_byte (hw : Hardware) (tr : Trace) (addr read_write command : Nat)
    (data : SmbusData) :
    access_switch hw tr addr read_write command I2C_SMBUS_BYTE data =
      some ⟨ALI15X3_BYTE, data,
        tr ++ IOEvent.wr SMBHSTADD (((addr &&& 0x7f) <<< 1) ||| (read_write &&& 0x01)) ::
          (if read_write = I2C_SMBUS_WRITE then [IOEvent.wr SMBHSTCMD (command % 256)] else [])⟩ := by
  by_cases h : read_write = 0 <;> simp [access_switch, outb_p, address_value_lt_mod, address_shift_lt, h]

theorem access_switch_byte_data (hw : Hardware) (tr : Trace) (addr read_write command : Nat)
    (data : SmbusData) :
    access_switch hw tr addr read_write command I2C_SMBUS_BYTE_DATA data =
      some ⟨ALI15X3_BYTE_DATA, data,
        tr ++ IOEvent.wr SMBHSTADD (((addr &&& 0x7f) <<< 1) ||| (read_write &&& 0x01)) ::
          IOEvent.wr SMBHSTCMD (command % 256) ::
          (if read_write = I2C_SMBUS_WRITE then [IOEvent.wr SMBHSTDAT0 (data.byte % 256)] else [])⟩ := by
  by_cases h : read_write = 0 <;> simp [access_switch, outb_p, address_value_lt_mod, address_shift_lt, h]

theorem access_switch_word_data (hw : Hardware) (tr : Trace) (addr read_write command : Nat)
    (data : SmbusData) :
    access_switch hw tr addr read_write command I2C_SMBUS_WORD_DATA data =
      some ⟨ALI15X3_WORD_DATA, data,
        tr ++ IOEvent.wr SMBHSTADD (((addr &&& 0x7f) <<< 1) ||| (read_write &&& 0x01)) ::
          IOEvent.wr SMBHSTCMD (command % 256) ::
          (if read_write = I2C_SMBUS_WRITE then
            [IOEvent.wr SMBHSTDAT0 ((data.word &&& 0xff) % 256),
             IOEvent.wr SMBHSTDAT1 (((data.word &&& 0xff00) >>> 8) % 256)] else [])⟩ := by
  by_cases h : read_write = 0 <;> simp [access_switch, outb_p, address_value_lt_mod, address_shift_lt, h]

theorem access_switch_block_read (hw : Hardware) (tr : Trace) (addr read_write command : Nat)
    (data : SmbusData) (h : read_write ≠ I2C_SMBUS_WRITE) :
    access_switch hw tr addr read_write command I2C_SMBUS_BLOCK_DATA data =
      some ⟨ALI15X3_BLOCK_DATA, data,
        tr ++ [IOEvent.wr SMBHSTADD (((addr &&& 0x7f) <<< 1) ||| (read_write &&& 0x01)),
          IOEvent.wr SMBHSTCMD (command % 256)]⟩ := by
  simp [access_switch, outb_p, address_value_lt_mod, address_shift_lt, h]

theorem access_switch_block_write (hw : Hardware) (tr : Trace) (addr command : Nat)
    (data : SmbusData) :
    access_switch hw tr addr I2C_SMBUS_WRITE command I2C_SMBUS_BLOCK_DATA data =
      some ⟨ALI15X3_BLOCK_DATA,
        { data with block := Function.update data.block 0 (min (data.block 0) 32) },
        tr ++ [IOEvent.wr SMBHSTADD (((addr &&& 0x7f) <<< 1) ||| (I2C_SMBUS_WRITE &&& 0x01)),
          IOEvent.wr SMBHSTCMD (command % 256),
          IOEvent.wr SMBHSTDAT0 (min (data.block 0) 32),
          IOEvent.rd SMBHSTCNT (block_write_cnt hw tr addr command data),
          IOEvent.wr SMBHSTCNT (block_write_cnt hw tr addr command data ||| ALI15X3_BLOCK_CLR)] ++
          (List.range' 1 (min (data.block 0) 32)).map
            (fun j => IOEvent.wr SMBBLKDAT (data.block j % 256))⟩ := by
  have hneg : ¬ ((data.block 0 : Int) < 0) := by omega
  by_cases hbig : (32 : Int) < (data.block 0 : Int)
  · have hmin : min (data.block 0) 32 = 32 := by omega
    have hmap : (List.range' 1 32).map (fun j => IOEvent.wr SMBBLKDAT
          (Function.update data.block 0 32 j % 256)) =
        (List.range' 1 32).map (fun j => IOEvent.wr SMBBLKDAT (data.block j % 256)) := by
      apply List.map_congr_left
      intro j hj
      have : j ≠ 0 := by
        simp [List.mem_range'] at hj; omega
      simp [Function.update_noteq this]
    simp [access_switch, outb_p, block_write_loop_trace, hneg, hbig, hmin, block_write_cnt,
      address_shift_lt, Nat.mod_eq_of_lt (address_shift_lt addr),
      hmap, Nat.mod_eq_of_lt (or_block_clr_lt _ (Nat.mod_lt _ (by decide)))]
  · have hmin : min (data.block 0) 32 = data.block 0 := by omega
    have hle : data.block 0 % 256 = data.block 0 := by omega
    simp [access_switch, outb_p, block_write_loop_trace, hneg, hbig, hmin, block_write_cnt,
      address_shift_lt, Nat.mod_eq_of_lt (address_shift_lt addr),
      hle, Nat.mod_eq_of_lt (or_block_clr_lt _ (Nat.mod_lt _ (by decide)))]

theorem access_switch_other (hw : Hardware) (tr : Trace) (addr read_write command : Nat)
    (size : Int) (data : SmbusData) (h4 : size ≠ I2C_SMBUS_PROC_CALL) (h : ¬ Supported size) :
    access_switch hw tr addr read_write command size data = some ⟨size, data, tr⟩ := by
  simp only [Supported, not_or] at h
  obtain ⟨h0, h1, h2, h3, h5⟩ := h
  simp [access_switch, h0, h1, h2, h3, h4, h5]

theorem access_switch_trace {hw : Hardware} {tr : Trace} {addr read_write command : Nat}
    {size : Int} {data : SmbusData} {a : Armed}
    (h : access_switch hw tr addr read_write command size data = some a) :
    ∃ ev : Trace, a.trace = tr ++ ev ∧ ∀ e ∈ ev, ArmEvent e := by
  by_cases hs : Supported size
  · rcases hs with rfl | rfl | rfl | rfl | rfl
    · rw [access_switch_quick] at h
      simp only [Option.some.injEq] at h; subst h
      exact ⟨_, rfl, by simp [ArmEvent]⟩
    · rw [access_switch_byte] at h
      simp only [Option.some.injEq] at h; subst h
      refine ⟨_, rfl, ?_⟩
      split_ifs <;> simp [ArmEvent]
    · rw [access_switch_byte_data] at h
      simp only [Option.some.injEq] at h; subst h
      refine ⟨_, rfl, ?_⟩
      split_ifs <;> simp [ArmEvent]
    · rw [access_switch_word_data] at h
      simp only [Option.some.injEq] at h; subst h
      refine ⟨_, rfl, ?_⟩
      split_ifs <;> simp [ArmEvent]
    · by_cases hw0 : read_write = I2C_SMBUS_WRITE
      · subst hw0
        rw [access_switch_block_write] at h
        simp only [Option.some.injEq] at h; subst h
        refine ⟨_, List.append_assoc _ _ _, ?_⟩
        intro e he
        simp only [List.mem_append, List.mem_cons, List.mem_singleton, List.mem_map,
          List.not_mem_nil, or_false] at he
        rcases he with (he | he | he | he | he) | ⟨j, -, he⟩
        · subst he; simp [ArmEvent]
        · subst he; simp [ArmEvent]
        · subst he; simp [ArmEvent]
        · subst he; simp [ArmEvent]
        · subst he
          exact Or.inr (Or.inr (Or.inr (Or.inr (Or.inr ⟨rfl, or_block_clr_and _⟩))))
        · subst he; simp [ArmEvent]
      · rw [access_switch_block_read _ _ _ _ _ _ hw0] at h
        simp only [Option.some.injEq] at h; subst h
        exact ⟨_, rfl, by simp [ArmEvent]⟩
  · have h4 : size ≠ I2C_SMBUS_PROC_CALL := by
      intro h4
      rw [access_switch_eq_none.mpr h4] at h
      exact Option.noConfusion h
    rw [access_switch_other _ _ _ _ _ _ _ h4 hs] at h
    simp only [Option.some.injEq] at h; subst h
    exact ⟨[], by simp, by simp⟩

theorem access_arm_eq_none {hw : Hardware} {addr read_write command : Nat} {size : Int}
    {data : SmbusData} :
    access_arm hw addr read_write command size data = none ↔ size = I2C_SMBUS_PROC_CALL := by
  unfold access_arm
  rw [← @access_switch_eq_none hw (access_idle hw).2 addr read_write command size data]
  cases access_switch hw (access_idle hw).2 addr read_write command size data <;> simp

theorem access_arm_eq_some {hw : Hardware} {addr read_write command : Nat} {size : Int}
    {data : SmbusData} {a : Armed}
    (h : access_arm hw addr read_write command size data = some a) :
    ∃ b : Armed, access_switch hw (access_idle hw).2 addr read_write command size data = some b ∧
      a.size = b.size ∧ a.data = b.data ∧
      a.trace = b.trace ++ [IOEvent.wr SMBHSTCNT (u8_of_int b.size % 256)] := by
  unfold access_arm at h
  cases hb : access_switch hw (access_idle hw).2 addr read_write command size data with
  | none => rw [hb] at h; exact Option.noConfusion h
  | some b =>
    rw [hb] at h
    simp only [Option.some.injEq] at h
    subst h
    exact ⟨b, rfl, rfl, rfl, by simp [outb_p]⟩

/-! ## The transaction -/

theorem transaction_recover_trace (hw : Hardware) (tr : Trace) :
    ∃ ev : Trace, (transaction_recover hw tr).2 = tr ++ ev ∧ (∀ e ∈ ev, StartEvent e) ∧
      ∀ v, IOEvent.wr SMBHSTSTART v ∉ ev := by
  simp only [transaction_recover]
  by_cases h : hw tr SMBHSTSTS % 256 &&& ALI15X3_STS_BUSY ≠ 0
  · refine ⟨[IOEvent.rd SMBHSTSTS (hw tr SMBHSTSTS % 256), IOEvent.wr SMBHSTCNT ALI15X3_T_OUT,
      IOEvent.rd SMBHSTSTS (hw (tr ++ [IOEvent.rd SMBHSTSTS (hw tr SMBHSTSTS % 256),
        IOEvent.wr SMBHSTCNT ALI15X3_T_OUT]) SMBHSTSTS % 256)], ?_, ?_, ?_⟩
    · simp [h, outb_p]
    · simp [StartEvent]
    · simp
  · refine ⟨[IOEvent.rd SMBHSTSTS (hw tr SMBHSTSTS % 256)], ?_, ?_, ?_⟩
    · simp [h]
    · simp [StartEvent]
    · simp

theorem transaction_recover_lt (hw : Hardware) (tr : Trace) :
    (transaction_recover hw tr).1 < 256 := by
  simp only [transaction_recover]
  split_ifs <;> simp only [inb_p_fst] <;> exact Nat.mod_lt _ (by decide)

theorem transaction_start_trace (hw : Hardware) (tr : Trace) :
    ∃ ev : Trace, (transaction_start hw tr).2 = tr ++ ev ∧ (∀ e ∈ ev, StartEvent e) ∧
      ((transaction_start hw tr).1 = false → ∀ v, IOEvent.wr SMBHSTSTART v ∉ ev) ∧
      ((transaction_start hw tr).1 = true → ∃ ev0 : Trace,
        ev = ev0 ++ [IOEvent.wr SMBHSTSTART 0xFF] ∧ ∀ v, IOEvent.wr SMBHSTSTART v ∉ ev0) := by
  obtain ⟨ev, hev, hall, hno⟩ := transaction_recover_trace hw tr
  have hlt := transaction_recover_lt hw tr
  simp only [transaction_start, outb_p, inb_p_fst, inb_p_snd, hev]
  generalize (transaction_recover hw tr).1 = t at hlt ⊢
  by_cases h1 : t &&& (ALI15X3_STS_ERR ||| ALI15X3_STS_BUSY) ≠ 0
  · simp only [if_pos h1]
    generalize hw (tr ++ ev ++ [IOEvent.wr SMBHSTSTS (255 % 256)]) SMBHSTSTS % 256 = t2
    by_cases h2 : t2 &&& (ALI15X3_STS_ERR ||| ALI15X3_STS_BUSY) ≠ 0
    · simp only [if_pos h2]
      refine ⟨ev ++ [IOEvent.wr SMBHSTSTS 255, IOEvent.rd SMBHSTSTS t2], by simp, ?_, ?_, ?_⟩
      · intro e he
        rcases List.mem_append.mp he with he | he
        · exact hall e he
        · simp at he; rcases he with rfl | rfl <;> simp [StartEvent]
      · intro _ v hv
        rcases List.mem_append.mp hv with hv | hv
        · exact hno v hv
        · simp at hv
      · intro hc; exact absurd hc (by simp)
    · simp only [if_neg h2]
      refine ⟨ev ++ [IOEvent.wr SMBHSTSTS 255, IOEvent.rd SMBHSTSTS t2,
        IOEvent.wr SMBHSTSTART 255], by simp, ?_, ?_, ?_⟩
      · intro e he
        rcases List.mem_append.mp he with he | he
        · exact hall e he
        · simp at he; rcases he with rfl | rfl | rfl <;> simp [StartEvent]
      · intro hc; exact absurd hc (by simp)
      · intro _
        refine ⟨ev ++ [IOEvent.wr SMBHSTSTS 255, IOEvent.rd SMBHSTSTS t2], by simp, ?_⟩
        intro v hv
        rcases List.mem_append.mp hv with hv | hv
        · exact hno v hv
        · simp at hv
  · simp only [if_neg h1]
    by_cases h3 : t &&& ALI15X3_STS_DONE ≠ 0
    · simp only [if_pos h3]
      refine ⟨ev ++ [IOEvent.wr SMBHSTSTS t, IOEvent.wr SMBHSTSTART 255], ?_, ?_, ?_, ?_⟩
      · simp [Nat.mod_eq_of_lt hlt]
      · intro e he
        rcases List.mem_append.mp he with he | he
        · exact hall e he
        · simp at he; rcases he with rfl | rfl <;> simp [StartEvent]
      · intro hc; exact absurd hc (by simp)
      · intro _
        refine ⟨ev ++ [IOEvent.wr SMBHSTSTS t], by simp, ?_⟩
        intro v hv
        rcases List.mem_append.mp hv with hv | hv
        · exact hno v hv
        · simp at hv
    · simp only [if_neg h3]
      refine ⟨ev ++ [IOEvent.wr SMBHSTSTART 255], by simp, ?_, ?_, ?_⟩
      · intro e he
        rcases List.mem_append.mp he with he | he
        · exact hall e he
        · simp at he; subst he; simp [StartEvent]
      · intro hc; exact absurd hc (by simp)
      · intro _
        exact ⟨ev, by simp, hno⟩

theorem transaction_poll_zero (hw : Hardware) (tr : Trace) :
    transaction_poll hw 0 tr =
      if hw tr SMBHSTSTS % 256 &&& (ALI15X3_STS_ERR ||| ALI15X3_STS_DONE) ≠ 0 then
        ⟨hw tr SMBHSTSTS % 256, MAX_TIMEOUT, tr ++ [IOEvent.rd SMBHSTSTS (hw tr SMBHSTSTS % 256)]⟩
      else
        ⟨hw tr SMBHSTSTS % 256, MAX_TIMEOUT + 1,
          tr ++ [IOEvent.rd SMBHSTSTS (hw tr SMBHSTSTS % 256)]⟩ := rfl

theorem transaction_poll_succ (hw : Hardware) (n : Nat) (tr : Trace) :
    transaction_poll hw (n + 1) tr =
      if hw tr SMBHSTSTS % 256 &&& (ALI15X3_STS_ERR ||| ALI15X3_STS_DONE) ≠ 0 then
        ⟨hw tr SMBHSTSTS % 256, MAX_TIMEOUT - (n + 1),
          tr ++ [IOEvent.rd SMBHSTSTS (hw tr SMBHSTSTS % 256)]⟩
      else transaction_poll hw n (tr ++ [IOEvent.rd SMBHSTSTS (hw tr SMBHSTSTS % 256)]) := rfl

theorem transaction_poll_trace (hw : Hardware) (n : Nat) :
    ∀ tr : Trace, ∃ vs : List Nat,
      (transaction_poll hw n tr).trace = tr ++ vs.map (IOEvent.rd SMBHSTSTS) := by
  induction n with
  | zero =>
    intro tr
    refine ⟨[hw tr SMBHSTSTS % 256], ?_⟩
    rw [transaction_poll_zero]
    split_ifs <;> simp
  | succ n ih =>
    intro tr
    rw [transaction_poll_succ]
    split_ifs
    · exact ⟨[hw tr SMBHSTSTS % 256], by simp⟩
    · obtain ⟨vs, hvs⟩ := ih (tr ++ [IOEvent.rd SMBHSTSTS (hw tr SMBHSTSTS % 256)])
      exact ⟨(hw tr SMBHSTSTS % 256) :: vs, by simp [hvs]⟩

/-- Every access of `ali15x3_transaction` is a status read, a status write, the
bus reset or the start write; the start write is absent when the controller
is found stuck. -/
theorem ali15x3_transaction_trace (hw : Hardware) (tr : Trace) :
    ∃ ev : Trace, (ali15x3_transaction hw tr).2 = tr ++ ev ∧ (∀ e ∈ ev, StartEvent e) ∧
      ((transaction_start hw tr).1 = false → ∀ v, IOEvent.wr SMBHSTSTART v ∉ ev) := by
  obtain ⟨ev, hev, hall, hno, -⟩ := transaction_start_trace hw tr
  simp only [ali15x3_transaction]
  cases hs : (transaction_start hw tr).1 with
  | false =>
    simp only [Bool.false_eq_true, if_false]
    rw [hs] at hno
    exact ⟨ev, hev, hall, fun _ => hno rfl⟩
  | true =>
    simp only [if_true]
    obtain ⟨vs, hvs⟩ := transaction_poll_trace hw MAX_TIMEOUT (transaction_start hw tr).2
    refine ⟨ev ++ vs.map (IOEvent.rd SMBHSTSTS), ?_, ?_, ?_⟩
    · rw [hvs, hev, List.append_assoc]
    · intro e he
      rcases List.mem_append.mp he with he | he
      · exact hall e he
      · obtain ⟨v, -, rfl⟩ := List.mem_map.mp he
        simp [StartEvent]
    · intro h; exact absurd h (by simp)

/-! ## The call as a whole -/

theorem access_arm_trace {hw : Hardware} {addr read_write command : Nat} {size : Int}
    {data : SmbusData} {a : Armed}
    (h : access_arm hw addr read_write command size data = some a) :
    ∃ (vs : List Nat) (ev : Trace),
      a.trace = IOEvent.wr SMBHSTSTS 0xFF :: vs.map (IOEvent.rd SMBHSTSTS) ++ ev ++
        [IOEvent.wr SMBHSTCNT (u8_of_int a.size % 256)] ∧ ∀ e ∈ ev, ArmEvent e := by
  obtain ⟨b, hb, hsz, -, htr⟩ := access_arm_eq_some h
  obtain ⟨ev, hev, hall⟩ := access_switch_trace hb
  obtain ⟨vs, hvs⟩ := access_idle_trace hw
  exact ⟨vs, ev, by rw [htr, hev, hvs, hsz], hall⟩

theorem access_arm_no_start {hw : Hardware} {addr read_write command : Nat} {size : Int}
    {data : SmbusData} {a : Armed}
    (h : access_arm hw addr read_write command size data = some a) :
    ∀ v, IOEvent.wr SMBHSTSTART v ∉ a.trace := by
  obtain ⟨vs, ev, htr, hall⟩ := access_arm_trace h
  intro v hv
  rw [htr] at hv
  simp only [List.mem_append, List.mem_cons, List.mem_map, List.mem_singleton] at hv
  rcases hv with ((hv | ⟨x, -, hx⟩) | hv) | hv
  · exact absurd hv (by simp)
  · exact absurd hx (by simp)
  · have := hall _ hv
    simp [ArmEvent] at this
  · exact absurd hv (by simp)

theorem writes_of_arm_events {ev : Trace} (h : ∀ e ∈ ev, ArmEvent e) :
    ∀ w ∈ writes ev, ArmWrite w := by
  intro w hw
  obtain ⟨p, v⟩ := w
  exact h _ (mem_writes.mp hw)

theorem writes_access_arm {hw : Hardware} {addr read_write command : Nat} {size : Int}
    {data : SmbusData} {a : Armed}
    (h : access_arm hw addr read_write command size data = some a) :
    ∃ aw : List (Nat × Nat),
      writes a.trace = (SMBHSTSTS, 0xFF) :: aw ++ [(SMBHSTCNT, u8_of_int a.size % 256)] ∧
      (∀ w ∈ aw, ArmWrite w) ∧
      (∀ p v, IOEvent.wr p v ∈ a.trace → p ≠ SMBHSTSTS → p ≠ SMBHSTCNT → (p, v) ∈ aw) := by
  obtain ⟨vs, ev, htr, hall⟩ := access_arm_trace h
  refine ⟨writes ev, ?_, writes_of_arm_events hall, ?_⟩
  · rw [htr]; simp [writes_map_rd]
  · intro p v hpv h0 h1
    rw [htr] at hpv
    simp only [List.mem_append, List.mem_cons, List.mem_map, List.mem_singleton] at hpv
    rcases hpv with ((hpv | ⟨x, -, hx⟩) | hpv) | hpv
    · simp only [IOEvent.wr.injEq] at hpv; exact absurd hpv.1 h0
    · exact absurd hx (by simp)
    · exact mem_writes.mpr hpv
    · simp only [IOEvent.wr.injEq, List.not_mem_nil, or_false] at hpv; exact absurd hpv.1 h1

theorem access_arm_supported {hw : Hardware} {addr read_write command : Nat} {size : Int}
    {data : SmbusData} {a : Armed} (hs : Supported size)
    (h : access_arm hw addr read_write command size data = some a) :
    u8_of_int a.size % 256 = spec_command_byte size ∧
      IOEvent.wr SMBHSTADD (((addr &&& 0x7f) <<< 1) ||| (read_write &&& 0x01)) ∈ a.trace := by
  obtain ⟨b, hb, hsz, -, htr⟩ := access_arm_eq_some h
  rw [htr, hsz]
  rcases hs with rfl | rfl | rfl | rfl | rfl
  · rw [access_switch_quick] at hb
    simp only [Option.some.injEq] at hb; subst hb
    exact ⟨rfl, by simp⟩
  · rw [access_switch_byte] at hb
    simp only [Option.some.injEq] at hb; subst hb
    exact ⟨rfl, by simp⟩
  · rw [access_switch_byte_data] at hb
    simp only [Option.some.injEq] at hb; subst hb
    exact ⟨rfl, by simp⟩
  · rw [access_switch_word_data] at hb
    simp only [Option.some.injEq] at hb; subst hb
    exact ⟨rfl, by simp⟩
  · by_cases hw0 : read_write = I2C_SMBUS_WRITE
    · subst hw0
      rw [access_switch_block_write] at hb
      simp only [Option.some.injEq] at hb; subst hb
      exact ⟨rfl, by simp⟩
    · rw [access_switch_block_read _ _ _ _ _ _ hw0] at hb
      simp only [Option.some.injEq] at hb; subst hb
      exact ⟨rfl, by simp⟩

theorem writes_transaction_start (hw : Hardware) (tr : Trace) :
    ∃ sw : List (Nat × Nat),
      writes (transaction_start hw tr).2 =
        writes tr ++
          (if hw tr SMBHSTSTS % 256 &&& ALI15X3_STS_BUSY ≠ 0 then [(SMBHSTCNT, ALI15X3_T_OUT)]
            else []) ++ sw ++
          (if (transaction_start hw tr).1 = true then [(SMBHSTSTART, 0xFF)] else []) ∧
      ∀ w ∈ sw, w.1 = SMBHSTSTS := by
  have hrec : writes (transaction_recover hw tr).2 = writes tr ++
      (if hw tr SMBHSTSTS % 256 &&& ALI15X3_STS_BUSY ≠ 0 then [(SMBHSTCNT, ALI15X3_T_OUT)]
        else []) := by
    by_cases hb : hw tr SMBHSTSTS % 256 &&& ALI15X3_STS_BUSY ≠ 0
    · simp only [transaction_recover, inb_p_fst, if_pos hb]; simp
    · simp only [transaction_recover, inb_p_fst, if_neg hb]; simp
  simp only [transaction_start]
  generalize (transaction_recover hw tr).1 = t at *
  generalize (transaction_recover hw tr).2 = tr1 at *
  by_cases h1 : t &&& (ALI15X3_STS_ERR ||| ALI15X3_STS_BUSY) ≠ 0
  · simp only [if_pos h1]
    by_cases h2 : (inb_p hw (outb_p tr1 0xFF SMBHSTSTS) SMBHSTSTS).1 &&&
        (ALI15X3_STS_ERR ||| ALI15X3_STS_BUSY) ≠ 0
    · simp only [if_pos h2]
      exact ⟨[(SMBHSTSTS, 0xFF)], by simp [hrec], by simp⟩
    · simp only [if_neg h2]
      exact ⟨[(SMBHSTSTS, 0xFF)], by simp [hrec], by simp⟩
  · simp only [if_neg h1]
    by_cases h3 : t &&& ALI15X3_STS_DONE ≠ 0
    · simp only [if_pos h3]
      exact ⟨[(SMBHSTSTS, t % 256)], by simp [hrec], by simp⟩
    · simp only [if_neg h3]
      exact ⟨[], by simp [hrec], by simp⟩

theorem writes_transaction_poll (hw : Hardware) (n : Nat) (tr : Trace) :
    writes (transaction_poll hw n tr).trace = writes tr := by
  obtain ⟨vs, hvs⟩ := transaction_poll_trace hw n tr
  rw [hvs]; simp [writes_map_rd]

theorem writes_ali15x3_transaction (hw : Hardware) (tr : Trace) :
    writes (ali15x3_transaction hw tr).2 = writes (transaction_start hw tr).2 := by
  simp only [ali15x3_transaction]
  split_ifs
  · exact writes_transaction_poll hw _ _
  · rfl

/-! ## The second switch -/

theorem block_read_loop_spec (hw : Hardware) (n : Nat) :
    ∀ (i : Nat) (data : SmbusData) (tr : Trace), ∃ vs : List Nat,
      vs.length = n ∧
      (block_read_loop hw n i data tr).2 = tr ++ vs.map (IOEvent.rd SMBBLKDAT) ∧
      (block_read_loop hw n i data tr).1.byte = data.byte ∧
      (block_read_loop hw n i data tr).1.word = data.word ∧
      (∀ k, k < i → (block_read_loop hw n i data tr).1.block k = data.block k) ∧
      (∀ k, i + n ≤ k → (block_read_loop hw n i data tr).1.block k = data.block k) ∧
      (∀ j, j < n → vs[j]? = some ((block_read_loop hw n i data tr).1.block (i + j))) := by
  induction n with
  | zero =>
    intro i data tr
    exact ⟨[], by simp [block_read_loop]⟩
  | succ n ih =>
    intro i data tr
    obtain ⟨vs, hlen, htr, hb, hw', hlo, hhi, hval⟩ := ih (i + 1)
      { data with block := Function.update data.block i (hw tr SMBBLKDAT % 256) }
      (tr ++ [IOEvent.rd SMBBLKDAT (hw tr SMBBLKDAT % 256)])
    refine ⟨(hw tr SMBBLKDAT % 256) :: vs, by simp [hlen], ?_, ?_, ?_, ?_, ?_, ?_⟩
    · simp only [block_read_loop, inb_p_fst, inb_p_snd, htr]; simp
    · simp only [block_read_loop, inb_p_fst, inb_p_snd, hb]
    · simp only [block_read_loop, inb_p_fst, inb_p_snd, hw']
    · intro k hk
      simp only [block_read_loop, inb_p_fst, inb_p_snd]
      rw [hlo k (by omega)]
      exact Function.update_noteq (by omega) _ _
    · intro k hk
      simp only [block_read_loop, inb_p_fst, inb_p_snd]
      rw [hhi k (by omega)]
      exact Function.update_noteq (by omega) _ _
    · intro j hj
      simp only [block_read_loop, inb_p_fst, inb_p_snd]
      cases j with
      | zero =>
        have h0 := hlo i (by omega)
        simp only [Nat.add_zero, h0]
        simp
      | succ j =>
        have := hval j (by omega)
        rw [List.getElem?_cons_succ, this, Nat.add_assoc, Nat.add_comm 1 j]

theorem access_decode_block (hw : Hardware) (data : SmbusData) (tr : Trace) :
    access_decode hw ALI15X3_BLOCK_DATA data tr =
      block_read_loop hw (min (hw tr SMBHSTDAT0 % 256) 32) 1
        ⟨data.byte, data.word, Function.update data.block 0 (min (hw tr SMBHSTDAT0 % 256) 32)⟩
        (tr ++ [IOEvent.rd SMBHSTDAT0 (hw tr SMBHSTDAT0 % 256),
          IOEvent.rd SMBHSTCNT
            (hw (tr ++ [IOEvent.rd SMBHSTDAT0 (hw tr SMBHSTDAT0 % 256)]) SMBHSTCNT % 256),
          IOEvent.wr SMBHSTCNT
            (hw (tr ++ [IOEvent.rd SMBHSTDAT0 (hw tr SMBHSTDAT0 % 256)]) SMBHSTCNT % 256 |||
              ALI15X3_BLOCK_CLR)]) := by
  have hmin : (if hw tr SMBHSTDAT0 % 256 > 32 then 32 else hw tr SMBHSTDAT0 % 256) =
      min (hw tr SMBHSTDAT0 % 256) 32 := by
    split_ifs <;> omega
  have hmod := Nat.mod_eq_of_lt (or_block_clr_lt
    (hw (tr ++ [IOEvent.rd SMBHSTDAT0 (hw tr SMBHSTDAT0 % 256)]) SMBHSTCNT % 256)
    (Nat.mod_lt _ (by decide)))
  have h1 : ¬ (ALI15X3_BLOCK_DATA = ALI15X3_BYTE) := by decide
  have h2 : ¬ (ALI15X3_BLOCK_DATA = ALI15X3_BYTE_DATA) := by decide
  have h3 : ¬ (ALI15X3_BLOCK_DATA = ALI15X3_WORD_DATA) := by decide
  simp only [access_decode, if_neg h1, if_neg h2, if_neg h3, if_true, inb_p_fst, inb_p_snd,
    outb_p, hmin, hmod, List.append_assoc, List.singleton_append, List.cons_append,
    List.nil_append]

theorem access_decode_trace (hw : Hardware) (size : Int) (data : SmbusData) (tr : Trace) :
    ∃ ev : Trace, (access_decode hw size data tr).2 = tr ++ ev ∧
      (∀ w ∈ writes ev, w.1 = SMBHSTCNT ∧ w.2 &&& ALI15X3_BLOCK_CLR ≠ 0) := by
  by_cases h1 : size = ALI15X3_BYTE
  · simp only [access_decode, if_pos h1]
    exact ⟨_, rfl, by simp⟩
  by_cases h2 : size = ALI15X3_BYTE_DATA
  · simp only [access_decode, if_neg h1, if_pos h2]
    exact ⟨_, rfl, by simp⟩
  by_cases h3 : size = ALI15X3_WORD_DATA
  · simp only [access_decode, if_neg h1, if_neg h2, if_pos h3, inb_p_snd, List.append_assoc]
    exact ⟨_, rfl, by simp⟩
  by_cases h4 : size = ALI15X3_BLOCK_DATA
  · subst h4
    rw [access_decode_block]
    obtain ⟨vs, -, htr, -⟩ := block_read_loop_spec hw (min (hw tr SMBHSTDAT0 % 256) 32) 1
      ⟨data.byte, data.word, Function.update data.block 0 (min (hw tr SMBHSTDAT0 % 256) 32)⟩
      (tr ++ [IOEvent.rd SMBHSTDAT0 (hw tr SMBHSTDAT0 % 256),
          IOEvent.rd SMBHSTCNT
            (hw (tr ++ [IOEvent.rd SMBHSTDAT0 (hw tr SMBHSTDAT0 % 256)]) SMBHSTCNT % 256),
          IOEvent.wr SMBHSTCNT
            (hw (tr ++ [IOEvent.rd SMBHSTDAT0 (hw tr SMBHSTDAT0 % 256)]) SMBHSTCNT % 256 |||
              ALI15X3_BLOCK_CLR)])
    rw [htr]
    refine ⟨_, List.append_assoc _ _ _, ?_⟩
    intro w hw'
    simp only [writes_append, writes_cons_rd, writes_cons_wr, writes_nil, writes_map_rd,
      List.append_nil, List.mem_singleton] at hw'
    subst hw'
    exact ⟨rfl, or_block_clr_and _⟩
  · simp only [access_decode, if_neg h1, if_neg h2, if_neg h3, if_neg h4]
    exact ⟨[], by simp, by simp⟩

/-- The write trace of a call that reaches `ali15x3_transaction`: the writes up
to the host-command byte, the bus reset when the first status read shows BUSY,
status-register writes, the start write unless the controller is stuck, and
the block-pointer reset of a block read. -/
theorem writes_ali15x3_access {hw : Hardware} {addr read_write command : Nat} {size : Int}
    {data : SmbusData} {a : Armed}
    (ha : access_arm hw addr read_write command size data = some a) :
    ∃ sw dw : List (Nat × Nat),
      writes (ali15x3_access hw addr read_write command size data).trace =
        writes a.trace ++
          (if hw a.trace SMBHSTSTS % 256 &&& ALI15X3_STS_BUSY ≠ 0 then
            [(SMBHSTCNT, ALI15X3_T_OUT)] else []) ++ sw ++
          (if (transaction_start hw a.trace).1 = true then [(SMBHSTSTART, 0xFF)] else []) ++ dw ∧
      (∀ w ∈ sw, w.1 = SMBHSTSTS) ∧
      (∀ w ∈ dw, w.1 = SMBHSTCNT ∧ w.2 &&& ALI15X3_BLOCK_CLR ≠ 0) ∧
      (read_write = I2C_SMBUS_WRITE → dw = []) := by
  obtain ⟨sw, hsw, hsw0⟩ := writes_transaction_start hw a.trace
  have ht := writes_ali15x3_transaction hw a.trace
  rw [hsw] at ht
  simp only [ali15x3_access, ha]
  by_cases h1 : (ali15x3_transaction hw a.trace).1 ≠ 0
  · simp only [if_pos h1]
    exact ⟨sw, [], by rw [ht]; simp, hsw0, by simp, fun _ => rfl⟩
  · simp only [if_neg h1]
    by_cases h2 : read_write = I2C_SMBUS_WRITE ∨ a.size = ALI15X3_QUICK
    · simp only [if_pos h2]
      exact ⟨sw, [], by rw [ht]; simp, hsw0, by simp, fun _ => rfl⟩
    · simp only [if_neg h2]
      obtain ⟨ev, hev, hdw⟩ := access_decode_trace hw a.size a.data (ali15x3_transaction hw a.trace).2
      refine ⟨sw, writes ev, by rw [hev, writes_append, ht], hsw0, hdw, ?_⟩
      intro h; exact absurd (Or.inl h) h2

/-! ## C1 -/

/-- C1: when BUSY or an error bit is set in the status that reaches the settle
check of `ali15x3_transaction` and is still set in the status re-read after the
clear-on-write, `ali15x3_access` returns -1 and its trace has no write to the
start register. -/
theorem stuck_controller_fails_without_start (hw : Hardware) (addr read_write command : Nat)
    (size : Int) (data : SmbusData) (a : Armed)
    (ha : access_arm hw addr read_write command size data = some a)
    (h1 : (transaction_recover hw a.trace).1 &&& (ALI15X3_STS_ERR ||| ALI15X3_STS_BUSY) ≠ 0)
    (h2 : (inb_p hw (outb_p (transaction_recover hw a.trace).2 0xFF SMBHSTSTS) SMBHSTSTS).1 &&&
      (ALI15X3_STS_ERR ||| ALI15X3_STS_BUSY) ≠ 0) :
    (ali15x3_access hw addr read_write command size data).ret = -1 ∧
      ∀ v, IOEvent.wr SMBHSTSTART v ∉
        (ali15x3_access hw addr read_write command size data).trace := by
  have hs : (transaction_start hw a.trace).1 = false := by
    simp only [transaction_start, if_pos h1, if_pos h2]
  obtain ⟨ev, hev, -, hno⟩ := ali15x3_transaction_trace hw a.trace
  have ht : (ali15x3_transaction hw a.trace).1 = -1 := by
    simp only [ali15x3_transaction, hs, Bool.false_eq_true, if_false]
  have hne : (ali15x3_transaction hw a.trace).1 ≠ 0 := by rw [ht]; decide
  simp only [ali15x3_access, ha, if_pos hne]
  refine ⟨trivial, ?_⟩
  intro v hv
  rw [hev] at hv
  rcases List.mem_append.mp hv with hv | hv
  · exact access_arm_no_start ha v hv
  · exact hno hs v hv

/-- Witness for C1: a byte-data write on a controller whose status always reads
IDLE and BUSY. -/
theorem stuck_controller_fails_without_start_witness :
    (ali15x3_access hw_stuck 0x50 0 0 I2C_SMBUS_BYTE_DATA sample_data).ret = -1 ∧
      ∀ v, IOEvent.wr SMBHSTSTART v ∉
        (ali15x3_access hw_stuck 0x50 0 0 I2C_SMBUS_BYTE_DATA sample_data).trace :=
  stuck_controller_fails_without_start hw_stuck 0x50 0 0 I2C_SMBUS_BYTE_DATA sample_data
    ⟨ALI15X3_BYTE_DATA, sample_data,
      [IOEvent.wr 0 0xFF, IOEvent.rd 0 0x0C, IOEvent.wr 3 0xA0, IOEvent.wr 7 0,
        IOEvent.wr 4 0xAB, IOEvent.wr 1 0x20]⟩
    rfl (by decide) (by decide)

/-! ## C2 -/

/-- C2, counterexample: a process-call request on an idle controller has a
non-empty write trace; the status register is written once. -/
theorem proc_call_write_trace_nonempty :
    writes (ali15x3_access hw_idle 0x50 0 0 I2C_SMBUS_PROC_CALL sample_data).trace ≠ [] := by
  decide

/-- C2, amended: the write trace of a process-call request consists of the single
clear-on-write of the status register (0xFF to offset 0) made before the size
class is examined. -/
theorem proc_call_writes_only_status_clear (hw : Hardware) (addr read_write command : Nat)
    (data : SmbusData) :
    writes (ali15x3_access hw addr read_write command I2C_SMBUS_PROC_CALL data).trace =
      [(SMBHSTSTS, 0xFF)] := by
  have h : access_arm hw addr read_write command I2C_SMBUS_PROC_CALL data = none :=
    access_arm_eq_none.mpr rfl
  simp only [ali15x3_access, h]
  exact writes_access_idle hw

/-! ## C3 -/

/-- C3, counterexample: in a byte-data write on a controller found BUSY by
`ali15x3_transaction`, the bus reset (0x04 to offset 1) is preceded in the
write trace by the address write and by the host-command byte. -/
theorem bus_reset_after_arming_example :
    ∃ pre post : List (Nat × Nat),
      writes (ali15x3_access hw_busy_once 0x50 0 0 I2C_SMBUS_BYTE_DATA sample_data).trace =
        pre ++ (SMBHSTCNT, ALI15X3_T_OUT) :: post ∧
      (SMBHSTADD, 0xA0) ∈ pre ∧ (SMBHSTCNT, 0x20) ∈ pre :=
  ⟨[(0, 0xFF), (3, 0xA0), (7, 0), (4, 0xAB), (1, 0x20)], [(2, 0xFF)],
    by decide, by decide, by decide⟩

/-- C3, amended: for a supported size class, when the bus reset (0x04 to the
command register) is in the write trace, it follows the clear-on-write and
every write to the address register, the command-code register, Data0, Data1
and the block-data port (the address write among them), and no start write
precedes it. -/
theorem bus_reset_follows_arming (hw : Hardware) (addr read_write command : Nat)
    (size : Int) (data : SmbusData) (hs : Supported size)
    (h : (SMBHSTCNT, ALI15X3_T_OUT) ∈
      writes (ali15x3_access hw addr read_write command size data).trace) :
    ∃ pre post : List (Nat × Nat),
      writes (ali15x3_access hw addr read_write command size data).trace =
        (SMBHSTSTS, 0xFF) :: pre ++ (SMBHSTCNT, ALI15X3_T_OUT) :: post ∧
      (SMBHSTADD, ((addr &&& 0x7f) <<< 1) ||| (read_write &&& 0x01)) ∈ pre ∧
      (∀ w ∈ pre, w.1 ≠ SMBHSTSTART ∧ w ≠ (SMBHSTCNT, ALI15X3_T_OUT)) ∧
      (∀ w ∈ post, w.1 ≠ SMBHSTADD ∧ w.1 ≠ SMBHSTCMD ∧ w.1 ≠ SMBHSTDAT0 ∧
        w.1 ≠ SMBHSTDAT1 ∧ w.1 ≠ SMBBLKDAT) := by
  have hne : size ≠ I2C_SMBUS_PROC_CALL := by
    rcases hs with rfl | rfl | rfl | rfl | rfl <;> decide
  obtain ⟨a, ha⟩ : ∃ a, access_arm hw addr read_write command size data = some a := by
    cases hx : access_arm hw addr read_write command size data with
    | none => exact absurd (access_arm_eq_none.mp hx) hne
    | some a => exact ⟨a, rfl⟩
  obtain ⟨aw, haw, harm, hmem⟩ := writes_access_arm ha
  obtain ⟨hcmd, hadd⟩ := access_arm_supported hs ha
  obtain ⟨sw, dw, htr, hsw, hdw, -⟩ := writes_ali15x3_access ha
  rw [hcmd] at haw
  have hcmd4 : spec_command_byte size ≠ ALI15X3_T_OUT := by
    rcases hs with rfl | rfl | rfl | rfl | rfl <;> decide
  have hpre : ∀ w ∈ aw ++ [(SMBHSTCNT, spec_command_byte size)],
      w.1 ≠ SMBHSTSTART ∧ w ≠ (SMBHSTCNT, ALI15X3_T_OUT) := by
    intro w hw0
    rcases List.mem_append.mp hw0 with hw0 | hw0
    · have hA := harm w hw0
      refine ⟨?_, ?_⟩
      · intro h2
        unfold ArmWrite at hA
        rw [h2] at hA
        revert hA
        simp
      · intro h2
        rw [h2] at hA
        revert hA
        unfold ArmWrite
        decide
    · rw [List.mem_singleton.mp hw0]
      refine ⟨fun h2 => absurd (show SMBHSTCNT = SMBHSTSTART from h2) (by decide), ?_⟩
      intro h2
      exact hcmd4 (Prod.mk.injEq _ _ _ _ ▸ h2).2
  by_cases hb : hw a.trace SMBHSTSTS % 256 &&& ALI15X3_STS_BUSY ≠ 0
  · rw [if_pos hb, haw] at htr
    refine ⟨aw ++ [(SMBHSTCNT, spec_command_byte size)],
      sw ++ (if (transaction_start hw a.trace).1 = true then [(SMBHSTSTART, 0xFF)]
      else []) ++ dw, ?_,
      List.mem_append_left _ (hmem _ _ hadd (by decide) (by decide)), hpre, ?_⟩
    · rw [htr]; simp
    · intro w hw0
      have hport : w.1 = SMBHSTSTS ∨ w.1 = SMBHSTSTART ∨ w.1 = SMBHSTCNT := by
        rcases List.mem_append.mp hw0 with hw0 | hw0
        · rcases List.mem_append.mp hw0 with hw0 | hw0
          · exact Or.inl (hsw w hw0)
          · split_ifs at hw0
            · rw [List.mem_singleton.mp hw0]; exact Or.inr (Or.inl rfl)
            · exact absurd hw0 (List.not_mem_nil _)
        · exact Or.inr (Or.inr (hdw w hw0).1)
      rcases hport with hp | hp | hp <;> rw [hp] <;> decide
  · exfalso
    rw [if_neg hb, haw] at htr
    rw [htr] at h
    rcases List.mem_append.mp h with h | h
    · rcases List.mem_append.mp h with h | h
      · rcases List.mem_append.mp h with h | h
        · rcases List.mem_append.mp h with h | h
          · rcases List.mem_append.mp h with h | h
            · rcases List.mem_cons.mp h with h | h
              · exact absurd h (by decide)
              · exact absurd (harm _ h) (by unfold ArmWrite; decide)
            · rw [List.mem_singleton, Prod.mk.injEq] at h
              exact hcmd4 h.2.symm
          · exact absurd h (List.not_mem_nil _)
        · have := hsw _ h
          simp at this
      · split_ifs at h
        · simp at h
        · exact absurd h (List.not_mem_nil _)
    · exact (hdw _ h).2 (by decide)

/-- Witness for C3 (amended): the byte-data write on the controller that is
BUSY until the bus reset. -/
theorem bus_reset_follows_arming_witness :
    ∃ pre post : List (Nat × Nat),
      writes (ali15x3_access hw_busy_once 0x50 0 0 I2C_SMBUS_BYTE_DATA sample_data).trace =
        (SMBHSTSTS, 0xFF) :: pre ++ (SMBHSTCNT, ALI15X3_T_OUT) :: post ∧
      (SMBHSTADD, ((0x50 &&& 0x7f) <<< 1) ||| (0 &&& 0x01)) ∈ pre ∧
      (∀ w ∈ pre, w.1 ≠ SMBHSTSTART ∧ w ≠ (SMBHSTCNT, ALI15X3_T_OUT)) ∧
      (∀ w ∈ post, w.1 ≠ SMBHSTADD ∧ w.1 ≠ SMBHSTCMD ∧ w.1 ≠ SMBHSTDAT0 ∧
        w.1 ≠ SMBHSTDAT1 ∧ w.1 ≠ SMBBLKDAT) :=
  bus_reset_follows_arming hw_busy_once 0x50 0 0 I2C_SMBUS_BYTE_DATA sample_data
    (by decide) (by decide)

/-! ## C4 -/

/-- C4, the code at the failing input: a byte-data write on a controller that
`ali15x3_transaction` finds BUSY.  The host-command byte 0x20 is written, then
overwritten by the bus reset 0x04, and the start register is written with the
command register holding 0x04; the call returns 0. -/
theorem host_command_clobbered_by_bus_reset :
    writes (ali15x3_access hw_busy_once 0x50 0 0 I2C_SMBUS_BYTE_DATA sample_data).trace =
        [(SMBHSTSTS, 0xFF), (SMBHSTADD, 0xA0), (SMBHSTCMD, 0x00), (SMBHSTDAT0, 0xAB),
          (SMBHSTCNT, 0x20), (SMBHSTCNT, 0x04), (SMBHSTSTART, 0xFF)] ∧
      (ali15x3_access hw_busy_once 0x50 0 0 I2C_SMBUS_BYTE_DATA sample_data).ret = 0 := by
  decide

/-! ## C5 -/

theorem filter_port_map (p q : Nat) (f : Nat → Nat) (l : List Nat) :
    (l.map (fun j => (q, f j))).filter (fun w => decide (w.1 = p)) =
      if q = p then l.map (fun j => (q, f j)) else [] := by
  induction l with
  | nil => simp
  | cons x l ih =>
    by_cases h : q = p
    · simp [h]
    · simp [h]

theorem filter_port_of_all {p q : Nat} {l : List (Nat × Nat)} (h : ∀ w ∈ l, w.1 = q)
    (hne : q ≠ p) : l.filter (fun w => decide (w.1 = p)) = [] := by
  rw [List.filter_eq_nil_iff]
  intro w hw
  simp [h w hw, hne]

/-- C5: in a block-data write with declared length `L = block[0]`, the only
value written to Data0 and the length header after the call both equal `L`
clamped into [0, 32], and the writes to the block-data port are exactly the
payload bytes `block[1..clamp L]` in increasing index order. -/
theorem block_write_length_clamped (hw : Hardware) (addr command : Nat) (data : SmbusData)
    (hbytes : ∀ i, data.block i < 256) :
    (writes (ali15x3_access hw addr I2C_SMBUS_WRITE command I2C_SMBUS_BLOCK_DATA data).trace).filter
        (fun w => decide (w.1 = SMBHSTDAT0)) =
      [(SMBHSTDAT0, (spec_clamp_length (data.block 0)).toNat)] ∧
    (ali15x3_access hw addr I2C_SMBUS_WRITE command I2C_SMBUS_BLOCK_DATA data).data.block 0 =
      (spec_clamp_length (data.block 0)).toNat ∧
    (writes (ali15x3_access hw addr I2C_SMBUS_WRITE command I2C_SMBUS_BLOCK_DATA data).trace).filter
        (fun w => decide (w.1 = SMBBLKDAT)) =
      (List.range' 1 (spec_clamp_length (data.block 0)).toNat).map
        (fun i => (SMBBLKDAT, data.block i)) := by
  have hclamp : (spec_clamp_length (data.block 0)).toNat = min (data.block 0) 32 := by
    unfold spec_clamp_length
    split_ifs <;> omega
  have hsw := access_switch_block_write hw (access_idle hw).2 addr command data
  have ha : access_arm hw addr I2C_SMBUS_WRITE command I2C_SMBUS_BLOCK_DATA data = some
      ⟨ALI15X3_BLOCK_DATA,
        { data with block := Function.update data.block 0 (min (data.block 0) 32) },
        outb_p ((access_idle hw).2 ++
          [IOEvent.wr SMBHSTADD (((addr &&& 0x7f) <<< 1) ||| (I2C_SMBUS_WRITE &&& 0x01)),
          IOEvent.wr SMBHSTCMD (command % 256),
          IOEvent.wr SMBHSTDAT0 (min (data.block 0) 32),
          IOEvent.rd SMBHSTCNT (block_write_cnt hw (access_idle hw).2 addr command data),
          IOEvent.wr SMBHSTCNT
            (block_write_cnt hw (access_idle hw).2 addr command data ||| ALI15X3_BLOCK_CLR)] ++
          (List.range' 1 (min (data.block 0) 32)).map
            (fun j => IOEvent.wr SMBBLKDAT (data.block j % 256)))
          (u8_of_int ALI15X3_BLOCK_DATA) SMBHSTCNT⟩ := by
    simp only [access_arm, hsw]
  obtain ⟨sw, dw, htr, hsw0, -, hdw⟩ := writes_ali15x3_access ha
  have hdata : (ali15x3_access hw addr I2C_SMBUS_WRITE command I2C_SMBUS_BLOCK_DATA data).data =
      { data with block := Function.update data.block 0 (min (data.block 0) 32) } := by
    simp only [ali15x3_access, ha]
    split_ifs <;> first | rfl | simp_all
  have hmap : (fun j => data.block j % 256) = fun j => data.block j := by
    funext j; exact Nat.mod_eq_of_lt (hbytes j)
  have hwm : ∀ l : List Nat, writes (l.map (fun j => IOEvent.wr SMBBLKDAT (data.block j % 256))) =
      l.map (fun j => (SMBBLKDAT, data.block j)) := by
    intro l
    induction l with
    | nil => rfl
    | cons x l ih => simp [ih, Nat.mod_eq_of_lt (hbytes x)]
  rw [hdw rfl] at htr
  rw [htr, hclamp, hdata]
  simp only [writes_outb_p, writes_append, writes_access_idle, writes_cons_wr, writes_cons_rd,
    writes_nil, hwm, List.filter_append, List.append_nil]
  have h4 := filter_port_of_all (p := SMBHSTDAT0) hsw0 (by decide)
  have h6 := filter_port_of_all (p := SMBBLKDAT) hsw0 (by decide)
  refine ⟨?_, ?_, ?_⟩
  · rw [h4, filter_port_map, if_neg (by decide)]
    split_ifs <;> simp
  · simp
  · rw [h6, filter_port_map, if_pos rfl]
    split_ifs <;> simp

/-- Witness for C5: declared length 40; the length written and reported is 32
and the 32 payload bytes `block[1..32]` go to the block-data port. -/
theorem block_write_length_clamped_witness :
    (writes (ali15x3_access hw_idle 0x30 I2C_SMBUS_WRITE 0x10 I2C_SMBUS_BLOCK_DATA
        sample_data).trace).filter (fun w => decide (w.1 = SMBHSTDAT0)) =
      [(SMBHSTDAT0, (spec_clamp_length (sample_data.block 0)).toNat)] ∧
    (ali15x3_access hw_idle 0x30 I2C_SMBUS_WRITE 0x10 I2C_SMBUS_BLOCK_DATA
        sample_data).data.block 0 = (spec_clamp_length (sample_data.block 0)).toNat ∧
    (writes (ali15x3_access hw_idle 0x30 I2C_SMBUS_WRITE 0x10 I2C_SMBUS_BLOCK_DATA
        sample_data).trace).filter (fun w => decide (w.1 = SMBBLKDAT)) =
      (List.range' 1 (spec_clamp_length (sample_data.block 0)).toNat).map
        (fun i => (SMBBLKDAT, sample_data.block i)) :=
  block_write_length_clamped hw_idle 0x30 0x10 sample_data
    (fun i => by simp only [sample_data]; split_ifs <;> omega)

/-! ## C6 -/

theorem access_arm_block_read (hw : Hardware) (addr read_write command : Nat)
    (data : SmbusData) (h : read_write ≠ I2C_SMBUS_WRITE) :
    ∃ vs : List Nat,
      access_arm hw addr read_write command I2C_SMBUS_BLOCK_DATA data = some
        ⟨ALI15X3_BLOCK_DATA, data,
          IOEvent.wr SMBHSTSTS 0xFF :: vs.map (IOEvent.rd SMBHSTSTS) ++
            [IOEvent.wr SMBHSTADD (((addr &&& 0x7f) <<< 1) ||| (read_write &&& 0x01)),
             IOEvent.wr SMBHSTCMD (command % 256), IOEvent.wr SMBHSTCNT 0x40]⟩ := by
  obtain ⟨vs, hvs⟩ := access_idle_trace hw
  refine ⟨vs, ?_⟩
  simp only [access_arm, access_switch_block_read _ _ _ _ _ _ h, hvs, outb_p]
  have : u8_of_int ALI15X3_BLOCK_DATA % 256 = 0x40 := by decide
  rw [this]
  simp

/-- C6: in a successful block-data read in which Data0 returns `n`, the trace
ends with the read of Data0, the read-modify-write of the command register
that sets `ALI15X3_BLOCK_CLR`, and then exactly `min n 32` reads of the
block-data port; no other read of a data register occurs; the reported length
`block[0]` is `min n 32`, the `k`-th byte read is stored in `block[k]`, and the
payload bytes beyond index `min n 32` are unchanged. -/
theorem block_read_decodes_payload (hw : Hardware) (addr read_write command : Nat)
    (data : SmbusData) (hrw : read_write ≠ I2C_SMBUS_WRITE)
    (hret : (ali15x3_access hw addr read_write command I2C_SMBUS_BLOCK_DATA data).ret = 0) :
    ∃ (pre : Trace) (n c : Nat) (vs : List Nat),
      (ali15x3_access hw addr read_write command I2C_SMBUS_BLOCK_DATA data).trace =
        pre ++ [IOEvent.rd SMBHSTDAT0 n, IOEvent.rd SMBHSTCNT c,
          IOEvent.wr SMBHSTCNT (c ||| ALI15X3_BLOCK_CLR)] ++ vs.map (IOEvent.rd SMBBLKDAT) ∧
      n < 256 ∧
      (∀ p v, IOEvent.rd p v ∈ pre → p = SMBHSTSTS) ∧
      vs.length = min n 32 ∧
      (ali15x3_access hw addr read_write command I2C_SMBUS_BLOCK_DATA data).data.block 0 =
        min n 32 ∧
      (∀ k, k < min n 32 → vs[k]? = some
        ((ali15x3_access hw addr read_write command I2C_SMBUS_BLOCK_DATA data).data.block (1 + k))) ∧
      (∀ k, min n 32 < k →
        (ali15x3_access hw addr read_write command I2C_SMBUS_BLOCK_DATA data).data.block k =
          data.block k) := by
  obtain ⟨ivs, ha⟩ := access_arm_block_read hw addr read_write command data hrw
  generalize hatr : (IOEvent.wr SMBHSTSTS 0xFF :: ivs.map (IOEvent.rd SMBHSTSTS) ++
    [IOEvent.wr SMBHSTADD (((addr &&& 0x7f) <<< 1) ||| (read_write &&& 0x01)),
     IOEvent.wr SMBHSTCMD (command % 256), IOEvent.wr SMBHSTCNT 0x40]) = atr at ha
  have hpre : ∀ p v, IOEvent.rd p v ∈ (ali15x3_transaction hw atr).2 → p = SMBHSTSTS := by
    obtain ⟨ev, hev, hall, -⟩ := ali15x3_transaction_trace hw atr
    intro p v hpv
    rw [hev, ← hatr] at hpv
    simp only [List.mem_append, List.mem_cons, List.mem_map, List.mem_singleton,
      List.not_mem_nil, or_false] at hpv
    rcases hpv with ((hpv | ⟨x, -, hx⟩) | hpv) | hpv
    · exact absurd hpv (by simp)
    · simp only [IOEvent.rd.injEq] at hx; exact hx.1.symm
    · rcases hpv with hpv | hpv | hpv <;> exact absurd hpv (by simp)
    · exact hall _ hpv
  simp only [ali15x3_access, ha] at hret ⊢
  by_cases h1 : (ali15x3_transaction hw atr).1 ≠ 0
  · rw [if_pos h1] at hret
    exact absurd hret (show ¬ ((-1 : Int) = 0) by decide)
  · have h2 : ¬ (read_write = I2C_SMBUS_WRITE ∨ ALI15X3_BLOCK_DATA = ALI15X3_QUICK) := by
      intro h
      rcases h with h | h
      · exact hrw h
      · exact absurd h (by decide)
    simp only [if_neg h1, if_neg h2, access_decode_block]
    generalize (ali15x3_transaction hw atr).2 = pre at hpre ⊢
    obtain ⟨vs, hlen, htr, -, -, hlo, hhi, hval⟩ := block_read_loop_spec hw
      (min (hw pre SMBHSTDAT0 % 256) 32) 1
      ⟨data.byte, data.word, Function.update data.block 0 (min (hw pre SMBHSTDAT0 % 256) 32)⟩
      (pre ++ [IOEvent.rd SMBHSTDAT0 (hw pre SMBHSTDAT0 % 256),
          IOEvent.rd SMBHSTCNT
            (hw (pre ++ [IOEvent.rd SMBHSTDAT0 (hw pre SMBHSTDAT0 % 256)]) SMBHSTCNT % 256),
          IOEvent.wr SMBHSTCNT
            (hw (pre ++ [IOEvent.rd SMBHSTDAT0 (hw pre SMBHSTDAT0 % 256)]) SMBHSTCNT % 256 |||
              ALI15X3_BLOCK_CLR)])
    refine ⟨pre, hw pre SMBHSTDAT0 % 256, _, vs, htr, Nat.mod_lt _ (by decide), hpre, hlen, ?_,
      hval, ?_⟩
    · rw [hlo 0 (by decide)]
      show Function.update data.block 0 _ 0 = _
      exact Function.update_same _ _ _
    · intro k hk
      rw [hhi k (by omega)]
      show Function.update data.block 0 _ k = _
      exact Function.update_noteq (by omega) _ _

/-- Witness for C6: a block read on the well-behaved controller, whose Data0
register returns 3. -/
theorem block_read_decodes_payload_witness :
    ∃ (pre : Trace) (n c : Nat) (vs : List Nat),
      (ali15x3_access hw_good 0x30 I2C_SMBUS_READ 0x10 I2C_SMBUS_BLOCK_DATA sample_data).trace =
        pre ++ [IOEvent.rd SMBHSTDAT0 n, IOEvent.rd SMBHSTCNT c,
          IOEvent.wr SMBHSTCNT (c ||| ALI15X3_BLOCK_CLR)] ++ vs.map (IOEvent.rd SMBBLKDAT) ∧
      n < 256 ∧
      (∀ p v, IOEvent.rd p v ∈ pre → p = SMBHSTSTS) ∧
      vs.length = min n 32 ∧
      (ali15x3_access hw_good 0x30 I2C_SMBUS_READ 0x10 I2C_SMBUS_BLOCK_DATA sample_data).data.block 0 =
        min n 32 ∧
      (∀ k, k < min n 32 → vs[k]? = some
        ((ali15x3_access hw_good 0x30 I2C_SMBUS_READ 0x10 I2C_SMBUS_BLOCK_DATA
          sample_data).data.block (1 + k))) ∧
      (∀ k, min n 32 < k →
        (ali15x3_access hw_good 0x30 I2C_SMBUS_READ 0x10 I2C_SMBUS_BLOCK_DATA sample_data).data.block k =
          sample_data.block k) :=
  block_read_decodes_payload hw_good 0x30 I2C_SMBUS_READ 0x10 sample_data (by decide) (by decide)

/-! ## Status bits, the polling loop and the result of a transaction -/

theorem or_eq_zero_parts (p q : Nat) (h : p ||| q = 0) : p = 0 ∧ q = 0 := by
  constructor <;> apply Nat.eq_of_testBit_eq <;> intro i <;>
    have := congrArg (fun x => Nat.testBit x i) h <;>
    simp only [Nat.testBit_or, Nat.zero_testBit, Bool.or_eq_false_iff] at this ⊢
  · exact this.1
  · exact this.2

theorem and_or_eq_zero (x a b : Nat) : x &&& (a ||| b) = 0 ↔ x &&& a = 0 ∧ x &&& b = 0 := by
  rw [Nat.and_or_distrib_left]
  constructor
  · exact or_eq_zero_parts _ _
  · rintro ⟨h1, h2⟩; rw [h1, h2]; rfl

theorem err_bits_eq_zero (x : Nat) :
    x &&& ALI15X3_STS_ERR = 0 ↔
      x &&& ALI15X3_STS_TERM = 0 ∧ x &&& ALI15X3_STS_COLL = 0 ∧ x &&& ALI15X3_STS_DEV = 0 := by
  have h : ALI15X3_STS_ERR = ALI15X3_STS_TERM ||| (ALI15X3_STS_COLL ||| ALI15X3_STS_DEV) := by
    decide
  rw [h, and_or_eq_zero, and_or_eq_zero]

theorem transaction_result_eq (temp timeout : Nat) :
    transaction_result temp timeout =
      if timeout ≥ MAX_TIMEOUT ∨ temp &&& ALI15X3_STS_ERR ≠ 0 then -1 else 0 := by
  have he := err_bits_eq_zero temp
  simp only [transaction_result]
  by_cases h1 : temp &&& ALI15X3_STS_DEV ≠ 0
  · have : temp &&& ALI15X3_STS_ERR ≠ 0 := fun h => h1 (he.mp h).2.2
    rw [if_pos h1, if_pos (Or.inr this)]
  · rw [if_neg h1]
    by_cases h2 : temp &&& ALI15X3_STS_COLL ≠ 0
    · have : temp &&& ALI15X3_STS_ERR ≠ 0 := fun h => h2 (he.mp h).2.1
      rw [if_pos h2, if_pos (Or.inr this)]
    · rw [if_neg h2]
      by_cases h3 : temp &&& ALI15X3_STS_TERM ≠ 0
      · have : temp &&& ALI15X3_STS_ERR ≠ 0 := fun h => h3 (he.mp h).1
        rw [if_pos h3, if_pos (Or.inr this)]
      · rw [if_neg h3]
        have hno : temp &&& ALI15X3_STS_ERR = 0 :=
          he.mpr ⟨not_not.mp h3, not_not.mp h2, not_not.mp h1⟩
        by_cases h4 : timeout ≥ MAX_TIMEOUT
        · rw [if_pos h4, if_pos (Or.inl h4)]
        · rw [if_neg h4, if_neg]
          rintro (h | h)
          · exact h4 h
          · exact h hno

theorem poll_status_zero (hw : Hardware) (tr : Trace) :
    poll_status hw 0 tr = hw tr SMBHSTSTS % 256 := rfl

theorem poll_status_succ (hw : Hardware) (k : Nat) (tr : Trace) :
    poll_status hw (k + 1) tr =
      poll_status hw k (tr ++ [IOEvent.rd SMBHSTSTS (hw tr SMBHSTSTS % 256)]) := rfl

/-- The polling loop ends at the first status read that shows DONE or an error
bit, provided there is one among the reads the loop can make; `timeout` then
is the number of reads before it. -/
theorem transaction_poll_done (hw : Hardware) (j : Nat) :
    ∀ (n : Nat) (tr : Trace), j ≤ n →
      (∀ i < j, poll_status hw i tr &&& (ALI15X3_STS_ERR ||| ALI15X3_STS_DONE) = 0) →
      poll_status hw j tr &&& (ALI15X3_STS_ERR ||| ALI15X3_STS_DONE) ≠ 0 →
      (transaction_poll hw n tr).temp = poll_status hw j tr ∧
        (transaction_poll hw n tr).timeout = MAX_TIMEOUT - (n - j) := by
  induction j with
  | zero =>
    intro n tr _ _ hd
    rw [poll_status_zero] at hd
    cases n with
    | zero => rw [transaction_poll_zero, if_pos hd]; exact ⟨rfl, rfl⟩
    | succ n => rw [transaction_poll_succ, if_pos hd]; exact ⟨rfl, rfl⟩
  | succ j ih =>
    intro n tr hjn hwait hd
    cases n with
    | zero => omega
    | succ n =>
      have h0 := hwait 0 (by omega)
      rw [poll_status_zero] at h0
      rw [transaction_poll_succ, if_neg (not_not.mpr h0)]
      have := ih n (tr ++ [IOEvent.rd SMBHSTSTS (hw tr SMBHSTSTS % 256)]) (by omega)
        (fun i hi => by rw [← poll_status_succ]; exact hwait (i + 1) (by omega))
        (by rw [← poll_status_succ]; exact hd)
      rw [this.1, this.2, poll_status_succ]
      exact ⟨rfl, by omega⟩

/-- When none of the first `n` status reads shows DONE or an error bit, the
polling loop entered with `MAX_TIMEOUT - timeout = n` leaves `timeout` at
`MAX_TIMEOUT` or above. -/
theorem transaction_poll_timeout (hw : Hardware) (n : Nat) :
    ∀ tr : Trace,
      (∀ i < n, poll_status hw i tr &&& (ALI15X3_STS_ERR ||| ALI15X3_STS_DONE) = 0) →
      MAX_TIMEOUT ≤ (transaction_poll hw n tr).timeout := by
  induction n with
  | zero =>
    intro tr _
    rw [transaction_poll_zero]
    split_ifs <;> simp
  | succ n ih =>
    intro tr hwait
    have h0 := hwait 0 (by omega)
    rw [poll_status_zero] at h0
    rw [transaction_poll_succ, if_neg (not_not.mpr h0)]
    exact ih _ (fun i hi => by rw [← poll_status_succ]; exact hwait (i + 1) (by omega))

/-- The status is ready: no recovery, no settle, no latched DONE; the start
register is written after a single status read. -/
theorem transaction_start_ready (hw : Hardware) (tr : Trace)
    (h : hw tr SMBHSTSTS % 256 &&& (ALI15X3_STS_ERR ||| ALI15X3_STS_BUSY) = 0)
    (hd : hw tr SMBHSTSTS % 256 &&& ALI15X3_STS_DONE = 0) :
    transaction_start hw tr =
      (true, tr ++ [IOEvent.rd SMBHSTSTS (hw tr SMBHSTSTS % 256), IOEvent.wr SMBHSTSTART 0xFF]) := by
  have hb : hw tr SMBHSTSTS % 256 &&& ALI15X3_STS_BUSY = 0 := ((and_or_eq_zero _ _ _).mp h).2
  have hr : transaction_recover hw tr =
      (hw tr SMBHSTSTS % 256, tr ++ [IOEvent.rd SMBHSTSTS (hw tr SMBHSTSTS % 256)]) := by
    simp only [transaction_recover, inb_p_fst, if_neg (not_not.mpr hb)]
    rfl
  simp only [transaction_start, hr, if_neg (not_not.mpr h), if_neg (not_not.mpr hd), outb_p,
    List.append_assoc, List.singleton_append]

theorem idle_wait_of_idle (hw : Hardware) (n temp : Nat) (tr : Trace)
    (h : temp &&& ALI15X3_STS_IDLE ≠ 0) : idle_wait hw n temp tr = (temp, tr) := by
  cases n with
  | zero => rfl
  | succ n => simp only [idle_wait, if_pos h]

theorem access_idle_of_idle (hw : Hardware)
    (h : hw [IOEvent.wr SMBHSTSTS 0xFF] SMBHSTSTS % 256 &&& ALI15X3_STS_IDLE ≠ 0) :
    access_idle hw = (hw [IOEvent.wr SMBHSTSTS 0xFF] SMBHSTSTS % 256,
      [IOEvent.wr SMBHSTSTS 0xFF,
        IOEvent.rd SMBHSTSTS (hw [IOEvent.wr SMBHSTSTS 0xFF] SMBHSTSTS % 256)]) := by
  have : outb_p [] 0xFF SMBHSTSTS = [IOEvent.wr SMBHSTSTS 0xFF] := rfl
  simp only [access_idle, this, inb_p_fst, inb_p_snd]
  rw [idle_wait_of_idle hw _ _ _ h]
  rfl

/-! ## C7 -/

/-- C7: a byte-data write on a well-behaved controller (status IDLE with BUSY,
DONE and error bits clear before the start write; BUSY without DONE or error
at the first read after the start write, DONE without error at the second)
returns 0, and its write trace is the clear-on-write followed by
address <- ((a & 0x7F) << 1) | 0, command code <- c, Data0 <- d,
command <- 0x20, start <- 0xFF. -/
theorem byte_data_write_trace (hw : Hardware) (addr command : Nat) (data : SmbusData)
    (hc : command < 256) (hd : data.byte < 256)
    (hidle : ∀ tr : Trace, IOEvent.wr SMBHSTSTART 0xFF ∉ tr →
      (inb_p hw tr SMBHSTSTS).1 &&& ALI15X3_STS_IDLE ≠ 0 ∧
      (inb_p hw tr SMBHSTSTS).1 &&&
        (ALI15X3_STS_ERR ||| ALI15X3_STS_BUSY ||| ALI15X3_STS_DONE) = 0)
    (hbusy : ∀ tr : Trace,
      (inb_p hw (tr ++ [IOEvent.wr SMBHSTSTART 0xFF]) SMBHSTSTS).1 &&& ALI15X3_STS_BUSY ≠ 0 ∧
      (inb_p hw (tr ++ [IOEvent.wr SMBHSTSTART 0xFF]) SMBHSTSTS).1 &&&
        (ALI15X3_STS_ERR ||| ALI15X3_STS_DONE) = 0)
    (hdone : ∀ (tr : Trace) (s : Nat),
      (inb_p hw (tr ++ [IOEvent.wr SMBHSTSTART 0xFF, IOEvent.rd SMBHSTSTS s]) SMBHSTSTS).1 &&&
        ALI15X3_STS_DONE ≠ 0 ∧
      (inb_p hw (tr ++ [IOEvent.wr SMBHSTSTART 0xFF, IOEvent.rd SMBHSTSTS s]) SMBHSTSTS).1 &&&
        ALI15X3_STS_ERR = 0) :
    (ali15x3_access hw addr I2C_SMBUS_WRITE command I2C_SMBUS_BYTE_DATA data).ret = 0 ∧
    writes (ali15x3_access hw addr I2C_SMBUS_WRITE command I2C_SMBUS_BYTE_DATA data).trace =
      [(SMBHSTSTS, 0xFF), (SMBHSTADD, ((addr &&& 0x7F) <<< 1) ||| 0), (SMBHSTCMD, command),
        (SMBHSTDAT0, data.byte), (SMBHSTCNT, 0x20), (SMBHSTSTART, 0xFF)] := by
  simp only [inb_p_fst] at hidle hbusy hdone
  obtain ⟨hi1, -⟩ := hidle [IOEvent.wr SMBHSTSTS 0xFF] (by simp)
  have hidleeq := access_idle_of_idle hw hi1
  obtain ⟨T0, hT0⟩ : ∃ T0 : Trace, T0 = [IOEvent.wr SMBHSTSTS 0xFF,
      IOEvent.rd SMBHSTSTS (hw [IOEvent.wr SMBHSTSTS 0xFF] SMBHSTSTS % 256),
      IOEvent.wr SMBHSTADD (((addr &&& 0x7f) <<< 1) ||| (I2C_SMBUS_WRITE &&& 0x01)),
      IOEvent.wr SMBHSTCMD command, IOEvent.wr SMBHSTDAT0 data.byte,
      IOEvent.wr SMBHSTCNT 0x20] := ⟨_, rfl⟩
  have ha : access_arm hw addr I2C_SMBUS_WRITE command I2C_SMBUS_BYTE_DATA data =
      some ⟨ALI15X3_BYTE_DATA, data, T0⟩ := by
    have hu : u8_of_int ALI15X3_BYTE_DATA % 256 = 0x20 := by decide
    simp only [access_arm, access_switch_byte_data, hidleeq, outb_p, if_true, hu,
      Nat.mod_eq_of_lt hc, Nat.mod_eq_of_lt hd, hT0, List.cons_append, List.nil_append,
      List.append_assoc]
  have hns : IOEvent.wr SMBHSTSTART 0xFF ∉ T0 := by rw [hT0]; simp
  have hwT0 : writes T0 = [(SMBHSTSTS, 0xFF), (SMBHSTADD, ((addr &&& 0x7F) <<< 1) ||| 0),
      (SMBHSTCMD, command), (SMBHSTDAT0, data.byte), (SMBHSTCNT, 0x20)] := by
    rw [hT0]; simp
  obtain ⟨-, hr⟩ := hidle T0 hns
  obtain ⟨hr1, hr2⟩ := (and_or_eq_zero _ _ _).mp hr
  have hst := transaction_start_ready hw T0 hr1 hr2
  generalize hw T0 SMBHSTSTS % 256 = s1 at hst
  obtain ⟨T1, hT1⟩ : ∃ T1 : Trace, T1 = T0 ++ [IOEvent.rd SMBHSTSTS s1,
    IOEvent.wr SMBHSTSTART 0xFF] := ⟨_, rfl⟩
  rw [← hT1] at hst
  have hb := (hbusy (T0 ++ [IOEvent.rd SMBHSTSTS s1])).2
  have hdn := hdone (T0 ++ [IOEvent.rd SMBHSTSTS s1]) (hw T1 SMBHSTSTS % 256)
  have e1 : T0 ++ [IOEvent.rd SMBHSTSTS s1] ++ [IOEvent.wr SMBHSTSTART 0xFF] = T1 := by
    rw [hT1]; simp
  have e2 : T0 ++ [IOEvent.rd SMBHSTSTS s1] ++ [IOEvent.wr SMBHSTSTART 0xFF,
      IOEvent.rd SMBHSTSTS (hw T1 SMBHSTSTS % 256)] =
      T1 ++ [IOEvent.rd SMBHSTSTS (hw T1 SMBHSTSTS % 256)] := by
    rw [hT1]; simp
  rw [e1] at hb
  rw [e2] at hdn
  have hpoll := transaction_poll_done hw 1 MAX_TIMEOUT T1 (by decide)
    (fun i hi => by
      have : i = 0 := by omega
      subst this
      exact hb)
    (by
      rw [poll_status_succ, poll_status_zero]
      intro h
      exact hdn.1 ((and_or_eq_zero _ _ _).mp h).2)
  rw [poll_status_succ, poll_status_zero] at hpoll
  have hres : (ali15x3_transaction hw T0).1 = 0 := by
    simp only [ali15x3_transaction, hst, if_true, transaction_result_eq, hpoll.1, hpoll.2]
    rw [if_neg]
    rintro (h | h)
    · exact absurd h (by decide)
    · exact h hdn.2
  have hwr : writes (ali15x3_transaction hw T0).2 = writes T0 ++ [(SMBHSTSTART, 0xFF)] := by
    rw [writes_ali15x3_transaction, hst, hT1]
    simp
  simp only [ali15x3_access, ha, hres, ne_eq, not_true_eq_false, if_false, true_or, if_true]
  exact ⟨trivial, by rw [hwr, hwT0]; rfl⟩

/-- Witness for C7: a = 0x50, c = 0x00, d = 0xAB on the well-behaved controller
gives the writes 0xA0, 0x00, 0xAB, 0x20 and the start write. -/
theorem byte_data_write_trace_witness :
    (ali15x3_access hw_good 0x50 I2C_SMBUS_WRITE 0x00 I2C_SMBUS_BYTE_DATA sample_data).ret = 0 ∧
    writes (ali15x3_access hw_good 0x50 I2C_SMBUS_WRITE 0x00 I2C_SMBUS_BYTE_DATA
        sample_data).trace =
      [(SMBHSTSTS, 0xFF), (SMBHSTADD, ((0x50 &&& 0x7F) <<< 1) ||| 0), (SMBHSTCMD, 0x00),
        (SMBHSTDAT0, sample_data.byte), (SMBHSTCNT, 0x20), (SMBHSTSTART, 0xFF)] :=
  byte_data_write_trace hw_good 0x50 0x00 sample_data (by decide) (by decide)
    (fun tr h => by simp [hw_good, h]; decide)
    (fun tr => by simp [hw_good]; decide)
    (fun tr s => by simp [hw_good]; decide)

/-! ## Failed calls -/

theorem access_arm_reads {hw : Hardware} {addr read_write command : Nat} {size : Int}
    {data : SmbusData} {a : Armed}
    (h : access_arm hw addr read_write command size data = some a) :
    ∀ p v, IOEvent.rd p v ∈ a.trace → p = SMBHSTSTS ∨ p = SMBHSTCNT := by
  obtain ⟨vs, ev, htr, hall⟩ := access_arm_trace h
  intro p v hpv
  rw [htr] at hpv
  simp only [List.mem_append, List.mem_cons, List.mem_map, List.mem_singleton,
    List.not_mem_nil, or_false] at hpv
  rcases hpv with ((hpv | ⟨x, -, hx⟩) | hpv) | hpv
  · exact absurd hpv (by simp)
  · simp only [IOEvent.rd.injEq] at hx; exact Or.inl hx.1.symm
  · exact Or.inr (hall _ hpv)
  · exact absurd hpv (by simp)

theorem access_arm_data_of_read {hw : Hardware} {addr read_write command : Nat} {size : Int}
    {data : SmbusData} {a : Armed} (hrw : read_write ≠ I2C_SMBUS_WRITE)
    (h : access_arm hw addr read_write command size data = some a) : a.data = data := by
  obtain ⟨b, hb, -, hdata, -⟩ := access_arm_eq_some h
  rw [hdata]
  by_cases hs : Supported size
  · rcases hs with rfl | rfl | rfl | rfl | rfl
    · rw [access_switch_quick] at hb
      simp only [Option.some.injEq] at hb; subst hb; rfl
    · rw [access_switch_byte] at hb
      simp only [Option.some.injEq] at hb; subst hb; rfl
    · rw [access_switch_byte_data] at hb
      simp only [Option.some.injEq] at hb; subst hb; rfl
    · rw [access_switch_word_data] at hb
      simp only [Option.some.injEq] at hb; subst hb; rfl
    · rw [access_switch_block_read _ _ _ _ _ _ hrw] at hb
      simp only [Option.some.injEq] at hb; subst hb; rfl
  · have h4 : size ≠ I2C_SMBUS_PROC_CALL := by
      intro h4
      rw [access_switch_eq_none.mpr h4] at hb
      exact Option.noConfusion hb
    rw [access_switch_other _ _ _ _ _ _ _ h4 hs] at hb
    simp only [Option.some.injEq] at hb; subst hb; rfl

/-- A call whose transaction fails returns -1 with the payload as it stood
when the transaction was entered, and reads no register other than the status
and command registers. -/
theorem access_of_failed_transaction {hw : Hardware} {addr read_write command : Nat}
    {size : Int} {data : SmbusData} {a : Armed}
    (ha : access_arm hw addr read_write command size data = some a)
    (hf : (ali15x3_transaction hw a.trace).1 ≠ 0) :
    (ali15x3_access hw addr read_write command size data).ret = -1 ∧
    (ali15x3_access hw addr read_write command size data).data = a.data ∧
    (∀ p v, IOEvent.rd p v ∈ (ali15x3_access hw addr read_write command size data).trace →
      p = SMBHSTSTS ∨ p = SMBHSTCNT) := by
  simp only [ali15x3_access, ha, if_pos hf]
  refine ⟨trivial, trivial, ?_⟩
  obtain ⟨ev, hev, hall, -⟩ := ali15x3_transaction_trace hw a.trace
  intro p v hpv
  rw [hev] at hpv
  rcases List.mem_append.mp hpv with hpv | hpv
  · exact access_arm_reads ha p v hpv
  · exact Or.inl (hall _ hpv)

/-! ## C8 -/

/-- C8: when the transaction is started and none of the first `MAX_TIMEOUT`
status reads of the polling loop shows DONE or an error bit, `ali15x3_access`
returns -1, reads no data register and leaves the payload as it was when the
transaction was entered; for a read operation that is the caller's payload. -/
theorem completion_timeout_fails (hw : Hardware) (addr read_write command : Nat)
    (size : Int) (data : SmbusData) (a : Armed)
    (ha : access_arm hw addr read_write command size data = some a)
    (hstart : (transaction_start hw a.trace).1 = true)
    (hpoll : ∀ i < MAX_TIMEOUT, poll_status hw i (transaction_start hw a.trace).2 &&&
      (ALI15X3_STS_ERR ||| ALI15X3_STS_DONE) = 0) :
    (ali15x3_access hw addr read_write command size data).ret = -1 ∧
    (∀ p v, IOEvent.rd p v ∈ (ali15x3_access hw addr read_write command size data).trace →
      p ≠ SMBHSTDAT0 ∧ p ≠ SMBHSTDAT1 ∧ p ≠ SMBBLKDAT) ∧
    (ali15x3_access hw addr read_write command size data).data = a.data ∧
    (read_write ≠ I2C_SMBUS_WRITE →
      (ali15x3_access hw addr read_write command size data).data = data) := by
  have hto := transaction_poll_timeout hw MAX_TIMEOUT _ hpoll
  have hf : (ali15x3_transaction hw a.trace).1 ≠ 0 := by
    simp only [ali15x3_transaction, hstart, if_true, transaction_result_eq]
    rw [if_pos (Or.inl hto)]
    decide
  obtain ⟨h1, h2, h3⟩ := access_of_failed_transaction ha hf
  refine ⟨h1, ?_, h2, fun hrw => by rw [h2]; exact access_arm_data_of_read hrw ha⟩
  intro p v hpv
  rcases h3 p v hpv with rfl | rfl <;> decide

/-- Witness for C8: a byte-data read on a controller that stays idle and never
reports DONE. -/
theorem completion_timeout_fails_witness :
    (ali15x3_access hw_idle 0x50 I2C_SMBUS_READ 0 I2C_SMBUS_BYTE_DATA sample_data).ret = -1 ∧
    (∀ p v, IOEvent.rd p v ∈
      (ali15x3_access hw_idle 0x50 I2C_SMBUS_READ 0 I2C_SMBUS_BYTE_DATA sample_data).trace →
      p ≠ SMBHSTDAT0 ∧ p ≠ SMBHSTDAT1 ∧ p ≠ SMBBLKDAT) ∧
    (ali15x3_access hw_idle 0x50 I2C_SMBUS_READ 0 I2C_SMBUS_BYTE_DATA sample_data).data =
      sample_data ∧
    (I2C_SMBUS_READ ≠ I2C_SMBUS_WRITE →
      (ali15x3_access hw_idle 0x50 I2C_SMBUS_READ 0 I2C_SMBUS_BYTE_DATA sample_data).data =
        sample_data) :=
  completion_timeout_fails hw_idle 0x50 I2C_SMBUS_READ 0 I2C_SMBUS_BYTE_DATA sample_data
    ⟨ALI15X3_BYTE_DATA, sample_data,
      [IOEvent.wr 0 0xFF, IOEvent.rd 0 0x04, IOEvent.wr 3 0xA1, IOEvent.wr 7 0,
        IOEvent.wr 1 0x20]⟩
    rfl (by decide) (fun i _ => by simp [poll_status, hw_idle]; decide)

/-! ## C9 -/

/-- C9: when the status that ends the polling loop has one of the error bits
0x20, 0x40, 0x80 set, with or without DONE, `ali15x3_access` returns -1, reads
no data register and leaves the payload as it was when the transaction was
entered; for a read operation that is the caller's payload. -/
theorem error_status_fails (hw : Hardware) (addr read_write command : Nat)
    (size : Int) (data : SmbusData) (a : Armed)
    (ha : access_arm hw addr read_write command size data = some a)
    (hstart : (transaction_start hw a.trace).1 = true)
    (herr :
      (transaction_poll hw MAX_TIMEOUT (transaction_start hw a.trace).2).temp &&&
        ALI15X3_STS_DEV ≠ 0 ∨
      (transaction_poll hw MAX_TIMEOUT (transaction_start hw a.trace).2).temp &&&
        ALI15X3_STS_COLL ≠ 0 ∨
      (transaction_poll hw MAX_TIMEOUT (transaction_start hw a.trace).2).temp &&&
        ALI15X3_STS_TERM ≠ 0) :
    (ali15x3_access hw addr read_write command size data).ret = -1 ∧
    (∀ p v, IOEvent.rd p v ∈ (ali15x3_access hw addr read_write command size data).trace →
      p ≠ SMBHSTDAT0 ∧ p ≠ SMBHSTDAT1 ∧ p ≠ SMBBLKDAT) ∧
    (ali15x3_access hw addr read_write command size data).data = a.data ∧
    (read_write ≠ I2C_SMBUS_WRITE →
      (ali15x3_access hw addr read_write command size data).data = data) := by
  have herr' : (transaction_poll hw MAX_TIMEOUT (transaction_start hw a.trace).2).temp &&&
      ALI15X3_STS_ERR ≠ 0 := by
    intro h
    obtain ⟨ht, hc, hd⟩ := (err_bits_eq_zero _).mp h
    rcases herr with h1 | h1 | h1
    · exact h1 hd
    · exact h1 hc
    · exact h1 ht
  have hf : (ali15x3_transaction hw a.trace).1 ≠ 0 := by
    simp only [ali15x3_transaction, hstart, if_true, transaction_result_eq]
    rw [if_pos (Or.inr herr')]
    decide
  obtain ⟨h1, h2, h3⟩ := access_of_failed_transaction ha hf
  refine ⟨h1, ?_, h2, fun hrw => by rw [h2]; exact access_arm_data_of_read hrw ha⟩
  intro p v hpv
  rcases h3 p v hpv with rfl | rfl <;> decide

/-- Witness for C9: a byte-data read on a controller that reports DONE together
with a device error (status 0x30). -/
theorem error_status_fails_witness :
    (ali15x3_access hw_error 0x50 I2C_SMBUS_READ 0 I2C_SMBUS_BYTE_DATA sample_data).ret = -1 ∧
    (∀ p v, IOEvent.rd p v ∈
      (ali15x3_access hw_error 0x50 I2C_SMBUS_READ 0 I2C_SMBUS_BYTE_DATA sample_data).trace →
      p ≠ SMBHSTDAT0 ∧ p ≠ SMBHSTDAT1 ∧ p ≠ SMBBLKDAT) ∧
    (ali15x3_access hw_error 0x50 I2C_SMBUS_READ 0 I2C_SMBUS_BYTE_DATA sample_data).data =
      sample_data ∧
    (I2C_SMBUS_READ ≠ I2C_SMBUS_WRITE →
      (ali15x3_access hw_error 0x50 I2C_SMBUS_READ 0 I2C_SMBUS_BYTE_DATA sample_data).data =
        sample_data) :=
  error_status_fails hw_error 0x50 I2C_SMBUS_READ 0 I2C_SMBUS_BYTE_DATA sample_data
    ⟨ALI15X3_BYTE_DATA, sample_data,
      [IOEvent.wr 0 0xFF, IOEvent.rd 0 0x04, IOEvent.wr 3 0xA1, IOEvent.wr 7 0,
        IOEvent.wr 1 0x20]⟩
    rfl (by decide) (by decide)

/-! ## C10 -/

/-- When no status read of the idle wait shows IDLE, the loop runs out its
bound: one status read per iteration. -/
theorem idle_wait_exhausted (hw : Hardware) (n : Nat) :
    ∀ (temp : Nat) (tr : Trace), temp &&& ALI15X3_STS_IDLE = 0 →
      (∀ r ∈ reads (idle_wait hw n temp tr).2, r.2 &&& ALI15X3_STS_IDLE = 0) →
      (reads (idle_wait hw n temp tr).2).length = (reads tr).length + n := by
  induction n with
  | zero => intro temp tr _ _; rfl
  | succ n ih =>
    intro temp tr ht hall
    simp only [idle_wait, if_neg (not_not.mpr ht), inb_p_fst, inb_p_snd] at hall ⊢
    obtain ⟨vs, hvs, -⟩ := idle_wait_trace hw n (hw tr SMBHSTSTS % 256)
      (tr ++ [IOEvent.rd SMBHSTSTS (hw tr SMBHSTSTS % 256)])
    have hin : (SMBHSTSTS, hw tr SMBHSTSTS % 256) ∈
        reads (idle_wait hw n (hw tr SMBHSTSTS % 256)
          (tr ++ [IOEvent.rd SMBHSTSTS (hw tr SMBHSTSTS % 256)])).2 := by
      rw [hvs]; simp
    rw [ih _ _ (hall _ hin) hall]
    simp
    omega

theorem access_idle_exhausted (hw : Hardware)
    (hidle : ∀ r ∈ reads (access_idle hw).2, r.2 &&& ALI15X3_STS_IDLE = 0) :
    (reads (access_idle hw).2).length = MAX_TIMEOUT + 1 := by
  obtain ⟨vs, hvs, -⟩ := idle_wait_trace hw MAX_TIMEOUT
    (hw [IOEvent.wr SMBHSTSTS 0xFF] SMBHSTSTS % 256)
    ([IOEvent.wr SMBHSTSTS 0xFF] ++
      [IOEvent.rd SMBHSTSTS (hw [IOEvent.wr SMBHSTSTS 0xFF] SMBHSTSTS % 256)])
  have hout : outb_p [] 0xFF SMBHSTSTS = [IOEvent.wr SMBHSTSTS 0xFF] := rfl
  simp only [access_idle, hout, inb_p_fst, inb_p_snd] at hidle ⊢
  have hin : (SMBHSTSTS, hw [IOEvent.wr SMBHSTSTS 0xFF] SMBHSTSTS % 256) ∈
      reads (idle_wait hw MAX_TIMEOUT (hw [IOEvent.wr SMBHSTSTS 0xFF] SMBHSTSTS % 256)
        ([IOEvent.wr SMBHSTSTS 0xFF] ++
          [IOEvent.rd SMBHSTSTS (hw [IOEvent.wr SMBHSTSTS 0xFF] SMBHSTSTS % 256)])).2 := by
    rw [hvs]; simp
  rw [idle_wait_exhausted hw MAX_TIMEOUT _ _ (hidle _ hin) hidle]
  simp

theorem transaction_start_of_ready (hw : Hardware) (tr : Trace)
    (h : hw tr SMBHSTSTS % 256 &&& (ALI15X3_STS_ERR ||| ALI15X3_STS_BUSY) = 0) :
    (transaction_start hw tr).1 = true := by
  have hb : hw tr SMBHSTSTS % 256 &&& ALI15X3_STS_BUSY = 0 := ((and_or_eq_zero _ _ _).mp h).2
  have hr : transaction_recover hw tr =
      (hw tr SMBHSTSTS % 256, tr ++ [IOEvent.rd SMBHSTSTS (hw tr SMBHSTSTS % 256)]) := by
    simp only [transaction_recover, inb_p_fst, if_neg (not_not.mpr hb)]
    rfl
  simp only [transaction_start, hr, if_neg (not_not.mpr h)]
  split_ifs <;> rfl

/-- Everything accessed up to the start write is part of the trace of the call. -/
theorem mem_access_trace_of_start {hw : Hardware} {addr read_write command : Nat}
    {size : Int} {data : SmbusData} {a : Armed}
    (ha : access_arm hw addr read_write command size data = some a)
    (hstart : (transaction_start hw a.trace).1 = true) :
    ∀ e ∈ (transaction_start hw a.trace).2,
      e ∈ (ali15x3_access hw addr read_write command size data).trace := by
  obtain ⟨vs, hvs⟩ := transaction_poll_trace hw MAX_TIMEOUT (transaction_start hw a.trace).2
  have ht : (ali15x3_transaction hw a.trace).2 =
      (transaction_start hw a.trace).2 ++ vs.map (IOEvent.rd SMBHSTSTS) := by
    simp only [ali15x3_transaction, hstart, if_true, hvs]
  obtain ⟨ev, hev, -⟩ := access_decode_trace hw a.size a.data (ali15x3_transaction hw a.trace).2
  intro e he
  simp only [ali15x3_access, ha]
  split_ifs
  · rw [ht]; exact List.mem_append_left _ he
  · rw [ht]; exact List.mem_append_left _ he
  · rw [hev, ht]; exact List.mem_append_left _ (List.mem_append_left _ he)

/-- C10: when no status read of the idle wait shows IDLE, the wait makes its
`MAX_TIMEOUT` iterations (501 status reads) and the call goes on: the address
register, the host-command byte and the start register are written, and the
call returns 0 when the status read by `ali15x3_transaction` shows neither BUSY
nor an error bit and the polling loop reaches, within its bound, a status with
DONE and without error bits. -/
theorem idle_timeout_not_fatal (hw : Hardware) (addr read_write command : Nat)
    (size : Int) (data : SmbusData) (a : Armed) (hs : Supported size)
    (ha : access_arm hw addr read_write command size data = some a)
    (hidle : ∀ r ∈ reads (access_idle hw).2, r.2 &&& ALI15X3_STS_IDLE = 0)
    (hready : (inb_p hw a.trace SMBHSTSTS).1 &&& (ALI15X3_STS_ERR ||| ALI15X3_STS_BUSY) = 0)
    (j : Nat) (hj : j < MAX_TIMEOUT)
    (hwait : ∀ i < j, poll_status hw i (transaction_start hw a.trace).2 &&&
      (ALI15X3_STS_ERR ||| ALI15X3_STS_DONE) = 0)
    (hdone : poll_status hw j (transaction_start hw a.trace).2 &&& ALI15X3_STS_DONE ≠ 0)
    (hnoerr : poll_status hw j (transaction_start hw a.trace).2 &&& ALI15X3_STS_ERR = 0) :
    (ali15x3_access hw addr read_write command size data).ret = 0 ∧
    (reads (access_idle hw).2).length = MAX_TIMEOUT + 1 ∧
    IOEvent.wr SMBHSTADD (((addr &&& 0x7f) <<< 1) ||| (read_write &&& 0x01)) ∈
      (ali15x3_access hw addr read_write command size data).trace ∧
    IOEvent.wr SMBHSTCNT (spec_command_byte size) ∈
      (ali15x3_access hw addr read_write command size data).trace ∧
    IOEvent.wr SMBHSTSTART 0xFF ∈
      (ali15x3_access hw addr read_write command size data).trace := by
  rw [inb_p_fst] at hready
  have hstart := transaction_start_of_ready hw a.trace hready
  have hmem := mem_access_trace_of_start ha hstart
  obtain ⟨ev, hev, -, -, hev0⟩ := transaction_start_trace hw a.trace
  obtain ⟨ev0, hev0, -⟩ := hev0 hstart
  obtain ⟨hcmd, hadd⟩ := access_arm_supported hs ha
  obtain ⟨vs, aev, hatr, -⟩ := access_arm_trace ha
  have hpoll := transaction_poll_done hw j MAX_TIMEOUT (transaction_start hw a.trace).2
    (by omega) hwait (fun h => hdone ((and_or_eq_zero _ _ _).mp h).2)
  have hres : (ali15x3_transaction hw a.trace).1 = 0 := by
    simp only [ali15x3_transaction, hstart, if_true, transaction_result_eq, hpoll.1, hpoll.2]
    rw [if_neg]
    rintro (h | h)
    · simp only [MAX_TIMEOUT] at h hj; omega
    · exact h hnoerr
  refine ⟨?_, access_idle_exhausted hw hidle, ?_, ?_, ?_⟩
  · simp only [ali15x3_access, ha, hres, ne_eq, not_true_eq_false, if_false]
    split_ifs <;> rfl
  · apply hmem; rw [hev]; exact List.mem_append_left _ hadd
  · apply hmem; rw [hev, hatr, hcmd]; simp
  · apply hmem; rw [hev, hev0]; simp

theorem idle_wait_reads (hw : Hardware) (P : Nat → Prop)
    (hP : ∀ tr : Trace, P (hw tr SMBHSTSTS % 256)) (n : Nat) :
    ∀ (temp : Nat) (tr : Trace), (∀ r ∈ reads tr, P r.2) →
      ∀ r ∈ reads (idle_wait hw n temp tr).2, P r.2 := by
  induction n with
  | zero => intro temp tr h; exact h
  | succ n ih =>
    intro temp tr h
    simp only [idle_wait]
    split_ifs
    · exact h
    · apply ih
      intro r hr
      simp only [inb_p_snd, reads_append, reads_cons_rd, reads_nil, List.mem_append,
        List.mem_singleton] at hr
      rcases hr with hr | hr
      · exact h r hr
      · subst hr; exact hP tr

/-- Every status value read during the idle wait is a value the controller
returns for a status read. -/
theorem access_idle_reads (hw : Hardware) (P : Nat → Prop)
    (hP : ∀ tr : Trace, P (hw tr SMBHSTSTS % 256)) :
    ∀ r ∈ reads (access_idle hw).2, P r.2 := by
  simp only [access_idle]
  apply idle_wait_reads hw P hP
  intro r hr
  simp only [inb_p_snd, outb_p, reads_append, reads_cons_rd, reads_cons_wr, reads_nil,
    List.nil_append, List.mem_singleton, List.append_nil] at hr
  subst hr
  exact hP _

theorem hw_never_idle_status (tr : Trace) :
    hw_never_idle tr SMBHSTSTS % 256 &&& ALI15X3_STS_IDLE = 0 ∧
      hw_never_idle tr SMBHSTSTS % 256 &&& (ALI15X3_STS_ERR ||| ALI15X3_STS_BUSY) = 0 := by
  simp only [hw_never_idle, if_true]
  split_ifs <;> decide

theorem hw_never_idle_started (tr : Trace) :
    hw_never_idle (tr ++ [IOEvent.wr SMBHSTSTART 0xFF]) SMBHSTSTS % 256 = 0x10 := by
  simp [hw_never_idle]

theorem access_arm_isSome (hw : Hardware) (addr read_write command : Nat) (size : Int)
    (data : SmbusData) (h : size ≠ I2C_SMBUS_PROC_CALL) :
    (access_arm hw addr read_write command size data).isSome = true := by
  cases hx : access_arm hw addr read_write command size data with
  | none => exact absurd (access_arm_eq_none.mp hx) h
  | some a => rfl

/-- Witness for C10: a byte-data write on a controller whose status never shows
IDLE and reads DONE directly after the start write. -/
theorem idle_timeout_not_fatal_witness :
    (ali15x3_access hw_never_idle 0x50 I2C_SMBUS_WRITE 0 I2C_SMBUS_BYTE_DATA sample_data).ret = 0 ∧
    (reads (access_idle hw_never_idle).2).length = MAX_TIMEOUT + 1 ∧
    IOEvent.wr SMBHSTADD (((0x50 &&& 0x7f) <<< 1) ||| (I2C_SMBUS_WRITE &&& 0x01)) ∈
      (ali15x3_access hw_never_idle 0x50 I2C_SMBUS_WRITE 0 I2C_SMBUS_BYTE_DATA sample_data).trace ∧
    IOEvent.wr SMBHSTCNT (spec_command_byte I2C_SMBUS_BYTE_DATA) ∈
      (ali15x3_access hw_never_idle 0x50 I2C_SMBUS_WRITE 0 I2C_SMBUS_BYTE_DATA sample_data).trace ∧
    IOEvent.wr SMBHSTSTART 0xFF ∈
      (ali15x3_access hw_never_idle 0x50 I2C_SMBUS_WRITE 0 I2C_SMBUS_BYTE_DATA sample_data).trace := by
  obtain ⟨a, ha⟩ := Option.isSome_iff_exists.mp
    (access_arm_isSome hw_never_idle 0x50 I2C_SMBUS_WRITE 0 I2C_SMBUS_BYTE_DATA sample_data
      (by decide))
  have hready : (inb_p hw_never_idle a.trace SMBHSTSTS).1 &&&
      (ALI15X3_STS_ERR ||| ALI15X3_STS_BUSY) = 0 := by
    rw [inb_p_fst]; exact (hw_never_idle_status a.trace).2
  have hpoll : poll_status hw_never_idle 0 (transaction_start hw_never_idle a.trace).2 = 0x10 := by
    obtain ⟨ev, hev, -, -, h⟩ := transaction_start_trace hw_never_idle a.trace
    obtain ⟨ev0, hev0, -⟩ := h (transaction_start_of_ready _ _ (hw_never_idle_status a.trace).2)
    rw [poll_status_zero, hev, hev0, ← List.append_assoc, hw_never_idle_started]
  exact idle_timeout_not_fatal hw_never_idle 0x50 I2C_SMBUS_WRITE 0 I2C_SMBUS_BYTE_DATA
    sample_data a (by decide) ha
    (access_idle_reads hw_never_idle (fun v => v &&& ALI15X3_STS_IDLE = 0)
      (fun tr => (hw_never_idle_status tr).1))
    hready 0 (by decide) (fun i hi => absurd hi (Nat.not_lt_zero i))
    (by rw [hpoll]; decide) (by rw [hpoll]; decide)

/-- Every access of the call that follows the arming is appended to the trace
in which `ali15x3_transaction` is entered. -/
theorem access_trace_extends {hw : Hardware} {addr read_write command : Nat} {size : Int}
    {data : SmbusData} {a : Armed}
    (ha : access_arm hw addr read_write command size data = some a) :
    ∃ ev : Trace, (ali15x3_access hw addr read_write command size data).trace = a.trace ++ ev := by
  obtain ⟨ev, hev, -, -⟩ := ali15x3_transaction_trace hw a.trace
  obtain ⟨dv, hdv, -⟩ := access_decode_trace hw a.size a.data (ali15x3_transaction hw a.trace).2
  simp only [ali15x3_access, ha]
  split_ifs
  · exact ⟨ev, hev⟩
  · exact ⟨ev, hev⟩
  · exact ⟨ev ++ dv, by rw [hdv, hev, List.append_assoc]⟩

/-! ## C12 -/

/-- C12: a process-call request returns -1, leaves the payload unchanged and
writes no register other than the status register: neither the start, the
address, the command-code, a data register nor the command register. -/
theorem proc_call_rejected (hw : Hardware) (addr read_write command : Nat)
    (data : SmbusData) :
    (ali15x3_access hw addr read_write command I2C_SMBUS_PROC_CALL data).ret = -1 ∧
    (ali15x3_access hw addr read_write command I2C_SMBUS_PROC_CALL data).data = data ∧
    ∀ p v, IOEvent.wr p v ∈
        (ali15x3_access hw addr read_write command I2C_SMBUS_PROC_CALL data).trace →
      p = SMBHSTSTS := by
  have h : access_arm hw addr read_write command I2C_SMBUS_PROC_CALL data = none :=
    access_arm_eq_none.mpr rfl
  simp only [ali15x3_access, h]
  refine ⟨trivial, trivial, ?_⟩
  intro p v hpv
  have hw' := mem_writes.mpr hpv
  rw [writes_access_idle] at hw'
  simp only [List.mem_singleton, Prod.mk.injEq] at hw'
  exact hw'.1

/-! ## C15 -/

/-- C15: whatever the size class, the inputs and the controller, the first
register access of a call is the write of 0xFF to the status register. -/
theorem first_access_clears_status (hw : Hardware) (addr read_write command : Nat)
    (size : Int) (data : SmbusData) :
    (ali15x3_access hw addr read_write command size data).trace.head? =
      some (IOEvent.wr SMBHSTSTS 0xFF) := by
  cases ha : access_arm hw addr read_write command size data with
  | none =>
    obtain ⟨vs, hvs⟩ := access_idle_trace hw
    simp only [ali15x3_access, ha, hvs, List.head?_cons]
  | some a =>
    obtain ⟨ev, hev⟩ := access_trace_extends ha
    obtain ⟨vs, av, hav, -⟩ := access_arm_trace ha
    rw [hev, hav]
    simp

/-! ## C18 -/

theorem and_xor_of_disjoint (s m e : Nat) (h : m &&& e = 0) : (s ^^^ m) &&& e = s &&& e := by
  rw [Nat.and_xor_distrib_right, h, Nat.xor_zero]

/-- C18: the composite error test `s & ALI15X3_STS_ERR` is non-zero exactly when
one of the DEVICE_ERROR, COLLISION_OR_NO_RESPONSE, TERMINATED_BY_ABORT bits is
set in `s`; its value does not change when the IDLE, BUSY or DONE bit of `s` is
flipped (singly or together); and the six named status bits are pairwise
disjoint. -/
theorem error_mask_is_union_of_error_bits (s : Nat) :
    (s &&& ALI15X3_STS_ERR ≠ 0 ↔
      (s &&& ALI15X3_STS_DEV ≠ 0 ∨ s &&& ALI15X3_STS_COLL ≠ 0 ∨ s &&& ALI15X3_STS_TERM ≠ 0)) ∧
    (s ^^^ ALI15X3_STS_IDLE) &&& ALI15X3_STS_ERR = s &&& ALI15X3_STS_ERR ∧
    (s ^^^ ALI15X3_STS_BUSY) &&& ALI15X3_STS_ERR = s &&& ALI15X3_STS_ERR ∧
    (s ^^^ ALI15X3_STS_DONE) &&& ALI15X3_STS_ERR = s &&& ALI15X3_STS_ERR ∧
    (s ^^^ (ALI15X3_STS_IDLE ||| ALI15X3_STS_BUSY ||| ALI15X3_STS_DONE)) &&& ALI15X3_STS_ERR =
      s &&& ALI15X3_STS_ERR ∧
    ALI15X3_STS_ERR = ALI15X3_STS_DEV ||| ALI15X3_STS_COLL ||| ALI15X3_STS_TERM ∧
    [ALI15X3_STS_IDLE, ALI15X3_STS_BUSY, ALI15X3_STS_DONE, ALI15X3_STS_DEV, ALI15X3_STS_COLL,
      ALI15X3_STS_TERM].Pairwise (fun a b => a &&& b = 0) := by
  refine ⟨?_, and_xor_of_disjoint _ _ _ (by decide), and_xor_of_disjoint _ _ _ (by decide),
    and_xor_of_disjoint _ _ _ (by decide), and_xor_of_disjoint _ _ _ (by decide), by decide,
    by decide⟩
  rw [ne_eq, err_bits_eq_zero]
  constructor
  · intro h
    by_contra hc
    push_neg at hc
    exact h ⟨hc.2.2, hc.2.1, hc.1⟩
  · rintro (h | h | h) ⟨h1, h2, h3⟩
    · exact h h3
    · exact h h2
    · exact h h1

/-! ## C13 -/

theorem word_high_byte (w : Nat) : (w &&& 0xff00) >>> 8 = (w >>> 8) &&& 0xff := by
  apply Nat.eq_of_testBit_eq
  intro i
  have h : Nat.testBit 0xff00 (8 + i) = Nat.testBit 0xff i := by
    have := Nat.testBit_shiftRight (i := 8) (j := i) 0xff00
    rw [← this]
    rfl
  simp only [Nat.testBit_shiftRight, Nat.testBit_and, h]

theorem word_low_byte_lt (w : Nat) : w &&& 0xff < 256 :=
  Nat.lt_of_le_of_lt Nat.and_le_right (by decide)

theorem word_split (w : Nat) (h : w < 65536) :
    (w &&& 0xff) + 256 * ((w >>> 8) &&& 0xff) = w := by
  have h1 : w &&& 0xff = w % 256 := Nat.and_pow_two_sub_one_eq_mod w 8
  have h2 : (w >>> 8) &&& 0xff = (w >>> 8) % 256 := Nat.and_pow_two_sub_one_eq_mod (w >>> 8) 8
  rw [h1, h2, Nat.shiftRight_eq_div_pow]
  omega

theorem access_decode_word (hw : Hardware) (data : SmbusData) (tr : Trace) :
    access_decode hw ALI15X3_WORD_DATA data tr =
      ({ data with word := hw tr SMBHSTDAT0 % 256 +
          256 * (hw (tr ++ [IOEvent.rd SMBHSTDAT0 (hw tr SMBHSTDAT0 % 256)]) SMBHSTDAT1 % 256) },
        tr ++ [IOEvent.rd SMBHSTDAT0 (hw tr SMBHSTDAT0 % 256),
          IOEvent.rd SMBHSTDAT1
            (hw (tr ++ [IOEvent.rd SMBHSTDAT0 (hw tr SMBHSTDAT0 % 256)]) SMBHSTDAT1 % 256)]) := by
  have h1 : ¬ (ALI15X3_WORD_DATA = ALI15X3_BYTE) := by decide
  have h2 : ¬ (ALI15X3_WORD_DATA = ALI15X3_BYTE_DATA) := by decide
  simp only [access_decode, if_neg h1, if_neg h2, if_true, inb_p_fst, inb_p_snd,
    Nat.shiftLeft_eq, List.append_assoc, List.singleton_append]
  rw [Nat.mul_comm]

/-- C13: a word-data write of a 16-bit word `w` writes `w & 0xFF` to Data0 and
then `(w >> 8) & 0xFF` to Data1, both below 256 and nothing else to these two
registers; a successful word-data read ends with the reads of Data0 and Data1
and stores `lo + 256 * hi` for the values `lo`, `hi` read; when these are the
two bytes written for `w`, the stored word is `w`. -/
theorem word_data_round_trip (hw : Hardware) (addr command : Nat) (data : SmbusData)
    (h16 : data.word < 65536) :
    (writes (ali15x3_access hw addr I2C_SMBUS_WRITE command I2C_SMBUS_WORD_DATA data).trace).filter
        (fun x => decide (x.1 = SMBHSTDAT0 ∨ x.1 = SMBHSTDAT1)) =
      [(SMBHSTDAT0, data.word &&& 0xFF), (SMBHSTDAT1, (data.word >>> 8) &&& 0xFF)] ∧
    data.word &&& 0xFF < 256 ∧ (data.word >>> 8) &&& 0xFF < 256 ∧
    ∀ (hw' : Hardware) (addr' read_write' command' : Nat) (data' : SmbusData),
      read_write' ≠ I2C_SMBUS_WRITE →
      (ali15x3_access hw' addr' read_write' command' I2C_SMBUS_WORD_DATA data').ret = 0 →
      ∃ (pre : Trace) (lo hi : Nat),
        (ali15x3_access hw' addr' read_write' command' I2C_SMBUS_WORD_DATA data').trace =
          pre ++ [IOEvent.rd SMBHSTDAT0 lo, IOEvent.rd SMBHSTDAT1 hi] ∧
        (ali15x3_access hw' addr' read_write' command' I2C_SMBUS_WORD_DATA data').data.word =
          lo + 256 * hi ∧
        (lo = data.word &&& 0xFF → hi = (data.word >>> 8) &&& 0xFF →
          (ali15x3_access hw' addr' read_write' command' I2C_SMBUS_WORD_DATA data').data.word =
            data.word) := by
  refine ⟨?_, word_low_byte_lt _, word_low_byte_lt _, ?_⟩
  · obtain ⟨a, ha⟩ : ∃ a, access_arm hw addr I2C_SMBUS_WRITE command I2C_SMBUS_WORD_DATA data =
        some a := Option.isSome_iff_exists.mp (access_arm_isSome _ _ _ _ _ _ (by decide))
    obtain ⟨sw, dw, htr, hsw0, -, hdw⟩ := writes_ali15x3_access ha
    obtain ⟨b, hb, hsz, -, hatr⟩ := access_arm_eq_some ha
    rw [access_switch_word_data] at hb
    simp only [Option.some.injEq] at hb
    subst hb
    rw [hdw rfl, hatr] at htr
    rw [htr]
    simp only [if_true, writes_append, writes_access_idle, writes_cons_wr, writes_nil,
      List.filter_append, List.append_nil, word_high_byte,
      Nat.mod_eq_of_lt (word_low_byte_lt _)]
    have hsw4 : sw.filter (fun x => decide (x.1 = SMBHSTDAT0 ∨ x.1 = SMBHSTDAT1)) = [] := by
      rw [List.filter_eq_nil_iff]
      intro w hw'
      simp [hsw0 w hw']
    rw [hsw4]
    split_ifs <;> simp
  · intro hw' addr' rw' cmd' data' hrw hret
    obtain ⟨a, ha⟩ : ∃ a, access_arm hw' addr' rw' cmd' I2C_SMBUS_WORD_DATA data' = some a :=
      Option.isSome_iff_exists.mp (access_arm_isSome _ _ _ _ _ _ (by decide))
    obtain ⟨b, hb, hsz, hdata, -⟩ := access_arm_eq_some ha
    rw [access_switch_word_data] at hb
    simp only [Option.some.injEq] at hb
    subst hb
    simp only at hsz hdata
    simp only [ali15x3_access, ha, hsz] at hret ⊢
    by_cases h1 : (ali15x3_transaction hw' a.trace).1 ≠ 0
    · rw [if_pos h1] at hret
      exact absurd hret (show ¬ ((-1 : Int) = 0) by decide)
    · have h2 : ¬ (rw' = I2C_SMBUS_WRITE ∨ ALI15X3_WORD_DATA = ALI15X3_QUICK) := by
        rintro (h | h)
        · exact hrw h
        · exact absurd h (by decide)
      simp only [if_neg h1, if_neg h2, access_decode_word]
      refine ⟨_, _, _, rfl, rfl, ?_⟩
      intro hlo hhi
      rw [hhi, hlo]
      exact word_split _ h16

/-- Witness for C13: the word 0x1234 of the sample payload, written to and read
from the well-behaved controller. -/
theorem word_data_round_trip_witness :
    (writes (ali15x3_access hw_good 0x50 I2C_SMBUS_WRITE 0 I2C_SMBUS_WORD_DATA
        sample_data).trace).filter (fun x => decide (x.1 = SMBHSTDAT0 ∨ x.1 = SMBHSTDAT1)) =
      [(SMBHSTDAT0, sample_data.word &&& 0xFF), (SMBHSTDAT1, (sample_data.word >>> 8) &&& 0xFF)] ∧
    sample_data.word &&& 0xFF < 256 ∧ (sample_data.word >>> 8) &&& 0xFF < 256 ∧
    ∃ (pre : Trace) (lo hi : Nat),
      (ali15x3_access hw_good 0x50 I2C_SMBUS_READ 0 I2C_SMBUS_WORD_DATA sample_data).trace =
        pre ++ [IOEvent.rd SMBHSTDAT0 lo, IOEvent.rd SMBHSTDAT1 hi] ∧
      (ali15x3_access hw_good 0x50 I2C_SMBUS_READ 0 I2C_SMBUS_WORD_DATA sample_data).data.word =
        lo + 256 * hi :=
  have h := word_data_round_trip hw_good 0x50 0 sample_data (by decide)
  have hr := h.2.2.2 hw_good 0x50 I2C_SMBUS_READ 0 sample_data (by decide) (by decide)
  ⟨h.1, h.2.1, h.2.2.1, hr.elim fun pre h1 => h1.elim fun lo h2 => h2.elim fun hi h3 =>
    ⟨pre, lo, hi, h3.1, h3.2.1⟩⟩

/-! ## Payload and size after the first switch -/

theorem access_arm_data_eq {hw : Hardware} {addr read_write command : Nat} {size : Int}
    {data : SmbusData} {a : Armed}
    (h : access_arm hw addr read_write command size data = some a)
    (hnb : ¬ (size = I2C_SMBUS_BLOCK_DATA ∧ read_write = I2C_SMBUS_WRITE)) : a.data = data := by
  obtain ⟨b, hb, -, hdata, -⟩ := access_arm_eq_some h
  rw [hdata]
  by_cases hs : Supported size
  · rcases hs with rfl | rfl | rfl | rfl | rfl
    · rw [access_switch_quick] at hb
      simp only [Option.some.injEq] at hb; subst hb; rfl
    · rw [access_switch_byte] at hb
      simp only [Option.some.injEq] at hb; subst hb; rfl
    · rw [access_switch_byte_data] at hb
      simp only [Option.some.injEq] at hb; subst hb; rfl
    · rw [access_switch_word_data] at hb
      simp only [Option.some.injEq] at hb; subst hb; rfl
    · have hrw : read_write ≠ I2C_SMBUS_WRITE := fun h0 => hnb ⟨rfl, h0⟩
      rw [access_switch_block_read _ _ _ _ _ _ hrw] at hb
      simp only [Option.some.injEq] at hb; subst hb; rfl
  · have h4 : size ≠ I2C_SMBUS_PROC_CALL := by
      intro h4
      rw [access_switch_eq_none.mpr h4] at hb
      exact Option.noConfusion hb
    rw [access_switch_other _ _ _ _ _ _ _ h4 hs] at hb
    simp only [Option.some.injEq] at hb; subst hb; rfl

theorem access_arm_size {hw : Hardware} {addr read_write command : Nat} {size : Int}
    {data : SmbusData} {a : Armed} (hs : Supported size)
    (h : access_arm hw addr read_write command size data = some a) :
    a.size = (spec_command_byte size : Nat) := by
  obtain ⟨b, hb, hsz, -, -⟩ := access_arm_eq_some h
  rw [hsz]
  rcases hs with rfl | rfl | rfl | rfl | rfl
  · rw [access_switch_quick] at hb
    simp only [Option.some.injEq] at hb; subst hb; rfl
  · rw [access_switch_byte] at hb
    simp only [Option.some.injEq] at hb; subst hb; rfl
  · rw [access_switch_byte_data] at hb
    simp only [Option.some.injEq] at hb; subst hb; rfl
  · rw [access_switch_word_data] at hb
    simp only [Option.some.injEq] at hb; subst hb; rfl
  · by_cases hw0 : read_write = I2C_SMBUS_WRITE
    · subst hw0
      rw [access_switch_block_write] at hb
      simp only [Option.some.injEq] at hb; subst hb; rfl
    · rw [access_switch_block_read _ _ _ _ _ _ hw0] at hb
      simp only [Option.some.injEq] at hb; subst hb; rfl

theorem access_arm_quick_iff {hw : Hardware} {addr read_write command : Nat} {size : Int}
    {data : SmbusData} {a : Armed} (hs : Supported size)
    (h : access_arm hw addr read_write command size data = some a) :
    a.size = ALI15X3_QUICK ↔ size = I2C_SMBUS_QUICK := by
  rw [access_arm_size hs h]
  rcases hs with rfl | rfl | rfl | rfl | rfl <;> decide

/-- A call that skips the second switch returns the payload as it stood when
the transaction was entered and reads only the status and command registers. -/
theorem access_without_decode {hw : Hardware} {addr read_write command : Nat}
    {size : Int} {data : SmbusData} {a : Armed}
    (ha : access_arm hw addr read_write command size data = some a)
    (hk : read_write = I2C_SMBUS_WRITE ∨ a.size = ALI15X3_QUICK) :
    (ali15x3_access hw addr read_write command size data).data = a.data ∧
    (ali15x3_access hw addr read_write command size data).trace =
      (ali15x3_transaction hw a.trace).2 ∧
    (∀ p v, IOEvent.rd p v ∈ (ali15x3_access hw addr read_write command size data).trace →
      p = SMBHSTSTS ∨ p = SMBHSTCNT) := by
  have hd : (ali15x3_access hw addr read_write command size data).data = a.data ∧
      (ali15x3_access hw addr read_write command size data).trace =
        (ali15x3_transaction hw a.trace).2 := by
    simp only [ali15x3_access, ha, if_pos hk]
    split_ifs <;> exact ⟨rfl, rfl⟩
  refine ⟨hd.1, hd.2, ?_⟩
  rw [hd.2]
  obtain ⟨ev, hev, hall, -⟩ := ali15x3_transaction_trace hw a.trace
  intro p v hpv
  rw [hev] at hpv
  rcases List.mem_append.mp hpv with hpv | hpv
  · exact access_arm_reads ha p v hpv
  · exact Or.inl (hall _ hpv)

/-! ## C14 -/

/-- C14: a successful quick operation, or a successful write of any supported
size class, reads none of Data0, Data1 and the block-data port, and returns
the payload as it stood when `ali15x3_transaction` was entered; unless the
call is a block write, that is the caller's payload. -/
theorem write_or_quick_returns_no_payload (hw : Hardware) (addr read_write command : Nat)
    (size : Int) (data : SmbusData) (hs : Supported size)
    (hk : read_write = I2C_SMBUS_WRITE ∨ size = I2C_SMBUS_QUICK)
    (hret : (ali15x3_access hw addr read_write command size data).ret = 0) :
    (∀ p v, IOEvent.rd p v ∈ (ali15x3_access hw addr read_write command size data).trace →
      p ≠ SMBHSTDAT0 ∧ p ≠ SMBHSTDAT1 ∧ p ≠ SMBBLKDAT) ∧
    (∃ a, access_arm hw addr read_write command size data = some a ∧
      (ali15x3_access hw addr read_write command size data).data = a.data) ∧
    (¬ (size = I2C_SMBUS_BLOCK_DATA ∧ read_write = I2C_SMBUS_WRITE) →
      (ali15x3_access hw addr read_write command size data).data = data) := by
  have hne : size ≠ I2C_SMBUS_PROC_CALL := by
    rcases hs with rfl | rfl | rfl | rfl | rfl <;> decide
  obtain ⟨a, ha⟩ := Option.isSome_iff_exists.mp
    (access_arm_isSome hw addr read_write command size data hne)
  have hk' : read_write = I2C_SMBUS_WRITE ∨ a.size = ALI15X3_QUICK :=
    hk.imp id (access_arm_quick_iff hs ha).mpr
  obtain ⟨h1, -, h3⟩ := access_without_decode ha hk'
  refine ⟨?_, ⟨a, ha, h1⟩, fun hnb => by rw [h1]; exact access_arm_data_eq ha hnb⟩
  intro p v hpv
  rcases h3 p v hpv with rfl | rfl <;> decide

/-- Witness for C14: the byte-data write on the well-behaved controller. -/
theorem write_or_quick_returns_no_payload_witness :
    (∀ p v, IOEvent.rd p v ∈
        (ali15x3_access hw_good 0x50 I2C_SMBUS_WRITE 0 I2C_SMBUS_BYTE_DATA sample_data).trace →
      p ≠ SMBHSTDAT0 ∧ p ≠ SMBHSTDAT1 ∧ p ≠ SMBBLKDAT) ∧
    (∃ a, access_arm hw_good 0x50 I2C_SMBUS_WRITE 0 I2C_SMBUS_BYTE_DATA sample_data = some a ∧
      (ali15x3_access hw_good 0x50 I2C_SMBUS_WRITE 0 I2C_SMBUS_BYTE_DATA sample_data).data =
        a.data) ∧
    (¬ (I2C_SMBUS_BYTE_DATA = I2C_SMBUS_BLOCK_DATA ∧ I2C_SMBUS_WRITE = I2C_SMBUS_WRITE) →
      (ali15x3_access hw_good 0x50 I2C_SMBUS_WRITE 0 I2C_SMBUS_BYTE_DATA sample_data).data =
        sample_data) :=
  write_or_quick_returns_no_payload hw_good 0x50 I2C_SMBUS_WRITE 0 I2C_SMBUS_BYTE_DATA
    sample_data (by decide) (by decide) (by decide)

/-! ## C16 -/

/-- For a supported size class the first switch writes the address register
first, and afterwards only the command-code, data and block-data registers
and the block-pointer reset; for the quick class nothing else. -/
theorem writes_access_switch_supported {hw : Hardware} {tr : Trace}
    {addr read_write command : Nat} {size : Int} {data : SmbusData} {b : Armed}
    (hs : Supported size)
    (hb : access_switch hw tr addr read_write command size data = some b) :
    ∃ rest : List (Nat × Nat),
      writes b.trace = writes tr ++
        (SMBHSTADD, ((addr &&& 0x7f) <<< 1) ||| (read_write &&& 0x01)) :: rest ∧
      (∀ w ∈ rest, w.1 = SMBHSTCMD ∨ w.1 = SMBHSTDAT0 ∨ w.1 = SMBHSTDAT1 ∨ w.1 = SMBBLKDAT ∨
        w.1 = SMBHSTCNT) ∧
      (size = I2C_SMBUS_QUICK → rest = []) := by
  rcases hs with rfl | rfl | rfl | rfl | rfl
  · rw [access_switch_quick] at hb
    simp only [Option.some.injEq] at hb; subst hb
    exact ⟨[], by simp, by simp, fun _ => rfl⟩
  · rw [access_switch_byte] at hb
    simp only [Option.some.injEq] at hb; subst hb
    refine ⟨writes (if read_write = I2C_SMBUS_WRITE then [IOEvent.wr SMBHSTCMD (command % 256)]
      else []), by simp, ?_, fun h => absurd h (by decide)⟩
    split_ifs <;> simp
  · rw [access_switch_byte_data] at hb
    simp only [Option.some.injEq] at hb; subst hb
    refine ⟨writes (IOEvent.wr SMBHSTCMD (command % 256) ::
      (if read_write = I2C_SMBUS_WRITE then [IOEvent.wr SMBHSTDAT0 (data.byte % 256)] else [])),
      by simp, ?_, fun h => absurd h (by decide)⟩
    split_ifs <;> simp
  · rw [access_switch_word_data] at hb
    simp only [Option.some.injEq] at hb; subst hb
    refine ⟨writes (IOEvent.wr SMBHSTCMD (command % 256) ::
      (if read_write = I2C_SMBUS_WRITE then
        [IOEvent.wr SMBHSTDAT0 ((data.word &&& 0xff) % 256),
          IOEvent.wr SMBHSTDAT1 (((data.word &&& 0xff00) >>> 8) % 256)] else [])),
      by simp, ?_, fun h => absurd h (by decide)⟩
    split_ifs <;> simp
  · by_cases hw0 : read_write = I2C_SMBUS_WRITE
    · subst hw0
      rw [access_switch_block_write] at hb
      simp only [Option.some.injEq] at hb; subst hb
      refine ⟨writes ([IOEvent.wr SMBHSTCMD (command % 256),
          IOEvent.wr SMBHSTDAT0 (min (data.block 0) 32),
          IOEvent.rd SMBHSTCNT (block_write_cnt hw tr addr command data),
          IOEvent.wr SMBHSTCNT (block_write_cnt hw tr addr command data ||| ALI15X3_BLOCK_CLR)] ++
          (List.range' 1 (min (data.block 0) 32)).map
            (fun j => IOEvent.wr SMBBLKDAT (data.block j % 256))),
        by simp, ?_, fun h => absurd h (by decide)⟩
      intro w hw'
      obtain ⟨p, v⟩ := w
      have := mem_writes.mp hw'
      simp only [List.mem_append, List.mem_cons, List.mem_singleton, List.mem_map,
        List.not_mem_nil, or_false, IOEvent.wr.injEq] at this
      rcases this with (h | h | h | h) | ⟨j, -, h⟩
      · exact Or.inl h.1
      · exact Or.inr (Or.inl h.1)
      · exact absurd h (by simp)
      · exact Or.inr (Or.inr (Or.inr (Or.inr h.1)))
      · exact Or.inr (Or.inr (Or.inr (Or.inl h.1.symm)))
    · rw [access_switch_block_read _ _ _ _ _ _ hw0] at hb
      simp only [Option.some.injEq] at hb; subst hb
      exact ⟨[(SMBHSTCMD, command % 256)], by simp, by simp, fun h => absurd h (by decide)⟩

theorem address_value_bits (addr read_write : Nat) :
    (((addr &&& 0x7F) <<< 1) ||| (read_write &&& 1)) % 2 = read_write % 2 ∧
    (((addr &&& 0x7F) <<< 1) ||| (read_write &&& 1)) / 2 = addr % 128 := by
  have key : ∀ x < 128, ∀ b < 2, ((x <<< 1) ||| b) % 2 = b ∧ ((x <<< 1) ||| b) / 2 = x := by
    decide
  have h1 : addr &&& 0x7F = addr % 128 := Nat.and_pow_two_sub_one_eq_mod addr 7
  have h2 : read_write &&& 1 = read_write % 2 := Nat.and_pow_two_sub_one_eq_mod read_write 1
  rw [h1, h2]
  exact key _ (Nat.mod_lt _ (by decide)) _ (Nat.mod_lt _ (by decide))

/-- C16: for a supported size class the write trace of a call starts with the
clear-on-write followed by the single write of the address register, with
value `((a & 0x7F) << 1) | (r & 1)`; the host-command byte comes later; the
value is below 256, its bit 0 is the direction bit and its bits 1-7 are the
low 7 bits of `a`; in the quick class no command-code, data or block-data
register is written. -/
theorem address_written_once (hw : Hardware) (addr read_write command : Nat)
    (size : Int) (data : SmbusData) (hs : Supported size) :
    (∃ rest : List (Nat × Nat),
      writes (ali15x3_access hw addr read_write command size data).trace =
        (SMBHSTSTS, 0xFF) ::
          (SMBHSTADD, ((addr &&& 0x7F) <<< 1) ||| (read_write &&& 1)) :: rest ∧
      (∀ w ∈ rest, w.1 ≠ SMBHSTADD) ∧
      (SMBHSTCNT, spec_command_byte size) ∈ rest ∧
      (size = I2C_SMBUS_QUICK → ∀ w ∈ rest,
        w.1 ≠ SMBHSTCMD ∧ w.1 ≠ SMBHSTDAT0 ∧ w.1 ≠ SMBHSTDAT1 ∧ w.1 ≠ SMBBLKDAT)) ∧
    ((addr &&& 0x7F) <<< 1) ||| (read_write &&& 1) < 256 ∧
    (((addr &&& 0x7F) <<< 1) ||| (read_write &&& 1)) % 2 = read_write % 2 ∧
    (((addr &&& 0x7F) <<< 1) ||| (read_write &&& 1)) / 2 = addr % 128 := by
  refine ⟨?_, address_value_lt addr read_write, (address_value_bits addr read_write).1,
    (address_value_bits addr read_write).2⟩
  have hne : size ≠ I2C_SMBUS_PROC_CALL := by
    rcases hs with rfl | rfl | rfl | rfl | rfl <;> decide
  obtain ⟨a, ha⟩ := Option.isSome_iff_exists.mp
    (access_arm_isSome hw addr read_write command size data hne)
  obtain ⟨b, hb, hsz, -, hatr⟩ := access_arm_eq_some ha
  obtain ⟨rest, hrest, hports, hquick⟩ := writes_access_switch_supported hs hb
  obtain ⟨hcmd, -⟩ := access_arm_supported hs ha
  obtain ⟨sw, dw, htr, hsw, hdw, -⟩ := writes_ali15x3_access ha
  have hwa : writes a.trace = [(SMBHSTSTS, 0xFF)] ++
      (SMBHSTADD, ((addr &&& 0x7f) <<< 1) ||| (read_write &&& 0x01)) :: rest ++
      [(SMBHSTCNT, spec_command_byte size)] := by
    rw [hatr, writes_append, hrest, writes_access_idle, ← hsz, hcmd]
    simp
  rw [hwa] at htr
  refine ⟨rest ++ [(SMBHSTCNT, spec_command_byte size)] ++
    (if hw a.trace SMBHSTSTS % 256 &&& ALI15X3_STS_BUSY ≠ 0 then [(SMBHSTCNT, ALI15X3_T_OUT)]
      else []) ++ sw ++
    (if (transaction_start hw a.trace).1 = true then [(SMBHSTSTART, 0xFF)] else []) ++ dw,
    ?_, ?_, ?_, ?_⟩
  · rw [htr]; simp
  · intro w hw'
    simp only [List.mem_append, List.mem_singleton] at hw'
    rcases hw' with ((((h | h) | h) | h) | h) | h
    · rcases hports w h with h | h | h | h | h <;> rw [h] <;> decide
    · have hp : w.1 = SMBHSTCNT := by rw [h]
      rw [hp]; decide
    · split_ifs at h
      · rw [List.mem_singleton] at h; rw [h]; decide
      · exact absurd h (List.not_mem_nil _)
    · rw [hsw w h]; decide
    · split_ifs at h
      · rw [List.mem_singleton] at h; rw [h]; decide
      · exact absurd h (List.not_mem_nil _)
    · rw [(hdw w h).1]; decide
  · simp
  · intro hq w hw'
    rw [hquick hq] at hw'
    simp only [List.mem_append, List.mem_singleton, List.nil_append] at hw'
    rcases hw' with (((h | h) | h) | h) | h
    · have hp : w.1 = SMBHSTCNT := by rw [h]
      rw [hp]; decide
    · split_ifs at h
      · rw [List.mem_singleton] at h; rw [h]; decide
      · exact absurd h (List.not_mem_nil _)
    · rw [hsw w h]; decide
    · split_ifs at h
      · rw [List.mem_singleton] at h; rw [h]; decide
      · exact absurd h (List.not_mem_nil _)
    · rw [(hdw w h).1]; decide

/-- Witness for C16: a quick read at address 0x50. -/
theorem address_written_once_witness :
    (∃ rest : List (Nat × Nat),
      writes (ali15x3_access hw_good 0x50 I2C_SMBUS_READ 0 I2C_SMBUS_QUICK sample_data).trace =
        (SMBHSTSTS, 0xFF) ::
          (SMBHSTADD, ((0x50 &&& 0x7F) <<< 1) ||| (I2C_SMBUS_READ &&& 1)) :: rest ∧
      (∀ w ∈ rest, w.1 ≠ SMBHSTADD) ∧
      (SMBHSTCNT, spec_command_byte I2C_SMBUS_QUICK) ∈ rest ∧
      (I2C_SMBUS_QUICK = I2C_SMBUS_QUICK → ∀ w ∈ rest,
        w.1 ≠ SMBHSTCMD ∧ w.1 ≠ SMBHSTDAT0 ∧ w.1 ≠ SMBHSTDAT1 ∧ w.1 ≠ SMBBLKDAT)) ∧
    ((0x50 &&& 0x7F) <<< 1) ||| (I2C_SMBUS_READ &&& 1) < 256 ∧
    (((0x50 &&& 0x7F) <<< 1) ||| (I2C_SMBUS_READ &&& 1)) % 2 = I2C_SMBUS_READ % 2 ∧
    (((0x50 &&& 0x7F) <<< 1) ||| (I2C_SMBUS_READ &&& 1)) / 2 = 0x50 % 128 :=
  address_written_once hw_good 0x50 I2C_SMBUS_READ 0 I2C_SMBUS_QUICK sample_data (by decide)

/-! ## C17 -/

/-- C17, counterexample: in a block write on the well-behaved controller the
block-data port is written, yet the register at offset 7 is never read and
the only value written to it is the command code 0x10; the register that is
read and written back with bit 0x80 set is the one at offset 1. -/
theorem block_reset_not_at_offset_7 :
    (reads (ali15x3_access hw_good 0x30 I2C_SMBUS_WRITE 0x10 I2C_SMBUS_BLOCK_DATA
        sample_data).trace).filter (fun r => decide (r.1 = SMBHSTCMD)) = [] ∧
    (writes (ali15x3_access hw_good 0x30 I2C_SMBUS_WRITE 0x10 I2C_SMBUS_BLOCK_DATA
        sample_data).trace).filter (fun w => decide (w.1 = SMBHSTCMD)) = [(SMBHSTCMD, 0x10)] ∧
    (SMBBLKDAT, 1) ∈ writes (ali15x3_access hw_good 0x30 I2C_SMBUS_WRITE 0x10
        I2C_SMBUS_BLOCK_DATA sample_data).trace ∧
    (reads (ali15x3_access hw_good 0x30 I2C_SMBUS_WRITE 0x10 I2C_SMBUS_BLOCK_DATA
        sample_data).trace).filter (fun r => decide (r.1 = SMBHSTCNT)) = [(SMBHSTCNT, 5)] ∧
    (SMBHSTCNT, 5 ||| ALI15X3_BLOCK_CLR) ∈ writes (ali15x3_access hw_good 0x30 I2C_SMBUS_WRITE
        0x10 I2C_SMBUS_BLOCK_DATA sample_data).trace := by
  decide

theorem access_arm_block_write (hw : Hardware) (addr command : Nat) (data : SmbusData) :
    ∃ (a : Armed) (pre w6 : Trace) (c : Nat),
      access_arm hw addr I2C_SMBUS_WRITE command I2C_SMBUS_BLOCK_DATA data = some a ∧
      a.trace = pre ++ [IOEvent.rd SMBHSTCNT c, IOEvent.wr SMBHSTCNT (c ||| ALI15X3_BLOCK_CLR)] ++
        w6 ∧
      (∀ e ∈ pre, ∀ v, e ≠ IOEvent.rd SMBBLKDAT v ∧ e ≠ IOEvent.wr SMBBLKDAT v) ∧
      (writes a.trace).filter (fun w => decide (w.1 = SMBHSTCMD)) =
        [(SMBHSTCMD, command % 256)] := by
  obtain ⟨vs, hvs⟩ := access_idle_trace hw
  have hu : u8_of_int ALI15X3_BLOCK_DATA % 256 = 0x40 := by decide
  have hmap : ∀ l : List Nat,
      (writes (l.map (fun j => IOEvent.wr SMBBLKDAT (data.block j % 256)))).filter
        (fun w => decide (w.1 = SMBHSTCMD)) = [] := by
    intro l
    induction l with
    | nil => rfl
    | cons x l ih => simp [ih]
  refine ⟨⟨ALI15X3_BLOCK_DATA,
      ⟨data.byte, data.word, Function.update data.block 0 (min (data.block 0) 32)⟩,
      outb_p ((access_idle hw).2 ++
        [IOEvent.wr SMBHSTADD (((addr &&& 0x7f) <<< 1) ||| (I2C_SMBUS_WRITE &&& 0x01)),
          IOEvent.wr SMBHSTCMD (command % 256),
          IOEvent.wr SMBHSTDAT0 (min (data.block 0) 32),
          IOEvent.rd SMBHSTCNT (block_write_cnt hw (access_idle hw).2 addr command data),
          IOEvent.wr SMBHSTCNT
            (block_write_cnt hw (access_idle hw).2 addr command data ||| ALI15X3_BLOCK_CLR)] ++
          (List.range' 1 (min (data.block 0) 32)).map
            (fun j => IOEvent.wr SMBBLKDAT (data.block j % 256)))
        (u8_of_int ALI15X3_BLOCK_DATA) SMBHSTCNT⟩,
    (access_idle hw).2 ++
      [IOEvent.wr SMBHSTADD (((addr &&& 0x7f) <<< 1) ||| (I2C_SMBUS_WRITE &&& 0x01)),
       IOEvent.wr SMBHSTCMD (command % 256), IOEvent.wr SMBHSTDAT0 (min (data.block 0) 32)],
    (List.range' 1 (min (data.block 0) 32)).map
        (fun j => IOEvent.wr SMBBLKDAT (data.block j % 256)) ++ [IOEvent.wr SMBHSTCNT 0x40],
    block_write_cnt hw (access_idle hw).2 addr command data, ?_, ?_, ?_, ?_⟩
  · simp only [access_arm, access_switch_block_write]
  · simp only [outb_p, hu, List.append_assoc, List.cons_append, List.nil_append]
  · intro e he v
    rw [hvs] at he
    simp only [List.mem_append, List.mem_cons, List.mem_map, List.mem_singleton,
      List.not_mem_nil, or_false] at he
    rcases he with (he | ⟨x, -, hx⟩) | he | he | he
    · subst he; simp
    · subst hx; simp
    · subst he; simp
    · subst he; simp
    · subst he; simp
  · simp only [outb_p, writes_append, writes_access_idle, writes_cons_wr, writes_cons_rd,
      writes_nil, List.filter_append, hmap]
    simp

/-- C17, amended: in a block write, and in a successful block read, the
block-pointer reset is a read of the command register at offset 1
(`SMBHSTCNT`) followed by the write of that value with `ALI15X3_BLOCK_CLR`
or-ed in to the same register, before the first access to the block-data
port; the command-code register at offset 7 is never read, and the only
write to it is the command code. -/
theorem block_pointer_reset_at_command_register (hw : Hardware)
    (addr read_write command : Nat) (data : SmbusData)
    (h : read_write = I2C_SMBUS_WRITE ∨
      (ali15x3_access hw addr read_write command I2C_SMBUS_BLOCK_DATA data).ret = 0) :
    (∃ (pre post : Trace) (c : Nat),
      (ali15x3_access hw addr read_write command I2C_SMBUS_BLOCK_DATA data).trace =
        pre ++ [IOEvent.rd SMBHSTCNT c, IOEvent.wr SMBHSTCNT (c ||| ALI15X3_BLOCK_CLR)] ++ post ∧
      ∀ e ∈ pre, ∀ v, e ≠ IOEvent.rd SMBBLKDAT v ∧ e ≠ IOEvent.wr SMBBLKDAT v) ∧
    (∀ v, IOEvent.rd SMBHSTCMD v ∉
      (ali15x3_access hw addr read_write command I2C_SMBUS_BLOCK_DATA data).trace) ∧
    (writes (ali15x3_access hw addr read_write command I2C_SMBUS_BLOCK_DATA data).trace).filter
      (fun w => decide (w.1 = SMBHSTCMD)) = [(SMBHSTCMD, command % 256)] := by
  by_cases hrw : read_write = I2C_SMBUS_WRITE
  · subst hrw
    obtain ⟨a, pre, w6, c, ha, hatr, hpre, hcmd⟩ := access_arm_block_write hw addr command data
    obtain ⟨ev, hev⟩ := access_trace_extends ha
    obtain ⟨-, -, hreads⟩ := access_without_decode ha (Or.inl rfl)
    obtain ⟨sw, dw, htr, hsw, -, hdw⟩ := writes_ali15x3_access ha
    refine ⟨⟨pre, w6 ++ ev, c, by rw [hev, hatr]; simp only [List.append_assoc], hpre⟩, ?_, ?_⟩
    · intro v hv
      rcases hreads _ _ hv with h7 | h7 <;> exact absurd h7 (by decide)
    · rw [htr, hdw rfl]
      have hsw7 : sw.filter (fun w => decide (w.1 = SMBHSTCMD)) = [] :=
        filter_port_of_all hsw (by decide)
      simp only [List.filter_append, hsw7, hcmd, List.append_nil]
      split_ifs <;> simp
  · have hret := h.resolve_left hrw
    obtain ⟨ivs, ha⟩ := access_arm_block_read hw addr read_write command data hrw
    generalize hatr : (IOEvent.wr SMBHSTSTS 0xFF :: ivs.map (IOEvent.rd SMBHSTSTS) ++
      [IOEvent.wr SMBHSTADD (((addr &&& 0x7f) <<< 1) ||| (read_write &&& 0x01)),
       IOEvent.wr SMBHSTCMD (command % 256), IOEvent.wr SMBHSTCNT 0x40]) = atr at ha
    obtain ⟨ev, hev, hall, -⟩ := ali15x3_transaction_trace hw atr
    obtain ⟨sw, dw, htr, hsw, hdw, -⟩ := writes_ali15x3_access ha
    have hwcmd : (writes (ali15x3_access hw addr read_write command I2C_SMBUS_BLOCK_DATA
        data).trace).filter (fun w => decide (w.1 = SMBHSTCMD)) = [(SMBHSTCMD, command % 256)] := by
      rw [htr]
      have hsw7 : sw.filter (fun w => decide (w.1 = SMBHSTCMD)) = [] :=
        filter_port_of_all hsw (by decide)
      have hdw7 : dw.filter (fun w => decide (w.1 = SMBHSTCMD)) = [] :=
        filter_port_of_all (fun w hw' => (hdw w hw').1) (by decide)
      simp only [← hatr, writes_append, writes_cons_wr, writes_nil, writes_map_rd,
        List.filter_append, hsw7, hdw7, List.append_nil]
      split_ifs <;> simp
    have hpre : ∀ e ∈ (ali15x3_transaction hw atr).2,
        (∀ v, e ≠ IOEvent.rd SMBBLKDAT v ∧ e ≠ IOEvent.wr SMBBLKDAT v) ∧
        ∀ v, e ≠ IOEvent.rd SMBHSTCMD v := by
      intro e he
      rw [hev, ← hatr] at he
      simp only [List.mem_append, List.mem_cons, List.mem_map, List.mem_singleton,
        List.not_mem_nil, or_false] at he
      rcases he with ((he | ⟨x, -, hx⟩) | he | he | he) | he
      · subst he; simp
      · subst hx; simp
      · subst he; simp
      · subst he; simp
      · subst he; simp
      · have := hall e he
        cases e with
        | rd p v => simp only [StartEvent] at this; subst this; simp
        | wr p v =>
          simp only [StartEvent] at this
          rcases this with ⟨rfl, -⟩ | rfl | ⟨rfl, -⟩ <;> simp
    simp only [ali15x3_access, ha] at hret hwcmd ⊢
    by_cases h1 : (ali15x3_transaction hw atr).1 ≠ 0
    · rw [if_pos h1] at hret
      exact absurd hret (show ¬ ((-1 : Int) = 0) by decide)
    · have h2 : ¬ (read_write = I2C_SMBUS_WRITE ∨ ALI15X3_BLOCK_DATA = ALI15X3_QUICK) := by
        rintro (h | h)
        · exact hrw h
        · exact absurd h (by decide)
      simp only [if_neg h1, if_neg h2, access_decode_block] at hwcmd ⊢
      generalize (ali15x3_transaction hw atr).2 = pre at hpre hwcmd ⊢
      obtain ⟨vs, -, htr', -⟩ := block_read_loop_spec hw
        (min (hw pre SMBHSTDAT0 % 256) 32) 1
        ⟨data.byte, data.word, Function.update data.block 0 (min (hw pre SMBHSTDAT0 % 256) 32)⟩
        (pre ++ [IOEvent.rd SMBHSTDAT0 (hw pre SMBHSTDAT0 % 256),
            IOEvent.rd SMBHSTCNT
              (hw (pre ++ [IOEvent.rd SMBHSTDAT0 (hw pre SMBHSTDAT0 % 256)]) SMBHSTCNT % 256),
            IOEvent.wr SMBHSTCNT
              (hw (pre ++ [IOEvent.rd SMBHSTDAT0 (hw pre SMBHSTDAT0 % 256)]) SMBHSTCNT % 256 |||
                ALI15X3_BLOCK_CLR)])
      refine ⟨⟨pre ++ [IOEvent.rd SMBHSTDAT0 (hw pre SMBHSTDAT0 % 256)],
        vs.map (IOEvent.rd SMBBLKDAT),
        hw (pre ++ [IOEvent.rd SMBHSTDAT0 (hw pre SMBHSTDAT0 % 256)]) SMBHSTCNT % 256,
        by rw [htr']; simp only [List.append_assoc, List.singleton_append], ?_⟩, ?_, hwcmd⟩
      · intro e he v
        rcases List.mem_append.mp he with he | he
        · exact (hpre e he).1 v
        · rw [List.mem_singleton] at he; subst he; simp
      · intro v hv
        rw [htr'] at hv
        simp only [List.mem_append, List.mem_cons, List.mem_map, List.mem_singleton,
          List.not_mem_nil, or_false] at hv
        rcases hv with (hv | hv | hv | hv) | ⟨x, -, hx⟩
        · exact (hpre _ hv).2 v rfl
        · exact absurd hv (by simp)
        · exact absurd hv (by simp)
        · exact absurd hv (by simp)
        · exact absurd hx (by simp)

/-- Witness for C17 (amended): a successful block read on the well-behaved
controller. -/
theorem block_pointer_reset_at_command_register_witness :
    (∃ (pre post : Trace) (c : Nat),
      (ali15x3_access hw_good 0x30 I2C_SMBUS_READ 0x10 I2C_SMBUS_BLOCK_DATA sample_data).trace =
        pre ++ [IOEvent.rd SMBHSTCNT c, IOEvent.wr SMBHSTCNT (c ||| ALI15X3_BLOCK_CLR)] ++ post ∧
      ∀ e ∈ pre, ∀ v, e ≠ IOEvent.rd SMBBLKDAT v ∧ e ≠ IOEvent.wr SMBBLKDAT v) ∧
    (∀ v, IOEvent.rd SMBHSTCMD v ∉
      (ali15x3_access hw_good 0x30 I2C_SMBUS_READ 0x10 I2C_SMBUS_BLOCK_DATA sample_data).trace) ∧
    (writes (ali15x3_access hw_good 0x30 I2C_SMBUS_READ 0x10 I2C_SMBUS_BLOCK_DATA
        sample_data).trace).filter (fun w => decide (w.1 = SMBHSTCMD)) =
      [(SMBHSTCMD, 0x10 % 256)] :=
  block_pointer_reset_at_command_register hw_good 0x30 I2C_SMBUS_READ 0x10 sample_data
    (Or.inr (by decide))

/-! ## The polling loop, read by read -/

theorem poll_trace_succ (hw : Hardware) (k : Nat) (tr : Trace) :
    poll_trace hw (k + 1) tr =
      poll_trace hw k (tr ++ [IOEvent.rd SMBHSTSTS (hw tr SMBHSTSTS % 256)]) := rfl

theorem poll_trace_eq (hw : Hardware) (k : Nat) :
    ∀ tr : Trace, ∃ vs : List Nat, vs.length = k ∧
      poll_trace hw k tr = tr ++ vs.map (IOEvent.rd SMBHSTSTS) := by
  induction k with
  | zero => intro tr; exact ⟨[], rfl, by simp [poll_trace]⟩
  | succ k ih =>
    intro tr
    obtain ⟨vs, hlen, hvs⟩ := ih (tr ++ [IOEvent.rd SMBHSTSTS (hw tr SMBHSTSTS % 256)])
    exact ⟨(hw tr SMBHSTSTS % 256) :: vs, by simp [hlen], by rw [poll_trace_succ, hvs]; simp⟩

/-- The polling loop entered with `MAX_TIMEOUT - timeout = n` makes `j + 1`
status reads for some `j ≤ n`; none of the first `j` shows DONE or an error
bit; either the last one does, and `timeout` is `MAX_TIMEOUT - (n - j)`, or
the loop has run out its bound, `j = n` and `timeout` is `MAX_TIMEOUT + 1`. -/
theorem transaction_poll_spec (hw : Hardware) (n : Nat) :
    ∀ tr : Trace, ∃ j : Nat, j ≤ n ∧
      (transaction_poll hw n tr).trace = poll_trace hw (j + 1) tr ∧
      (transaction_poll hw n tr).temp = poll_status hw j tr ∧
      (∀ i < j, poll_status hw i tr &&& (ALI15X3_STS_ERR ||| ALI15X3_STS_DONE) = 0) ∧
      ((poll_status hw j tr &&& (ALI15X3_STS_ERR ||| ALI15X3_STS_DONE) ≠ 0 ∧
          (transaction_poll hw n tr).timeout = MAX_TIMEOUT - (n - j)) ∨
        (poll_status hw j tr &&& (ALI15X3_STS_ERR ||| ALI15X3_STS_DONE) = 0 ∧ j = n ∧
          (transaction_poll hw n tr).timeout = MAX_TIMEOUT + 1)) := by
  induction n with
  | zero =>
    intro tr
    refine ⟨0, Nat.le_refl 0, ?_, ?_, fun i hi => absurd hi (Nat.not_lt_zero i), ?_⟩
    · rw [transaction_poll_zero]; split_ifs <;> rfl
    · rw [transaction_poll_zero]; split_ifs <;> rfl
    · rw [transaction_poll_zero, poll_status_zero]
      by_cases h : hw tr SMBHSTSTS % 256 &&& (ALI15X3_STS_ERR ||| ALI15X3_STS_DONE) ≠ 0
      · rw [if_pos h]; exact Or.inl ⟨h, rfl⟩
      · rw [if_neg h]; exact Or.inr ⟨not_not.mp h, rfl, rfl⟩
  | succ n ih =>
    intro tr
    by_cases h : hw tr SMBHSTSTS % 256 &&& (ALI15X3_STS_ERR ||| ALI15X3_STS_DONE) ≠ 0
    · refine ⟨0, Nat.zero_le _, ?_, ?_, fun i hi => absurd hi (Nat.not_lt_zero i), ?_⟩
      · rw [transaction_poll_succ, if_pos h]; rfl
      · rw [transaction_poll_succ, if_pos h]; rfl
      · rw [transaction_poll_succ, if_pos h, poll_status_zero]
        exact Or.inl ⟨h, rfl⟩
    · obtain ⟨j, hj, htr, htemp, hwait, hend⟩ :=
        ih (tr ++ [IOEvent.rd SMBHSTSTS (hw tr SMBHSTSTS % 256)])
      refine ⟨j + 1, by omega, ?_, ?_, ?_, ?_⟩
      · rw [transaction_poll_succ, if_neg h, htr]; rfl
      · rw [transaction_poll_succ, if_neg h, htemp]; rfl
      · intro i hi
        cases i with
        | zero => rw [poll_status_zero]; exact not_not.mp h
        | succ i => rw [poll_status_succ]; exact hwait i (by omega)
      · rw [transaction_poll_succ, if_neg h, poll_status_succ]
        rcases hend with ⟨h1, h2⟩ | ⟨h1, h2, h3⟩
        · exact Or.inl ⟨h1, by rw [h2]; omega⟩
        · exact Or.inr ⟨h1, by omega, h3⟩

/-- The second switch accesses neither the status nor the start register. -/
theorem access_decode_events (hw : Hardware) (size : Int) (data : SmbusData) (tr : Trace) :
    ∃ ev : Trace, (access_decode hw size data tr).2 = tr ++ ev ∧
      ∀ e ∈ ev, ∀ v, e ≠ IOEvent.rd SMBHSTSTS v ∧ e ≠ IOEvent.wr SMBHSTSTS v ∧
        e ≠ IOEvent.wr SMBHSTSTART v := by
  by_cases h1 : size = ALI15X3_BYTE
  · simp only [access_decode, if_pos h1]
    exact ⟨_, rfl, by simp⟩
  by_cases h2 : size = ALI15X3_BYTE_DATA
  · simp only [access_decode, if_neg h1, if_pos h2]
    exact ⟨_, rfl, by simp⟩
  by_cases h3 : size = ALI15X3_WORD_DATA
  · simp only [access_decode, if_neg h1, if_neg h2, if_pos h3, inb_p_snd, List.append_assoc]
    exact ⟨_, rfl, by simp⟩
  by_cases h4 : size = ALI15X3_BLOCK_DATA
  · subst h4
    rw [access_decode_block]
    obtain ⟨vs, -, htr, -⟩ := block_read_loop_spec hw (min (hw tr SMBHSTDAT0 % 256) 32) 1
      ⟨data.byte, data.word, Function.update data.block 0 (min (hw tr SMBHSTDAT0 % 256) 32)⟩
      (tr ++ [IOEvent.rd SMBHSTDAT0 (hw tr SMBHSTDAT0 % 256),
          IOEvent.rd SMBHSTCNT
            (hw (tr ++ [IOEvent.rd SMBHSTDAT0 (hw tr SMBHSTDAT0 % 256)]) SMBHSTCNT % 256),
          IOEvent.wr SMBHSTCNT
            (hw (tr ++ [IOEvent.rd SMBHSTDAT0 (hw tr SMBHSTDAT0 % 256)]) SMBHSTCNT % 256 |||
              ALI15X3_BLOCK_CLR)])
    rw [htr]
    refine ⟨_, List.append_assoc _ _ _, ?_⟩
    intro e he v
    simp only [List.mem_append, List.mem_cons, List.mem_map, List.mem_singleton,
      List.not_mem_nil, or_false] at he
    rcases he with (he | he | he) | ⟨x, -, hx⟩
    · subst he; simp
    · subst he; simp
    · subst he; simp
    · subst hx; simp
  · simp only [access_decode, if_neg h1, if_neg h2, if_neg h3, if_neg h4]
    exact ⟨[], by simp, by simp⟩

theorem filter_port_of_ne {p : Nat} {l : List (Nat × Nat)} (h : ∀ w ∈ l, w.1 ≠ p) :
    l.filter (fun w => decide (w.1 = p)) = [] := by
  rw [List.filter_eq_nil_iff]
  intro w hw
  simp [h w hw]

theorem arm_write_port {w : Nat × Nat} (h : ArmWrite w) :
    w.1 ≠ SMBHSTSTS ∧ w.1 ≠ SMBHSTSTART := by
  simp only [ArmWrite] at h
  rcases h with h | h | h | h | h | ⟨h, -⟩ <;> rw [h] <;> decide

/-- The start register is written once when the transaction is started and
not at all otherwise. -/
theorem start_writes_of_access {hw : Hardware} {addr read_write command : Nat} {size : Int}
    {data : SmbusData} {a : Armed}
    (ha : access_arm hw addr read_write command size data = some a) :
    (writes (ali15x3_access hw addr read_write command size data).trace).filter
        (fun w => decide (w.1 = SMBHSTSTART)) =
      if (transaction_start hw a.trace).1 = true then [(SMBHSTSTART, 0xFF)] else [] := by
  obtain ⟨aw, haw, harm, -⟩ := writes_access_arm ha
  obtain ⟨sw, dw, htr, hsw, hdw, -⟩ := writes_ali15x3_access ha
  have h1 : (writes a.trace).filter (fun w => decide (w.1 = SMBHSTSTART)) = [] := by
    apply filter_port_of_ne
    intro w hw'
    rw [haw] at hw'
    simp only [List.mem_append, List.mem_cons, List.mem_singleton, List.not_mem_nil,
      or_false] at hw'
    rcases hw' with (h | h) | h
    · rw [h]; decide
    · exact (arm_write_port (harm w h)).2
    · have hp : w.1 = SMBHSTCNT := by rw [h]
      rw [hp]; decide
  have h2 : sw.filter (fun w => decide (w.1 = SMBHSTSTART)) = [] :=
    filter_port_of_all hsw (by decide)
  have h3 : dw.filter (fun w => decide (w.1 = SMBHSTSTART)) = [] :=
    filter_port_of_all (fun w hw' => (hdw w hw').1) (by decide)
  have h4 : (if hw a.trace SMBHSTSTS % 256 &&& ALI15X3_STS_BUSY ≠ 0 then
      [(SMBHSTCNT, ALI15X3_T_OUT)] else []).filter (fun w => decide (w.1 = SMBHSTSTART)) = [] := by
    split_ifs <;> rfl
  have h5 : (if (transaction_start hw a.trace).1 = true then [(SMBHSTSTART, 0xFF)]
      else []).filter (fun w => decide (w.1 = SMBHSTSTART)) =
      if (transaction_start hw a.trace).1 = true then [(SMBHSTSTART, 0xFF)] else [] := by
    split_ifs <;> rfl
  rw [htr]
  simp only [List.filter_append, h1, h2, h3, h4, h5, List.append_nil, List.nil_append]

/-! ## C20 -/

/-- C20: when `ali15x3_access` returns 0, the start register was written exactly
once, the polling loop ended at its read number `j + 1` for some
`j < MAX_TIMEOUT` (so within the first 500 polling reads), no status is read
after it, and the status of that read has DONE set, none of the error bits
0x20, 0x40, 0x80 set, and is not made of BUSY and IDLE bits only. -/
theorem success_requires_done (hw : Hardware) (addr read_write command : Nat)
    (size : Int) (data : SmbusData)
    (hret : (ali15x3_access hw addr read_write command size data).ret = 0) :
    ∃ (a : Armed) (j : Nat) (dv : Trace),
      access_arm hw addr read_write command size data = some a ∧
      (writes (ali15x3_access hw addr read_write command size data).trace).filter
        (fun w => decide (w.1 = SMBHSTSTART)) = [(SMBHSTSTART, 0xFF)] ∧
      (transaction_start hw a.trace).1 = true ∧
      j < MAX_TIMEOUT ∧
      (ali15x3_access hw addr read_write command size data).trace =
        poll_trace hw (j + 1) (transaction_start hw a.trace).2 ++ dv ∧
      (∀ e ∈ dv, ∀ v, e ≠ IOEvent.rd SMBHSTSTS v) ∧
      (transaction_poll hw MAX_TIMEOUT (transaction_start hw a.trace).2).temp =
        poll_status hw j (transaction_start hw a.trace).2 ∧
      poll_status hw j (transaction_start hw a.trace).2 &&& ALI15X3_STS_DONE ≠ 0 ∧
      poll_status hw j (transaction_start hw a.trace).2 &&& ALI15X3_STS_DEV = 0 ∧
      poll_status hw j (transaction_start hw a.trace).2 &&& ALI15X3_STS_COLL = 0 ∧
      poll_status hw j (transaction_start hw a.trace).2 &&& ALI15X3_STS_TERM = 0 ∧
      poll_status hw j (transaction_start hw a.trace).2 &&&
          (ALI15X3_STS_BUSY ||| ALI15X3_STS_IDLE) ≠
        poll_status hw j (transaction_start hw a.trace).2 := by
  cases ha : access_arm hw addr read_write command size data with
  | none =>
    simp only [ali15x3_access, ha] at hret
    exact absurd hret (show ¬ ((-1 : Int) = 0) by decide)
  | some a =>
    have ht : (ali15x3_transaction hw a.trace).1 = 0 := by
      by_contra h
      simp only [ali15x3_access, ha, if_pos h] at hret
      exact absurd hret (show ¬ ((-1 : Int) = 0) by decide)
    have hst : (transaction_start hw a.trace).1 = true := by
      by_contra h
      simp only [ali15x3_transaction, if_neg h] at ht
      exact absurd ht (show ¬ ((-1 : Int) = 0) by decide)
    obtain ⟨j, hj, htr, htemp, -, hend⟩ :=
      transaction_poll_spec hw MAX_TIMEOUT (transaction_start hw a.trace).2
    simp only [ali15x3_transaction, if_pos hst, transaction_result_eq] at ht
    have hok : ¬ ((transaction_poll hw MAX_TIMEOUT (transaction_start hw a.trace).2).timeout ≥
        MAX_TIMEOUT ∨
        (transaction_poll hw MAX_TIMEOUT (transaction_start hw a.trace).2).temp &&&
          ALI15X3_STS_ERR ≠ 0) := by
      intro h
      rw [if_pos h] at ht
      exact absurd ht (show ¬ ((-1 : Int) = 0) by decide)
    rw [not_or, not_not, htemp] at hok
    obtain ⟨hto, herr⟩ := hok
    have hfin : poll_status hw j (transaction_start hw a.trace).2 &&&
        (ALI15X3_STS_ERR ||| ALI15X3_STS_DONE) ≠ 0 ∧ j < MAX_TIMEOUT := by
      rcases hend with ⟨h1, h2⟩ | ⟨-, -, h3⟩
      · refine ⟨h1, ?_⟩
        rw [h2] at hto
        simp only [MAX_TIMEOUT] at hto hj ⊢
        omega
      · rw [h3] at hto
        exact absurd (Nat.le_succ _) hto
    have hdone : poll_status hw j (transaction_start hw a.trace).2 &&& ALI15X3_STS_DONE ≠ 0 :=
      fun h => hfin.1 ((and_or_eq_zero _ _ _).mpr ⟨herr, h⟩)
    obtain ⟨hterm, hcoll, hdev⟩ := (err_bits_eq_zero _).mp herr
    have hpt : (ali15x3_transaction hw a.trace).2 =
        poll_trace hw (j + 1) (transaction_start hw a.trace).2 := by
      simp only [ali15x3_transaction, if_pos hst, htr]
    have hout : ∃ dv : Trace,
        (ali15x3_access hw addr read_write command size data).trace =
          poll_trace hw (j + 1) (transaction_start hw a.trace).2 ++ dv ∧
        ∀ e ∈ dv, ∀ v, e ≠ IOEvent.rd SMBHSTSTS v := by
      obtain ⟨ev, hev, hevs⟩ := access_decode_events hw a.size a.data
        (ali15x3_transaction hw a.trace).2
      simp only [ali15x3_access, ha]
      split_ifs
      · exact ⟨[], by rw [hpt]; simp, by simp⟩
      · exact ⟨[], by rw [hpt]; simp, by simp⟩
      · exact ⟨ev, by rw [hev, hpt], fun e he v => (hevs e he v).1⟩
    obtain ⟨dv, hdv, hdvs⟩ := hout
    refine ⟨a, j, dv, rfl, ?_, hst, hfin.2, hdv, hdvs, htemp, hdone, hdev, hcoll, hterm, ?_⟩
    · rw [start_writes_of_access ha, if_pos hst]
    · intro h
      apply hdone
      rw [← h, Nat.and_assoc]
      have : (ALI15X3_STS_BUSY ||| ALI15X3_STS_IDLE) &&& ALI15X3_STS_DONE = 0 := by decide
      rw [this, Nat.and_zero]

/-- Witness for C20: the byte-data write on the well-behaved controller, which
reports DONE at the second polling read. -/
theorem success_requires_done_witness :
    ∃ (a : Armed) (j : Nat) (dv : Trace),
      access_arm hw_good 0x50 I2C_SMBUS_WRITE 0 I2C_SMBUS_BYTE_DATA sample_data = some a ∧
      (writes (ali15x3_access hw_good 0x50 I2C_SMBUS_WRITE 0 I2C_SMBUS_BYTE_DATA
        sample_data).trace).filter
        (fun w => decide (w.1 = SMBHSTSTART)) = [(SMBHSTSTART, 0xFF)] ∧
      (transaction_start hw_good a.trace).1 = true ∧
      j < MAX_TIMEOUT ∧
      (ali15x3_access hw_good 0x50 I2C_SMBUS_WRITE 0 I2C_SMBUS_BYTE_DATA sample_data).trace =
        poll_trace hw_good (j + 1) (transaction_start hw_good a.trace).2 ++ dv ∧
      (∀ e ∈ dv, ∀ v, e ≠ IOEvent.rd SMBHSTSTS v) ∧
      (transaction_poll hw_good MAX_TIMEOUT (transaction_start hw_good a.trace).2).temp =
        poll_status hw_good j (transaction_start hw_good a.trace).2 ∧
      poll_status hw_good j (transaction_start hw_good a.trace).2 &&& ALI15X3_STS_DONE ≠ 0 ∧
      poll_status hw_good j (transaction_start hw_good a.trace).2 &&& ALI15X3_STS_DEV = 0 ∧
      poll_status hw_good j (transaction_start hw_good a.trace).2 &&& ALI15X3_STS_COLL = 0 ∧
      poll_status hw_good j (transaction_start hw_good a.trace).2 &&& ALI15X3_STS_TERM = 0 ∧
      poll_status hw_good j (transaction_start hw_good a.trace).2 &&&
          (ALI15X3_STS_BUSY ||| ALI15X3_STS_IDLE) ≠
        poll_status hw_good j (transaction_start hw_good a.trace).2 :=
  success_requires_done hw_good 0x50 I2C_SMBUS_WRITE 0 I2C_SMBUS_BYTE_DATA sample_data
    (by decide)

/-! ## C11 -/

theorem transaction_poll_hw_idle (n : Nat) :
    ∀ tr : Trace, transaction_poll hw_idle n tr =
      ⟨0x04, MAX_TIMEOUT + 1, tr ++ List.replicate (n + 1) (IOEvent.rd SMBHSTSTS 0x04)⟩ := by
  have hv : ∀ tr : Trace, hw_idle tr SMBHSTSTS % 256 = 0x04 := fun _ => rfl
  have h : ¬ (0x04 &&& (ALI15X3_STS_ERR ||| ALI15X3_STS_DONE) ≠ 0) := by decide
  induction n with
  | zero =>
    intro tr
    rw [transaction_poll_zero, hv, if_neg h]
    rfl
  | succ n ih =>
    intro tr
    rw [transaction_poll_succ, hv, if_neg h, ih]
    simp only [Polled.mk.injEq, true_and, List.append_assoc]
    rfl

/-- C11, the code at the failing input: in a byte-data write on a controller
that stays idle and never reports DONE or an error, the start write is
followed by 501 status reads, one more than `MAX_TIMEOUT`; the call
returns -1. -/
theorem polling_reads_status_501_times :
    (ali15x3_access hw_idle 0x50 I2C_SMBUS_WRITE 0 I2C_SMBUS_BYTE_DATA sample_data).trace =
      [IOEvent.wr SMBHSTSTS 0xFF, IOEvent.rd SMBHSTSTS 0x04, IOEvent.wr SMBHSTADD 0xA0,
        IOEvent.wr SMBHSTCMD 0x00, IOEvent.wr SMBHSTDAT0 0xAB, IOEvent.wr SMBHSTCNT 0x20,
        IOEvent.rd SMBHSTSTS 0x04, IOEvent.wr SMBHSTSTART 0xFF] ++
        List.replicate (MAX_TIMEOUT + 1) (IOEvent.rd SMBHSTSTS 0x04) ∧
    (ali15x3_access hw_idle 0x50 I2C_SMBUS_WRITE 0 I2C_SMBUS_BYTE_DATA sample_data).ret = -1 := by
  have ha : access_arm hw_idle 0x50 I2C_SMBUS_WRITE 0 I2C_SMBUS_BYTE_DATA sample_data =
      some ⟨ALI15X3_BYTE_DATA, sample_data,
        [IOEvent.wr SMBHSTSTS 0xFF, IOEvent.rd SMBHSTSTS 0x04, IOEvent.wr SMBHSTADD 0xA0,
          IOEvent.wr SMBHSTCMD 0x00, IOEvent.wr SMBHSTDAT0 0xAB, IOEvent.wr SMBHSTCNT 0x20]⟩ :=
    rfl
  have hst : transaction_start hw_idle
      [IOEvent.wr SMBHSTSTS 0xFF, IOEvent.rd SMBHSTSTS 0x04, IOEvent.wr SMBHSTADD 0xA0,
        IOEvent.wr SMBHSTCMD 0x00, IOEvent.wr SMBHSTDAT0 0xAB, IOEvent.wr SMBHSTCNT 0x20] =
      (true, [IOEvent.wr SMBHSTSTS 0xFF, IOEvent.rd SMBHSTSTS 0x04, IOEvent.wr SMBHSTADD 0xA0,
        IOEvent.wr SMBHSTCMD 0x00, IOEvent.wr SMBHSTDAT0 0xAB, IOEvent.wr SMBHSTCNT 0x20,
        IOEvent.rd SMBHSTSTS 0x04, IOEvent.wr SMBHSTSTART 0xFF]) := by
    decide
  have ht : ali15x3_transaction hw_idle
      [IOEvent.wr SMBHSTSTS 0xFF, IOEvent.rd SMBHSTSTS 0x04, IOEvent.wr SMBHSTADD 0xA0,
        IOEvent.wr SMBHSTCMD 0x00, IOEvent.wr SMBHSTDAT0 0xAB, IOEvent.wr SMBHSTCNT 0x20] =
      (-1, [IOEvent.wr SMBHSTSTS 0xFF, IOEvent.rd SMBHSTSTS 0x04, IOEvent.wr SMBHSTADD 0xA0,
        IOEvent.wr SMBHSTCMD 0x00, IOEvent.wr SMBHSTDAT0 0xAB, IOEvent.wr SMBHSTCNT 0x20,
        IOEvent.rd SMBHSTSTS 0x04, IOEvent.wr SMBHSTSTART 0xFF] ++
        List.replicate (MAX_TIMEOUT + 1) (IOEvent.rd SMBHSTSTS 0x04)) := by
    simp only [ali15x3_transaction, hst, if_true, transaction_poll_hw_idle]
    rfl
  simp only [ali15x3_access, ha, ht]
  exact ⟨rfl, rfl⟩

/-! ## C19 -/

theorem u8_of_int_lt (z : Int) : u8_of_int z < 256 := by
  unfold u8_of_int
  omega

theorem count_reset_access_arm {hw : Hardware} {addr read_write command : Nat} {size : Int}
    {data : SmbusData} {a : Armed}
    (ha : access_arm hw addr read_write command size data = some a) :
    (writes a.trace).count (SMBHSTCNT, ALI15X3_T_OUT) ≤ 1 ∧
      (Supported size ∨ u8_of_int size ≠ ALI15X3_T_OUT →
        (writes a.trace).count (SMBHSTCNT, ALI15X3_T_OUT) = 0) := by
  obtain ⟨aw, haw, harm, -⟩ := writes_access_arm ha
  have h0 : ((SMBHSTSTS, 0xFF) :: aw).count (SMBHSTCNT, ALI15X3_T_OUT) = 0 := by
    apply List.count_eq_zero_of_not_mem
    intro h
    rcases List.mem_cons.mp h with h | h
    · exact absurd h (by decide)
    · exact absurd (harm _ h) (by unfold ArmWrite; decide)
  rw [haw, List.count_append, h0, Nat.zero_add]
  refine ⟨?_, ?_⟩
  · rw [List.count_singleton]
    split_ifs <;> omega
  · intro hne
    apply List.count_eq_zero_of_not_mem
    intro h
    have h2 := (Prod.mk.injEq _ _ _ _ ▸ List.mem_singleton.mp h).2
    by_cases hs : Supported size
    · rw [(access_arm_supported hs ha).1] at h2
      revert h2
      rcases hs with rfl | rfl | rfl | rfl | rfl <;> decide
    · have h4 : size ≠ I2C_SMBUS_PROC_CALL := by
        intro h4
        rw [access_arm_eq_none.mpr h4] at ha
        exact Option.noConfusion ha
      obtain ⟨b, hb, hbs, -, -⟩ := access_arm_eq_some ha
      rw [access_switch_other hw _ addr read_write command size data h4 hs] at hb
      simp only [Option.some.injEq] at hb
      subst hb
      rw [hbs, Nat.mod_eq_of_lt (u8_of_int_lt size)] at h2
      rcases hne with hne | hne
      · exact hs hne
      · exact hne h2.symm

/-- C19, the claim as stated fails: with the undefined size value 260 the
host-command byte put on the bus is 260 mod 256 = 0x04, and on a controller
that reads BUSY the recovery writes 0x04 to the command register again, so the
call writes 0x04 to the command register twice. -/
theorem bus_reset_value_written_twice :
    (writes (ali15x3_access hw_stuck 0x50 I2C_SMBUS_WRITE 0 260 sample_data).trace).count
      (SMBHSTCNT, ALI15X3_T_OUT) = 2 := by
  decide

/-- C19, amended: in every call the start register is written at most once; the
writes that follow the host-command byte contain the bus reset, 0x04 to the
command register, at most once; 0x04 is written to the command register at most
once in the whole call for each of the six defined size classes and for every
other size whose low byte is not 0x04, and at most twice in any case. -/
theorem no_retry_within_call (hw : Hardware) (addr read_write command : Nat)
    (size : Int) (data : SmbusData) :
    ((writes (ali15x3_access hw addr read_write command size data).trace).filter
      (fun w => decide (w.1 = SMBHSTSTART))).length ≤ 1 ∧
    (∀ a, access_arm hw addr read_write command size data = some a →
      ∃ rest : List (Nat × Nat),
        writes (ali15x3_access hw addr read_write command size data).trace =
          writes a.trace ++ rest ∧
        rest.count (SMBHSTCNT, ALI15X3_T_OUT) ≤ 1) ∧
    (Supported size ∨ size = I2C_SMBUS_PROC_CALL ∨ u8_of_int size ≠ ALI15X3_T_OUT →
      (writes (ali15x3_access hw addr read_write command size data).trace).count
        (SMBHSTCNT, ALI15X3_T_OUT) ≤ 1) ∧
    (writes (ali15x3_access hw addr read_write command size data).trace).count
      (SMBHSTCNT, ALI15X3_T_OUT) ≤ 2 := by
  have hrest : ∀ a, access_arm hw addr read_write command size data = some a →
      ∃ rest : List (Nat × Nat),
        writes (ali15x3_access hw addr read_write command size data).trace =
          writes a.trace ++ rest ∧
        rest.count (SMBHSTCNT, ALI15X3_T_OUT) ≤ 1 := by
    intro a ha
    obtain ⟨sw, dw, htr, hsw, hdw, -⟩ := writes_ali15x3_access ha
    refine ⟨(if hw a.trace SMBHSTSTS % 256 &&& ALI15X3_STS_BUSY ≠ 0 then
        [(SMBHSTCNT, ALI15X3_T_OUT)] else []) ++ sw ++
      (if (transaction_start hw a.trace).1 = true then [(SMBHSTSTART, 0xFF)] else []) ++ dw,
      by rw [htr]; simp only [List.append_assoc], ?_⟩
    have h1 : sw.count (SMBHSTCNT, ALI15X3_T_OUT) = 0 :=
      List.count_eq_zero_of_not_mem (fun h => absurd (hsw _ h) (by decide))
    have h2 : dw.count (SMBHSTCNT, ALI15X3_T_OUT) = 0 :=
      List.count_eq_zero_of_not_mem (fun h => (hdw _ h).2 (by decide))
    have h3 : (if (transaction_start hw a.trace).1 = true then [(SMBHSTSTART, 0xFF)]
        else []).count (SMBHSTCNT, ALI15X3_T_OUT) = 0 := by
      split_ifs <;> decide
    have h4 : (if hw a.trace SMBHSTSTS % 256 &&& ALI15X3_STS_BUSY ≠ 0 then
        [(SMBHSTCNT, ALI15X3_T_OUT)] else []).count (SMBHSTCNT, ALI15X3_T_OUT) ≤ 1 := by
      split_ifs <;> decide
    rw [List.count_append, List.count_append, List.count_append, h1, h2, h3]
    omega
  refine ⟨?_, hrest, ?_, ?_⟩
  · cases ha : access_arm hw addr read_write command size data with
    | none =>
      simp only [ali15x3_access, ha, writes_access_idle]
      decide
    | some a =>
      rw [start_writes_of_access ha]
      split_ifs <;> decide
  · intro hs
    cases ha : access_arm hw addr read_write command size data with
    | none =>
      simp only [ali15x3_access, ha, writes_access_idle]
      decide
    | some a =>
      have hne : Supported size ∨ u8_of_int size ≠ ALI15X3_T_OUT := by
        rcases hs with hs | hs | hs
        · exact Or.inl hs
        · rw [access_arm_eq_none.mpr hs] at ha
          exact Option.noConfusion ha
        · exact Or.inr hs
      obtain ⟨rest, hrw, hcount⟩ := hrest a ha
      rw [hrw, List.count_append, (count_reset_access_arm ha).2 hne]
      omega
  · cases ha : access_arm hw addr read_write command size data with
    | none =>
      simp only [ali15x3_access, ha, writes_access_idle]
      decide
    | some a =>
      obtain ⟨rest, hrw, hcount⟩ := hrest a ha
      have h1 := (count_reset_access_arm ha).1
      rw [hrw, List.count_append]
      omega

/-- Witness for C19: a byte-data write on a controller that reads BUSY until
the bus reset; the bus reset is written once. -/
theorem no_retry_within_call_witness :
    Supported I2C_SMBUS_BYTE_DATA ∧
      (writes (ali15x3_access hw_busy_once 0x50 I2C_SMBUS_WRITE 0 I2C_SMBUS_BYTE_DATA
        sample_data).trace).count (SMBHSTCNT, ALI15X3_T_OUT) ≤ 1 ∧
      (writes (ali15x3_access hw_busy_once 0x50 I2C_SMBUS_WRITE 0 I2C_SMBUS_BYTE_DATA
        sample_data).trace).count (SMBHSTCNT, ALI15X3_T_OUT) = 1 :=
  ⟨by decide,
    (no_retry_within_call hw_busy_once 0x50 I2C_SMBUS_WRITE 0 I2C_SMBUS_BYTE_DATA
      sample_data).2.2.1 (Or.inl (by decide)),
    by decide⟩

/-! ## C21 -/

theorem access_failed_iff {hw : Hardware} {addr read_write command : Nat}
    {size : Int} {data : SmbusData} {a : Armed}
    (ha : access_arm hw addr read_write command size data = some a) :
    ((ali15x3_access hw addr read_write command size data).ret = -1 ↔
        (ali15x3_transaction hw a.trace).1 ≠ 0) ∧
      ((ali15x3_access hw addr read_write command size data).ret = 0 ↔
        (ali15x3_transaction hw a.trace).1 = 0) := by
  by_cases hf : (ali15x3_transaction hw a.trace).1 ≠ 0
  · have h := (access_of_failed_transaction ha hf).1
    rw [h]
    exact ⟨⟨fun _ => hf, fun _ => rfl⟩, ⟨fun h0 => absurd h0 (by decide), fun h0 => absurd h0 hf⟩⟩
  · have h0 : (ali15x3_access hw addr read_write command size data).ret = 0 := by
      simp only [ali15x3_access, ha, if_neg hf]
      split_ifs <;> rfl
    rw [h0]
    exact ⟨⟨fun h1 => absurd h1 (by decide), fun h1 => absurd h1 hf⟩,
      ⟨fun _ => not_not.mp hf, fun _ => rfl⟩⟩

theorem access_arm_data_block_write {hw : Hardware} {addr command : Nat} {data : SmbusData}
    {a : Armed}
    (ha : access_arm hw addr I2C_SMBUS_WRITE command I2C_SMBUS_BLOCK_DATA data = some a) :
    a.data = { data with block := Function.update data.block 0 (min (data.block 0) 32) } := by
  obtain ⟨b, hb, -, hd, -⟩ := access_arm_eq_some ha
  rw [access_switch_block_write] at hb
  simp only [Option.some.injEq] at hb
  rw [hd, ← hb]

/-- C21: when a call returns -1 the payload it leaves is the payload it was
given, except that a block-data write with a length header above 32 leaves the
header `block 0` set to 32; every other block entry is the caller's, and a
failed call that is not a write (so every failed read) leaves the payload as it
was. -/
theorem failed_call_keeps_payload (hw : Hardware) (addr read_write command : Nat)
    (size : Int) (data : SmbusData)
    (hf : (ali15x3_access hw addr read_write command size data).ret = -1) :
    (ali15x3_access hw addr read_write command size data).data =
        (if size = I2C_SMBUS_BLOCK_DATA ∧ read_write = I2C_SMBUS_WRITE ∧ 32 < data.block 0 then
          { data with block := Function.update data.block 0 32 }
        else data) ∧
      (ali15x3_access hw addr read_write command size data).data.block 0 =
        (if size = I2C_SMBUS_BLOCK_DATA ∧ read_write = I2C_SMBUS_WRITE ∧ 32 < data.block 0 then 32
        else data.block 0) ∧
      (∀ i, i ≠ 0 →
        (ali15x3_access hw addr read_write command size data).data.block i = data.block i) ∧
      (read_write ≠ I2C_SMBUS_WRITE →
        (ali15x3_access hw addr read_write command size data).data = data) := by
  have key : (ali15x3_access hw addr read_write command size data).data =
      (if size = I2C_SMBUS_BLOCK_DATA ∧ read_write = I2C_SMBUS_WRITE ∧ 32 < data.block 0 then
        { data with block := Function.update data.block 0 32 }
      else data) := by
    cases ha : access_arm hw addr read_write command size data with
    | none =>
      have h4 := access_arm_eq_none.mp ha
      have hc : ¬ (size = I2C_SMBUS_BLOCK_DATA ∧ read_write = I2C_SMBUS_WRITE ∧
          32 < data.block 0) := by
        rintro ⟨h5, -, -⟩
        rw [h4] at h5
        exact absurd h5 (by decide)
      rw [if_neg hc]
      simp only [ali15x3_access, ha]
    | some a =>
      have ht := (access_failed_iff ha).1.mp hf
      rw [(access_of_failed_transaction ha ht).2.1]
      by_cases hb : size = I2C_SMBUS_BLOCK_DATA ∧ read_write = I2C_SMBUS_WRITE
      · obtain ⟨h5, hw0⟩ := hb
        subst h5
        subst hw0
        rw [access_arm_data_block_write ha]
        by_cases hl : 32 < data.block 0
        · rw [if_pos ⟨rfl, rfl, hl⟩, Nat.min_eq_right (Nat.le_of_lt hl)]
        · have hc : ¬ (I2C_SMBUS_BLOCK_DATA = I2C_SMBUS_BLOCK_DATA ∧
              I2C_SMBUS_WRITE = I2C_SMBUS_WRITE ∧ 32 < data.block 0) := fun h => hl h.2.2
          rw [if_neg hc, Nat.min_eq_left (Nat.le_of_not_lt hl), Function.update_eq_self]
      · have hc : ¬ (size = I2C_SMBUS_BLOCK_DATA ∧ read_write = I2C_SMBUS_WRITE ∧
            32 < data.block 0) := fun h => hb ⟨h.1, h.2.1⟩
        rw [if_neg hc, access_arm_data_eq ha hb]
  refine ⟨key, ?_, ?_, ?_⟩
  · rw [key]
    split_ifs
    · exact Function.update_same 0 32 data.block
    · rfl
  · intro i hi
    rw [key]
    split_ifs
    · exact Function.update_noteq hi _ _
    · rfl
  · intro hr
    rw [key, if_neg (fun h => hr h.2.1)]

/-- Witness for C21: a block-data write of declared length 40 on a controller
that stays BUSY fails, and the payload comes back with the length header 32. -/
theorem failed_call_keeps_payload_witness :
    (ali15x3_access hw_stuck 0x50 I2C_SMBUS_WRITE 0 I2C_SMBUS_BLOCK_DATA sample_data).ret = -1 ∧
      (ali15x3_access hw_stuck 0x50 I2C_SMBUS_WRITE 0 I2C_SMBUS_BLOCK_DATA sample_data).data =
        { sample_data with block := Function.update sample_data.block 0 32 } ∧
      (ali15x3_access hw_stuck 0x50 I2C_SMBUS_WRITE 0 I2C_SMBUS_BLOCK_DATA
        sample_data).data.block 0 = 32 :=
  ⟨by decide,
    ((failed_call_keeps_payload hw_stuck 0x50 I2C_SMBUS_WRITE 0 I2C_SMBUS_BLOCK_DATA sample_data
      (by decide)).1).trans (if_pos (by decide)),
    ((failed_call_keeps_payload hw_stuck 0x50 I2C_SMBUS_WRITE 0 I2C_SMBUS_BLOCK_DATA sample_data
      (by decide)).2.1).trans (if_pos (by decide))⟩

/-! ## C22 -/

theorem u8_of_int_cast (z : Int) :
    (u8_of_int z : Int) = z % 256 ∧ (0 ≤ z → z < 256 → (u8_of_int z : Int) = z) := by
  unfold u8_of_int
  omega

theorem transaction_start_fst (hw : Hardware) (tr : Trace) :
    (transaction_start hw tr).1 = false ↔
      ((transaction_recover hw tr).1 &&& (ALI15X3_STS_ERR ||| ALI15X3_STS_BUSY) ≠ 0 ∧
        (inb_p hw (outb_p (transaction_recover hw tr).2 0xFF SMBHSTSTS) SMBHSTSTS).1 &&&
          (ALI15X3_STS_ERR ||| ALI15X3_STS_BUSY) ≠ 0) := by
  simp only [transaction_start]
  split_ifs with h1 h2 h3
  · exact ⟨fun _ => ⟨h1, h2⟩, fun _ => rfl⟩
  · exact ⟨fun h => absurd h (by decide), fun h => absurd h.2 h2⟩
  · exact ⟨fun h => absurd h (by decide), fun h => absurd h.1 h1⟩
  · exact ⟨fun h => absurd h (by decide), fun h => absurd h.1 h1⟩

theorem access_arm_other {hw : Hardware} {addr read_write command : Nat} {size : Int}
    {data : SmbusData} (hs : ¬ Supported size) (h4 : size ≠ I2C_SMBUS_PROC_CALL) :
    access_arm hw addr read_write command size data =
      some ⟨size, data, (access_idle hw).2 ++ [IOEvent.wr SMBHSTCNT (u8_of_int size)]⟩ := by
  simp only [access_arm, access_switch_other hw _ addr read_write command size data h4 hs,
    outb_p, Nat.mod_eq_of_lt (u8_of_int_lt size)]

theorem access_trace_of_transaction {hw : Hardware} {addr read_write command : Nat}
    {size : Int} {data : SmbusData} {a : Armed}
    (ha : access_arm hw addr read_write command size data = some a) :
    ∃ dv : Trace,
      (ali15x3_access hw addr read_write command size data).trace =
        (ali15x3_transaction hw a.trace).2 ++ dv ∧
      ∀ e ∈ dv, ∀ v, e ≠ IOEvent.rd SMBHSTSTS v ∧ e ≠ IOEvent.wr SMBHSTSTS v ∧
        e ≠ IOEvent.wr SMBHSTSTART v := by
  simp only [ali15x3_access, ha]
  split_ifs with h1 h2
  · exact ⟨[], (List.append_nil _).symm, fun e he => absurd he (List.not_mem_nil e)⟩
  · exact ⟨[], (List.append_nil _).symm, fun e he => absurd he (List.not_mem_nil e)⟩
  · exact access_decode_events hw a.size a.data _

/-- C22, the claim as stated fails: the size value 260 is none of the six
defined size classes, and the call writes 0x04, not 260, to the command
register; its write trace is the status clear, 0x04 to the command register and
the start write. -/
theorem raw_size_written_truncated :
    ¬ Supported 260 ∧ (260 : Int) ≠ I2C_SMBUS_PROC_CALL ∧
      writes (ali15x3_access hw_good 0x50 I2C_SMBUS_WRITE 0 260 sample_data).trace =
        [(SMBHSTSTS, 0xFF), (SMBHSTCNT, 0x04), (SMBHSTSTART, 0xFF)] ∧
      (SMBHSTCNT, 260) ∉
        writes (ali15x3_access hw_good 0x50 I2C_SMBUS_WRITE 0 260 sample_data).trace := by
  decide

/-- C22, amended: for a size value that is none of the six defined size classes
the call is not rejected: the payload is handed on as given, the only writes
before the transaction are the status clear and the low byte of the size
(the size itself when it lies in 0..255) to the command register, no write of
the whole call goes to a register other than status, command and start,
`ali15x3_transaction` is run on that state and decides the return value, and
the start register is written once unless the controller is found stuck, in
which case the call returns -1 without a start write. -/
theorem undefined_size_written_as_byte (hw : Hardware) (addr read_write command : Nat)
    (size : Int) (data : SmbusData) (hs : ¬ Supported size)
    (h4 : size ≠ I2C_SMBUS_PROC_CALL) :
    ∃ (a : Armed) (rest : List (Nat × Nat)) (dv : Trace),
      access_arm hw addr read_write command size data = some a ∧
      a.size = size ∧ a.data = data ∧
      a.trace = (access_idle hw).2 ++ [IOEvent.wr SMBHSTCNT (u8_of_int size)] ∧
      writes a.trace = [(SMBHSTSTS, 0xFF), (SMBHSTCNT, u8_of_int size)] ∧
      (u8_of_int size : Int) = size % 256 ∧
      (0 ≤ size → size < 256 → (u8_of_int size : Int) = size) ∧
      writes (ali15x3_access hw addr read_write command size data).trace =
        (SMBHSTSTS, 0xFF) :: (SMBHSTCNT, u8_of_int size) :: rest ∧
      (∀ w ∈ rest, w.1 = SMBHSTSTS ∨ w.1 = SMBHSTCNT ∨ w.1 = SMBHSTSTART) ∧
      (ali15x3_access hw addr read_write command size data).trace =
        (ali15x3_transaction hw a.trace).2 ++ dv ∧
      (∀ e ∈ dv, ∀ v, e ≠ IOEvent.rd SMBHSTSTS v ∧ e ≠ IOEvent.wr SMBHSTSTS v ∧
        e ≠ IOEvent.wr SMBHSTSTART v) ∧
      ((ali15x3_access hw addr read_write command size data).ret = 0 ↔
        (ali15x3_transaction hw a.trace).1 = 0) ∧
      (¬ ((transaction_recover hw a.trace).1 &&& (ALI15X3_STS_ERR ||| ALI15X3_STS_BUSY) ≠ 0 ∧
          (inb_p hw (outb_p (transaction_recover hw a.trace).2 0xFF SMBHSTSTS) SMBHSTSTS).1 &&&
            (ALI15X3_STS_ERR ||| ALI15X3_STS_BUSY) ≠ 0) →
        (writes (ali15x3_access hw addr read_write command size data).trace).filter
          (fun w => decide (w.1 = SMBHSTSTART)) = [(SMBHSTSTART, 0xFF)]) ∧
      (((transaction_recover hw a.trace).1 &&& (ALI15X3_STS_ERR ||| ALI15X3_STS_BUSY) ≠ 0 ∧
          (inb_p hw (outb_p (transaction_recover hw a.trace).2 0xFF SMBHSTSTS) SMBHSTSTS).1 &&&
            (ALI15X3_STS_ERR ||| ALI15X3_STS_BUSY) ≠ 0) →
        (writes (ali15x3_access hw addr read_write command size data).trace).filter
          (fun w => decide (w.1 = SMBHSTSTART)) = [] ∧
        (ali15x3_access hw addr read_write command size data).ret = -1) := by
  have ha : access_arm hw addr read_write command size data =
      some ⟨size, data, (access_idle hw).2 ++ [IOEvent.wr SMBHSTCNT (u8_of_int size)]⟩ :=
    access_arm_other hs h4
  have hwa : writes ((access_idle hw).2 ++ [IOEvent.wr SMBHSTCNT (u8_of_int size)]) =
      [(SMBHSTSTS, 0xFF), (SMBHSTCNT, u8_of_int size)] := by
    rw [writes_append, writes_access_idle]
    rfl
  obtain ⟨sw, dw, htr, hsw, hdw, -⟩ := writes_ali15x3_access ha
  obtain ⟨dv, hdv, hdvp⟩ := access_trace_of_transaction ha
  have hstart := start_writes_of_access ha
  refine ⟨_, (if hw ((access_idle hw).2 ++ [IOEvent.wr SMBHSTCNT (u8_of_int size)]) SMBHSTSTS
        % 256 &&& ALI15X3_STS_BUSY ≠ 0 then [(SMBHSTCNT, ALI15X3_T_OUT)] else []) ++ sw ++
      (if (transaction_start hw
          ((access_idle hw).2 ++ [IOEvent.wr SMBHSTCNT (u8_of_int size)])).1 = true
        then [(SMBHSTSTART, 0xFF)] else []) ++ dw, dv,
    ha, rfl, rfl, rfl, hwa, (u8_of_int_cast size).1, (u8_of_int_cast size).2, ?_, ?_, hdv, hdvp,
    (access_failed_iff ha).2, ?_, ?_⟩
  · rw [htr, hwa]
    simp only [List.cons_append, List.nil_append, List.append_assoc]
  · intro w hw0
    simp only [List.mem_append] at hw0
    rcases hw0 with ((hw0 | hw0) | hw0) | hw0
    · split_ifs at hw0
      · rw [List.mem_singleton.mp hw0]; exact Or.inr (Or.inl rfl)
      · exact absurd hw0 (List.not_mem_nil w)
    · exact Or.inl (hsw w hw0)
    · split_ifs at hw0
      · rw [List.mem_singleton.mp hw0]; exact Or.inr (Or.inr rfl)
      · exact absurd hw0 (List.not_mem_nil w)
    · exact Or.inr (Or.inl (hdw w hw0).1)
  · intro hns
    have hst : (transaction_start hw
        ((access_idle hw).2 ++ [IOEvent.wr SMBHSTCNT (u8_of_int size)])).1 = true := by
      cases hb : (transaction_start hw
        ((access_idle hw).2 ++ [IOEvent.wr SMBHSTCNT (u8_of_int size)])).1 with
      | true => rfl
      | false => exact absurd ((transaction_start_fst hw _).mp hb) hns
    rw [hstart, if_pos hst]
  · intro hst
    have hb := (transaction_start_fst hw _).mpr hst
    refine ⟨?_, ?_⟩
    · rw [hstart, hb]
      rfl
    · apply (access_failed_iff ha).1.mpr
      simp only [ali15x3_transaction, hb, Bool.false_eq_true, if_false]
      exact fun h => absurd (show (-1 : Int) = 0 from h) (by decide)

/-- Witness for C22: size value 6 on a well-behaved controller; the call is run
and returns 0, with 6 written to the command register. -/
theorem undefined_size_written_as_byte_witness :
    ¬ Supported 6 ∧ (6 : Int) ≠ I2C_SMBUS_PROC_CALL ∧
      ∃ (a : Armed) (rest : List (Nat × Nat)),
        access_arm hw_good 0x50 I2C_SMBUS_WRITE 0 6 sample_data = some a ∧
        writes (ali15x3_access hw_good 0x50 I2C_SMBUS_WRITE 0 6 sample_data).trace =
          (SMBHSTSTS, 0xFF) :: (SMBHSTCNT, u8_of_int 6) :: rest ∧
        u8_of_int 6 = 6 ∧
        (ali15x3_access hw_good 0x50 I2C_SMBUS_WRITE 0 6 sample_data).ret = 0 := by
  obtain ⟨a, rest, -, ha, -, -, -, -, -, -, hw0, -⟩ :=
    undefined_size_written_as_byte hw_good 0x50 I2C_SMBUS_WRITE 0 6 sample_data
      (by decide) (by decide)
  exact ⟨by decide, by decide, a, rest, ha, hw0, by decide, by decide⟩

end Ali15x3
